import Mathlib

/-!
Shallow embedding of the mgtdisklib MGT disk-image library
(src/mgtdisklib/Image.py, File.py, Disk.py) and proofs about it.

Python `bytearray`s are modelled by `ByteBuf`: a length together with a
total contents function.  Slice assignment `data[o:o+n] = r` with `n = len(r)`
is modelled by `ByteBuf.writeBytes`, which reproduces Python's splice
semantics for every offset (in-place overwrite when the slice is wholly in
range, extension at the end otherwise).  Python byte values are `Nat`s that
are kept below 256 by construction.  Python `int`s used as track/sector
numbers are modelled by `Int`.  Exceptions (`ValueError`, `RuntimeError`,
`IndexError`, `TypeError`) are modelled with `Except Err`.
-/

namespace MgtDiskLib

/-- Python exception kinds raised by the library. -/
inductive Err where
  | valueError
  | runtimeError
  | indexError
  | typeError
deriving DecidableEq

/-- Python `bytearray`/`bytes`: a size plus total contents function
(indices `≥ size` are irrelevant; reads go through `readBytes`). -/
structure ByteBuf where
  size : Nat
  mem : Nat → Nat

/-- Python slice read `data[o:o+n]` on a bytearray: stops at the end of the
buffer (never fails). -/
def ByteBuf.readBytes (b : ByteBuf) (o n : Nat) : List Nat :=
  (List.range (min n (b.size - o))).map fun i => b.mem (o + i)

/-- Python slice assignment `data[o:o+len r] = r` on a bytearray: overwrites
in place when the range is inside the buffer, extends at the end otherwise. -/
def ByteBuf.writeBytes (b : ByteBuf) (o : Nat) (r : List Nat) : ByteBuf :=
  ⟨max b.size (min o b.size + r.length),
   fun i => if min o b.size ≤ i ∧ i < min o b.size + r.length
            then r.getD (i - min o b.size) 0 else b.mem i⟩

/-- Python list/bytes slice `l[a:b]` for `0 ≤ a ≤ b`. -/
def pySlice (l : List Nat) (a b : Nat) : List Nat :=
  (l.drop a).take (b - a)

/-- Python slice assignment `l[a:b] = r` for `0 ≤ a ≤ b` (on a list value). -/
def pySetSlice (l : List Nat) (a b : Nat) (r : List Nat) : List Nat :=
  l.take a ++ r ++ l.drop b

/-- Python single-element read `l[i]` (callers only use it in range). -/
def pyGet (l : List Nat) (i : Nat) : Nat := l.getD i 0

/-- Python single-element assignment `l[i] = v` (callers only use it in range). -/
def pySet (l : List Nat) (i v : Nat) : List Nat := l.set i v

theorem and127_eq_mod (t : Nat) : t &&& 127 = t % 128 := by
  have h : (127 : Nat) = 2 ^ 7 - 1 := by norm_num
  rw [h, Nat.and_pow_two_sub_one_eq_mod]

theorem shiftRight7_eq_div (t : Nat) : t >>> 7 = t / 128 := by
  rw [Nat.shiftRight_eq_div_pow]

/-! ## Image.py -/

/-- The three container classes: `MGTImage`, `SADImage`, `EDSKImage`. -/
inductive ImageKind where
  | mgt
  | sad
  | edsk
deriving DecidableEq

/-- An `Image` object: container kind (the Python subclass), sectors per
track, and the byte buffer.  The `path`/`compressed` metadata fields play no
part in the codec and are omitted. -/
structure Image where
  kind : ImageKind
  spt : Nat
  buf : ByteBuf

/-- The `Image.__init__`/`MGTImage` constructor: a fresh all-zero buffer of
`80 * 2 * spt * 512` bytes. -/
def MGTImage (spt : Nat) : Image :=
  ⟨.mgt, spt, ⟨80 * 2 * spt * 512, fun _ => 0⟩⟩

/-- `Image.sector_offset` with the overrides in `SADImage.sector_offset` and
`EDSKImage.sector_offset`.  The EDSK branch indexes the raw buffer, which in
Python raises `IndexError` when out of range; `list.index` raises
`ValueError` when the sector id is absent. -/
def Image.sector_offset (img : Image) (track sector : Int) : Except Err Nat :=
  if track < 0 ∨ 80 ≤ track.toNat &&& 0x7f ∨ sector < 1 ∨ (img.spt : Int) < sector then
    .error .valueError
  else
    let t := track.toNat
    let s := sector.toNat
    match img.kind with
    | .mgt => .ok (((t &&& 0x7f) * img.spt * 2 + (t >>> 7) * img.spt + (s - 1)) * 512)
    | .sad => .ok (22 + (((t >>> 7) * 80 + (t &&& 0x7f)) * img.spt + (s - 1)) * 512)
    | .edsk =>
      let track_offset := 0x100 + ((t &&& 0x7f) * 2 + (t >>> 7)) * (0x100 + img.spt * 512)
      if img.spt ≠ 0 ∧ img.buf.size ≤ track_offset + 0x1a + (img.spt - 1) * 8 then
        .error .indexError
      else
        let sectors := (List.range img.spt).map fun i => img.buf.mem (track_offset + 0x1a + i * 8)
        match sectors.findIdx? (fun x => x = s) with
        | some idx => .ok (track_offset + 0x100 + idx * 512)
        | none => .error .valueError

/-- `Image.read_sector`. -/
def Image.read_sector (img : Image) (track sector : Int) : Except Err (List Nat) := do
  let offset ← img.sector_offset track sector
  pure (img.buf.readBytes offset 512)

/-- `Image.write_sector`. -/
def Image.write_sector (img : Image) (track sector : Int) (data : List Nat) :
    Except Err Image :=
  if data.length ≠ 512 then .error .valueError
  else do
    let offset ← img.sector_offset track sector
    pure { img with buf := img.buf.writeBytes offset data }

/-! ## Disk.next_sector -/

/-- `Disk.next_sector`. -/
def next_sector (track sector : Int) (spt : Nat) : Except Err (Int × Int) :=
  if track < 0 ∨ 80 ≤ track.toNat &&& 0x7f ∨ sector < 1 ∨ (spt : Int) < sector then
    .error .valueError
  else
    if (spt : Int) < sector + 1 then
      if track + 1 = 80 then .ok (128, 1) else .ok (track + 1, 1)
    else .ok (track, sector + 1)

/-! ## File.py -/

/-- Little-endian bit expansion of a byte list, as `bitarray(endian='little').frombytes`:
bit `j` of the resulting map is bit `j % 8` of byte `j / 8`. -/
def bitsFromBytes (bs : List Nat) : List Bool :=
  ((bs.map fun b => (List.range 8).map fun j => b.testBit j).flatten)

/-- One byte from (up to) 8 little-endian bits. -/
def byteOfBits (bits : List Bool) : Nat :=
  bits.foldr (fun b acc => (if b then 1 else 0) + 2 * acc) 0

/-- Auxiliary for `bytesFromBits`: pack `n` bytes. -/
def bytesFromBitsAux : Nat → List Bool → List Nat
  | 0, _ => []
  | n + 1, bits => byteOfBits (bits.take 8) :: bytesFromBitsAux n (bits.drop 8)

/-- `bitarray.tobytes` for maps whose length is a multiple of 8 (the library
only converts 1560-bit maps). -/
def bytesFromBits (bits : List Bool) : List Nat :=
  bytesFromBitsAux (bits.length / 8) bits

/-- Python slice-bound normalization for a sequence of length `n` (negative
indices count from the end, everything is clamped to `[0, n]`). -/
def pyBound (n : Nat) (i : Int) : Nat :=
  if i < 0 then min ((n : Int) + i).toNat n else min i.toNat n

/-- Python `l[a:b] = 1` on a bitarray: set every position of the normalized
slice range to `true`. -/
def pyBitSliceSet (l : List Bool) (a b : Int) : List Bool :=
  let a2 := pyBound l.length a
  let b2 := max a2 (pyBound l.length b)
  (List.range l.length).map fun i => if a2 ≤ i ∧ i < b2 then true else l.getD i false

/-- `File.is_sam_file_type` (`type >= FileType.BASIC`, i.e. `16`). -/
def is_sam_file_type (type : Nat) : Bool := 16 ≤ type

/-- `File.is_contig_data_type` (`SPECIAL = 8`, `UNIDOS_DIR = 12`). -/
def is_contig_data_type (type : Nat) : Bool := type = 8 ∨ type = 12

/-- `File.data_bytes_per_sector`. -/
def data_bytes_per_sector (type : Nat) : Nat :=
  if is_contig_data_type type then 512 else 510

/-- `File.contig_sector_map`: 1560-bit map with `sectors` bits set from the
slot index of `(start_track, start_sector)` computed relative to the constant 4. -/
def contig_sector_map (sectors : Nat) (start_track start_sector : Int) (spt : Nat) :
    List Bool :=
  let offset : Int :=
    (start_track - 4 - (if start_track < 80 then 0 else 128 - 80)) * spt +
      (start_sector - 1)
  pyBitSliceSet (List.replicate 1560 false) offset (offset + sectors)

/-- A decoded `datetime` value. -/
structure DateTime where
  year : Nat
  month : Nat
  day : Nat
  hour : Nat
  minute : Nat
  second : Nat
deriving DecidableEq

/-- Gregorian leap-year rule used by Python `datetime`. -/
def isLeapYear (y : Nat) : Bool := y % 4 = 0 ∧ (y % 100 ≠ 0 ∨ y % 400 = 0)

/-- Days in a month, per Python `datetime`. -/
def daysInMonth (y m : Nat) : Nat :=
  if m = 2 then (if isLeapYear y then 29 else 28)
  else if m = 4 ∨ m = 6 ∨ m = 9 ∨ m = 11 then 30 else 31

/-- The validity condition enforced by the Python `datetime` constructor
(which raises `ValueError` otherwise). -/
def datetime_ok (t : DateTime) : Prop :=
  1 ≤ t.year ∧ t.year ≤ 9999 ∧ 1 ≤ t.month ∧ t.month ≤ 12 ∧
  1 ≤ t.day ∧ t.day ≤ daysInMonth t.year t.month ∧
  t.hour < 24 ∧ t.minute < 60 ∧ t.second < 60

instance : DecidablePred datetime_ok := fun t => by
  unfold datetime_ok
  infer_instance

/-- The three `TimeFormat` variants. -/
inductive TimeFormat where
  | MASTERDOS
  | BDOS
  | BDOS17
deriving DecidableEq

/-- The raw fields decoded by `File.unpack_time` before the year adjustment
(branching on the BDOS-1.7a marker bit of byte 1). -/
def unpack_time_fields (data : List Nat) : DateTime :=
  if pyGet data 1 &&& 0x80 ≠ 0 then
    { year := pyGet data 2
      month := (pyGet data 1 &&& 0x78) >>> 3
      day := pyGet data 0
      hour := (pyGet data 3 &&& 0xf8) >>> 3
      minute := ((pyGet data 4 &&& 0xe0) >>> 2) ||| (pyGet data 3 &&& 0x07)
      second := (pyGet data 4 &&& 0x1f) <<< 1 }
  else
    { year := pyGet data 2
      month := pyGet data 1
      day := pyGet data 0
      hour := pyGet data 3
      minute := pyGet data 4
      second := 0 }

/-- The fields of `File.unpack_time` after the year adjustment
(`year += 1900 + (100 if year < 80 else 0)`). -/
def unpack_time_adjusted (data : List Nat) : DateTime :=
  let f := unpack_time_fields data
  { f with year := f.year + 1900 + (if f.year < 80 then 100 else 0) }

/-- `File.unpack_time`. -/
def unpack_time (data : List Nat) : Option DateTime :=
  if pyGet data 0 = 0xff then none
  else
    let t := unpack_time_adjusted data
    if datetime_ok t then some t else none

/-- `File.pack_time`.  Python computes `time.year - 1900` with int subtraction
and `bytes(...)` would reject components outside `[0, 256)`; the only times the
library packs come from `unpack_time`, whose years lie in `[1980, 2155]`, so
truncated subtraction is faithful on all reachable inputs. -/
def pack_time (time : Option DateTime) (format : TimeFormat) : List Nat :=
  match time with
  | none => [0, 0, 0, 0, 0]
  | some t =>
    match format with
    | .MASTERDOS => [t.day, t.month, t.year % 100, t.hour, t.minute]
    | .BDOS => [t.day, t.month, t.year - 1900, t.hour, t.minute]
    | .BDOS17 => [t.day, 0x80 ||| (t.month <<< 3), t.year - 1900,
                  (t.hour <<< 3) ||| (t.minute &&& 7),
                  ((t.minute &&& 0x38) <<< 2) ||| (t.second >>> 1)]

/-- `File.le_word` (`struct.unpack('<H', data)`). -/
def le_word (data : List Nat) : Nat := pyGet data 0 + 256 * pyGet data 1

/-- `File.word_to_le` (`struct.pack('<H', 0 if val is None else val & 0xffff)`). -/
def word_to_le (val : Option Nat) : List Nat :=
  let v := val.getD 0 &&& 0xffff
  [v &&& 0xff, v >>> 8]

/-- `File.unpack_triple`. -/
def unpack_triple (data : List Nat) : Nat × Nat :=
  (pyGet data 0 &&& 0x1f, (pyGet data 2 &&& 0x7f) * 256 + pyGet data 1)

/-- `File.triple_to_addr`. -/
def triple_to_addr (data : List Nat) : Nat :=
  (unpack_triple data).1 * 16384 + (unpack_triple data).2 + 0x4000

/-- `File.triple_to_len`. -/
def triple_to_len (data : List Nat) : Nat :=
  (unpack_triple data).1 * 16384 + (unpack_triple data).2

/-- `File.triple_to_exec`. -/
def triple_to_exec (data : List Nat) : Option Nat :=
  if pyGet data 0 = 0xff then none
  else some ((unpack_triple data).1 * 16384 + (unpack_triple data).2)

/-- `File.triple_to_line`. -/
def triple_to_line (data : List Nat) : Option Nat :=
  if pyGet data 0 = 0xff then none
  else some (pyGet data 2 * 256 + pyGet data 1)

/-- `File.addr_to_triple`.  Python computes `((addr >> 14) - 1) & 0x1f` with int
arithmetic, which equals `(addr >>> 14 + 31) % 32` for nonnegative `addr`. -/
def addr_to_triple (addr : Option Nat) : List Nat :=
  match addr with
  | none => [0, 0, 0]
  | some a =>
    let page := (a >>> 14 + 31) % 32
    let a2 := (a &&& 0x3fff) + 0x8000
    [page, a2 &&& 0xff, a2 >>> 8]

/-- `File.len_to_triple`. -/
def len_to_triple (len : Option Nat) : List Nat :=
  match len with
  | none => [0, 0, 0]
  | some l => [(l >>> 14) &&& 0x1f, (l &&& 0x3fff) &&& 0xff, (l &&& 0x3fff) >>> 8]

/-- `File.exec_to_triple`. -/
def exec_to_triple (e : Option Nat) : List Nat :=
  match e with
  | none => [0xff, 0xff, 0xff]
  | some x =>
    let offset := (x &&& 0x3fff) + 0x8000
    [(x >>> 14) &&& 0x1f, offset &&& 0xff, offset >>> 8]

/-- `File.line_to_triple` (raises `ValueError` for a truthy line `≥ 0xff00`;
the negative branch of the check cannot fire on decoded lines). -/
def line_to_triple (line : Option Nat) : Except Err (List Nat) :=
  match line with
  | none => .ok [0xff, 0xff, 0xff]
  | some l =>
    if l ≠ 0 ∧ 0xff00 ≤ l then .error .valueError
    else .ok [0, l &&& 0xff, l >>> 8]

/-- Python `bytes.decode('ascii', errors='replace')`: bytes `≥ 0x80` become
U+FFFD; characters are modelled by their code points. -/
def decode_ascii (bs : List Nat) : List Nat :=
  bs.map fun b => if b < 128 then b else 0xfffd

/-- Python `str.encode('ascii', errors='replace')`: non-ASCII code points
become `?`. -/
def encode_ascii (cs : List Nat) : List Nat :=
  cs.map fun c => if c < 128 then c else 63

/-- Python `str.rstrip(' \x00')`. -/
def rstrip_space_nul (cs : List Nat) : List Nat :=
  (cs.reverse.dropWhile fun c => c = 32 ∨ c = 0).reverse

/-- Python `str.rstrip()` (strips trailing ASCII whitespace). -/
def rstrip_ws (cs : List Nat) : List Nat :=
  (cs.reverse.dropWhile fun c => c = 9 ∨ c = 10 ∨ c = 11 ∨ c = 12 ∨ c = 13 ∨ c = 32).reverse

/-- Python `f'{name:10}'`: left-justified padding with spaces to width 10. -/
def padName (name : List Nat) : List Nat :=
  name ++ List.replicate (10 - name.length) 32

/-- A `File` object.  Strings are modelled as lists of character code points.
`start_track`/`start_sector` are `None` on a fresh Python `File()` and byte
values on every decoded file; they are modelled as `Nat` with default 0.
`protected` is a Lean keyword, hence the field name `protected_`. -/
structure File where
  type : Nat := 0
  data : List Nat := []
  entry : List Nat := List.replicate 256 0
  hidden : Bool := false
  protected_ : Bool := false
  name_raw : List Nat := []
  name : List Nat := []
  start_track : Nat := 0
  start_sector : Nat := 0
  sector_map : List Bool := []
  sectors : Nat := 0
  start : Option Nat := none
  length : Option Nat := none
  execute : Option Nat := none
  time : Option DateTime := none
  dir : Option Nat := none
  data_var : Option (List Nat) := none
  screen_mode : Option Nat := none
deriving DecidableEq

/-- `File.from_dir`: decode a 256-byte directory entry.  Numeric type codes
follow the `FileType` enum (1 ZX_BASIC, 2 ZX_DATA, 3 ZX_DATA_STR, 4 ZX_CODE,
5 ZX_SNP_48K, 7 ZX_SCREEN, 8 SPECIAL, 9 ZX_SNP_128K, 10 OPENTYPE,
11 ZX_EXECUTE, 16 BASIC, 17 DATA, 18 DATA_STR, 19 CODE, 20 SCREEN, 21 DIR,
22 DRIVER_APP, 23 DRIVER_BOOT). -/
def from_dir (data : List Nat) : File :=
  let type := pyGet data 0 &&& 0x1f
  let name_raw := pySlice data 1 11
  let sector_map := bitsFromBytes (pySlice data 15 210)
  let zx_start := le_word (pySlice data 214 216)
  let zx_length := le_word (pySlice data 212 214)
  let zx_execute := le_word (pySlice data 218 220)
  let zx_datavar := 97 + (pyGet data 216 &&& 0x3f) - 1
  let sam_start := triple_to_addr (pySlice data 236 239)
  let sam_length := triple_to_len (pySlice data 239 242)
  let sam_execute := triple_to_exec (pySlice data 242 245)
  let sam_datavar := decode_ascii (pySlice data 222 (222 + (pyGet data 221 &&& 0xf)))
  let base : File :=
    { type := type
      data := []
      entry := data
      hidden := pyGet data 0 &&& 0x80 ≠ 0
      protected_ := pyGet data 0 &&& 0x40 ≠ 0
      name_raw := name_raw
      name := rstrip_space_nul ((decode_ascii name_raw).take 10)
      start_track := pyGet data 13
      start_sector := pyGet data 14
      sector_map := sector_map
      sectors := sector_map.count true
      time := if is_sam_file_type type then unpack_time (pySlice data 245 250) else none }
  let f2 :=
    if type = 1 then
      { base with start := some zx_start, length := some zx_length,
                  execute := if pyGet data 219 = 0xff then none else some zx_execute }
    else if type = 2 then
      { base with start := some zx_start, length := some zx_length,
                  data_var := some [zx_datavar] }
    else if type = 3 then
      { base with start := some zx_start, length := some zx_length,
                  data_var := some [zx_datavar, 36] }
    else if type = 4 then
      { base with start := some zx_start, length := some zx_length,
                  execute := if pyGet data 219 = 0 then none else some zx_execute }
    else if type = 5 then { base with length := some 0xc000 }
    else if type = 7 then { base with start := some zx_start, length := some zx_length }
    else if type = 8 then { base with length := some (sector_map.count true * 512) }
    else if type = 9 then { base with length := some 0x20001 }
    else if type = 10 then { base with length := some (pyGet data 210 * 0x10000 + zx_length) }
    else if type = 11 then { base with length := some 510 }
    else if type = 16 then
      { base with start := some sam_start, length := some sam_length,
                  execute := triple_to_line (pySlice data 242 245) }
    else if type = 17 then
      { base with start := some sam_start, length := some sam_length,
                  data_var := some sam_datavar }
    else if type = 18 then
      { base with start := some sam_start, length := some sam_length,
                  data_var := some (sam_datavar ++ [36]) }
    else if type = 19 then
      { base with start := some sam_start, length := some sam_length,
                  execute := sam_execute }
    else if type = 20 then
      { base with start := some sam_start, length := some sam_length,
                  screen_mode := some (1 + (pyGet data 221 &&& 0x3)) }
    else if type = 22 then { base with start := some sam_start, length := some sam_length }
    else if type = 23 then { base with start := some sam_start, length := some sam_length }
    else base
  if type = 21 then { f2 with dir := some (pyGet data 250) }
  else if is_sam_file_type type ∧ pyGet data 254 ≠ 0 ∧ pyGet data 254 ≠ 0xff then
    { f2 with dir := some (pyGet data 254) }
  else { f2 with dir := none }

/-- `File.to_dir`: re-encode a directory entry at the given start position.
Python mutates `self.sectors` as a side effect; only the returned entry is
modelled.  The byte stores `data[13] = start_track` and
`data[14] = start_sector` raise `ValueError` in Python for values outside
`[0, 256)`, hence the explicit range check. -/
def to_dir (file : File) (start_track start_sector : Int) (spt : Nat)
    (timefmt : TimeFormat) : Except Err (List Nat) :=
  if file.type = 0 then .ok file.entry
  else if start_track < 0 ∨ 256 ≤ start_track ∨ start_sector < 0 ∨ 256 ≤ start_sector then
    .error .valueError
  else
    let sectors := file.data.length / data_bytes_per_sector file.type
    let sector_map := contig_sector_map sectors start_track start_sector spt
    let d1 := pySet file.entry 0 (file.type ||| (if file.hidden then 0x80 else 0) |||
                (if file.protected_ then 0x40 else 0))
    let d2 := pySetSlice d1 1 11 (encode_ascii (padName file.name))
    let d3 := pySetSlice d2 11 13 [(sectors >>> 8) &&& 0xff, sectors &&& 0xff]
    let d4 := pySet d3 13 start_track.toNat
    let d5 := pySet d4 14 start_sector.toNat
    let d6 := pySetSlice d5 15 210 (bytesFromBits sector_map)
    let d7res : Except Err (List Nat) :=
      if file.type = 1 then
        .ok (pySetSlice d6 218 220
          (if file.execute = none then [0xff, 0xff] else word_to_le file.execute))
      else if file.type = 4 then
        .ok (pySetSlice (pySetSlice (pySetSlice d6 212 214 (word_to_le file.length))
               214 216 (word_to_le file.start)) 218 220 (word_to_le file.execute))
      else if file.type = 10 then
        .ok (pySetSlice (pySet d6 210 (match file.length with | none => 0 | some l => l >>> 16))
               212 214 (word_to_le file.length))
      else if file.type = 16 then
        (line_to_triple file.execute).map fun tr => pySetSlice d6 242 245 tr
      else if file.type = 19 then
        .ok (pySetSlice (pySetSlice (pySetSlice d6 236 239 (addr_to_triple file.start))
               239 242 (len_to_triple file.length)) 242 245 (exec_to_triple file.execute))
      else .ok d6
    d7res.map fun d7 =>
      if is_sam_file_type file.type then pySetSlice d7 245 250 (pack_time file.time timefmt)
      else d7

/-! ## Pointwise toolkit for Python slices -/

theorem pyGet_eq_getElem (l : List Nat) (i : Nat) (h : i < l.length) :
    pyGet l i = l[i] :=
  List.getD_eq_getElem l 0 h

theorem pySlice_length (l : List Nat) (c d : Nat) (h : d ≤ l.length) (hcd : c ≤ d) :
    (pySlice l c d).length = d - c := by
  unfold pySlice
  simp only [List.length_take, List.length_drop]
  omega

theorem pySlice_eq_map (l : List Nat) (c d : Nat) (h : d ≤ l.length) :
    pySlice l c d = (List.range (d - c)).map fun i => pyGet l (c + i) := by
  rcases Nat.le_total c d with hcd | hcd
  · apply List.ext_getElem
    · rw [pySlice_length l c d h hcd]
      simp
    · intro i h1 h2
      have hi : i < d - c := by
        rw [pySlice_length l c d h hcd] at h1
        exact h1
      simp only [List.getElem_map, List.getElem_range]
      unfold pySlice
      rw [List.getElem_take, List.getElem_drop]
      rw [pyGet_eq_getElem l (c + i) (by omega)]
  · have h1 : d - c = 0 := by omega
    unfold pySlice
    rw [h1]
    simp

theorem getD_take (l : List Nat) (a i : Nat) (h : i < a) :
    (l.take a).getD i 0 = l.getD i 0 := by
  simp [List.getD_eq_getElem?_getD, List.getElem?_take, h]

theorem getD_drop (l : List Nat) (b i : Nat) :
    (l.drop b).getD i 0 = l.getD (b + i) 0 := by
  simp [List.getD_eq_getElem?_getD, List.getElem?_drop]

theorem getD_append_lt (l r : List Nat) (i : Nat) (h : i < l.length) :
    (l ++ r).getD i 0 = l.getD i 0 := by
  simp [List.getD_eq_getElem?_getD, List.getElem?_append, h]

theorem getD_append_ge (l r : List Nat) (i : Nat) (h : l.length ≤ i) :
    (l ++ r).getD i 0 = r.getD (i - l.length) 0 := by
  simp [List.getD_eq_getElem?_getD, List.getElem?_append, Nat.not_lt.2 h]

theorem pySetSlice_length (l : List Nat) (a b : Nat) (r : List Nat)
    (ha : a ≤ b) (hb : b ≤ l.length) (hr : r.length = b - a) :
    (pySetSlice l a b r).length = l.length := by
  unfold pySetSlice
  simp only [List.length_append, List.length_take, List.length_drop]
  omega

theorem pyGet_pySetSlice (l : List Nat) (a b : Nat) (r : List Nat) (i : Nat)
    (ha : a ≤ b) (hb : b ≤ l.length) (hr : r.length = b - a) :
    pyGet (pySetSlice l a b r) i =
      if a ≤ i ∧ i < b then pyGet r (i - a) else pyGet l i := by
  unfold pySetSlice pyGet
  have hta : (l.take a).length = a := by
    rw [List.length_take]
    omega
  have htar : (l.take a ++ r).length = b := by
    rw [List.length_append, hta, hr]
    omega
  rcases Nat.lt_or_ge i a with hia | hia
  · rw [if_neg (by omega)]
    rw [getD_append_lt _ _ _ (by rw [htar]; omega),
      getD_append_lt _ _ _ (by rw [hta]; omega), getD_take _ _ _ hia]
  · rcases Nat.lt_or_ge i b with hib | hib
    · rw [if_pos ⟨hia, hib⟩]
      rw [getD_append_lt _ _ _ (by rw [htar]; omega),
        getD_append_ge _ _ _ (by rw [hta]; omega), hta]
    · rw [if_neg (by omega)]
      rw [getD_append_ge _ _ _ (by rw [htar]; omega), htar, getD_drop]
      congr 1
      omega

theorem pyGet_pySet (l : List Nat) (i v j : Nat) :
    pyGet (pySet l i v) j = if i = j ∧ j < l.length then v else pyGet l j := by
  unfold pySet pyGet
  rcases Nat.lt_or_ge j l.length with hj | hj
  · rw [List.getD_eq_getElem _ _ (by simpa using hj), List.getElem_set]
    split
    · rw [if_pos ⟨by omega, hj⟩]
    · rw [if_neg (by omega), List.getD_eq_getElem _ _ hj]
  · rw [if_neg (by omega), List.getD_eq_default _ _ (by simpa using hj),
      List.getD_eq_default _ _ hj]

theorem pySet_length (l : List Nat) (i v : Nat) : (pySet l i v).length = l.length := by
  unfold pySet
  simp

/-! ## Projection lemmas for `from_dir` -/

theorem from_dir_sectors (e : List Nat) :
    (from_dir e).sectors = (bitsFromBytes (pySlice e 15 210)).count true := by
  unfold from_dir
  simp only [apply_ite File.sectors, ite_self]

/-! ## Slice congruence helper -/

theorem pySlice_congr (l1 l2 : List Nat) (c d : Nat) (h1 : d ≤ l1.length)
    (h2 : d ≤ l2.length) (h : ∀ i, c ≤ i → i < d → pyGet l1 i = pyGet l2 i) :
    pySlice l1 c d = pySlice l2 c d := by
  rw [pySlice_eq_map l1 c d h1, pySlice_eq_map l2 c d h2]
  apply List.map_congr_left
  intro i hi
  rw [List.mem_range] at hi
  exact h _ (by omega) (by omega)

/-! ## Claim C6 -/

/-- C6: for every 256-byte directory entry, the decoded file's `sectors` field
equals the population count of the 1560-bit little-endian allocation bitmap
stored at entry bytes `[15, 210)`, and it is unchanged under arbitrary rewrites
of the stored big-endian 16-bit sector count at bytes `[11, 13)` — the bitmap
is authoritative. -/
theorem from_dir_sectors_popcount_spec (entry : List Nat) (h : entry.length = 256) :
    (from_dir entry).sectors = (bitsFromBytes (pySlice entry 15 210)).count true ∧
    ∀ b1 b2, (from_dir (pySetSlice entry 11 13 [b1, b2])).sectors =
      (from_dir entry).sectors := by
  refine ⟨from_dir_sectors entry, ?_⟩
  intro b1 b2
  rw [from_dir_sectors, from_dir_sectors]
  have hs : pySlice (pySetSlice entry 11 13 [b1, b2]) 15 210 = pySlice entry 15 210 := by
    apply pySlice_congr
    · rw [pySetSlice_length entry 11 13 [b1, b2] (by omega) (by omega) (by simp)]
      omega
    · omega
    · intro i h1 h2
      rw [pyGet_pySetSlice entry 11 13 [b1, b2] i (by omega) (by omega) (by simp),
        if_neg (by omega)]
  rw [hs]

set_option maxRecDepth 100000 in
/-- Witness for C6: an all-zero entry with stored count byte 99 at offset 12 and
bitmap byte 3 at offset 15 decodes to 2 sectors (the bitmap popcount), not 99. -/
theorem from_dir_sectors_popcount_spec_witness :
    (from_dir ((List.replicate 256 0).set 12 99 |>.set 15 3)).sectors =
      (bitsFromBytes (pySlice ((List.replicate 256 0).set 12 99 |>.set 15 3) 15 210)).count
        true ∧
    (from_dir ((List.replicate 256 0).set 12 99 |>.set 15 3)).sectors = 2 := by
  have h := (from_dir_sectors_popcount_spec ((List.replicate 256 0).set 12 99 |>.set 15 3)
    (by simp)).1
  refine ⟨h, ?_⟩
  rw [h]
  decide

/-! ## Claim C8 -/

/-- C8: decoding a 5-byte packed date-time returns no timestamp when the first
byte is `0xff`; when the unpacked fields form an impossible calendar date or
time it also returns no timestamp rather than raising; in all other cases it
returns the (valid) decoded date-time. -/
theorem unpack_time_spec (data : List Nat) (h : data.length = 5) :
    (pyGet data 0 = 0xff → unpack_time data = none) ∧
    (pyGet data 0 ≠ 0xff → ¬ datetime_ok (unpack_time_adjusted data) →
      unpack_time data = none) ∧
    (pyGet data 0 ≠ 0xff → datetime_ok (unpack_time_adjusted data) →
      unpack_time data = some (unpack_time_adjusted data) ∧
      datetime_ok (unpack_time_adjusted data)) := by
  refine ⟨?_, ?_, ?_⟩
  · intro h1
    unfold unpack_time
    rw [if_pos h1]
  · intro h1 h2
    unfold unpack_time
    rw [if_neg h1, if_neg h2]
  · intro h1 h2
    unfold unpack_time
    rw [if_neg h1, if_pos h2]
    exact ⟨rfl, h2⟩

/-- Witness for C8: `0xff` marker gives no timestamp; day 31 in February 1995
gives no timestamp; 1 February 1995 10:30 decodes to a valid date-time. -/
theorem unpack_time_spec_witness :
    unpack_time [255, 1, 95, 0, 0] = none ∧
    unpack_time [31, 2, 95, 10, 0] = none ∧
    unpack_time [1, 2, 95, 10, 30] = some ⟨1995, 2, 1, 10, 30, 0⟩ := by
  refine ⟨?_, ?_, ?_⟩
  · exact (unpack_time_spec [255, 1, 95, 0, 0] rfl).1 (by decide)
  · exact (unpack_time_spec [31, 2, 95, 10, 0] rfl).2.1 (by decide) (by decide)
  · have h := (unpack_time_spec [1, 2, 95, 10, 30] rfl).2.2 (by decide) (by decide)
    rw [h.1]
    rfl

/-! ## Claim C3 -/

/-- Modelled from the claim's words, for comparison with the code: the
contiguous bitmap whose slot index is computed relative to a configurable
directory-track count `dir_tracks` instead of the constant 4. -/
def contig_sector_map_claimed (dir_tracks sectors : Nat)
    (start_track start_sector : Int) (spt : Nat) : List Bool :=
  let offset : Int :=
    (start_track - dir_tracks - (if start_track < 80 then 0 else 48)) * spt +
      (start_sector - 1)
  pyBitSliceSet (List.replicate 1560 false) offset (offset + sectors)

set_option maxRecDepth 100000 in
/-- C3 counterexample: with a configured directory-track count of 5 (a value a
MASTERDOS disk can configure), one sector starting at track 5, sector 1 with
spt 10 should, per the claim, set exactly bit `(5 - 5 - 0) * 10 + 0 = 0`; the
code computes the index relative to the constant 4 and sets bit 10 instead. -/
theorem contig_sector_map_counterexample :
    (contig_sector_map 1 5 1 10).getD 0 false = false ∧
    (contig_sector_map 1 5 1 10).getD 10 false = true ∧
    contig_sector_map 1 5 1 10 ≠ contig_sector_map_claimed 5 1 5 1 10 := by
  refine ⟨by decide, by decide, by decide⟩

theorem pyBitSliceSet_length (l : List Bool) (a b : Int) :
    (pyBitSliceSet l a b).length = l.length := by
  unfold pyBitSliceSet
  rw [List.length_map, List.length_range]

theorem pyBitSliceSet_getD (l : List Bool) (a b : Int) (ha : 0 ≤ a) (hb : a ≤ b)
    (hble : b ≤ (l.length : Int)) (i : Nat) (hi : i < l.length) :
    (pyBitSliceSet l a b).getD i false =
      if a ≤ (i : Int) ∧ (i : Int) < b then true else l.getD i false := by
  unfold pyBitSliceSet pyBound
  have ha2 : (if a < 0 then min ((l.length : Int) + a).toNat l.length
      else min a.toNat l.length) = a.toNat := by
    rw [if_neg (by omega)]
    omega
  have hb2 : (if b < 0 then min ((l.length : Int) + b).toNat l.length
      else min b.toNat l.length) = b.toNat := by
    rw [if_neg (by omega)]
    omega
  simp only [ha2, hb2]
  rw [List.getD_eq_getElem _ false
    (by simp only [List.length_map, List.length_range]; exact hi)]
  rw [List.getElem_map, List.getElem_range]
  rw [Nat.max_eq_right (by omega)]
  rw [if_congr (show a.toNat ≤ i ∧ i < b.toNat ↔ a ≤ (i : Int) ∧ (i : Int) < b by omega)
    rfl rfl]

theorem getD_replicate_false (n i : Nat) :
    (List.replicate n false).getD i false = false := by
  rcases Nat.lt_or_ge i n with h | h
  · rw [List.getD_eq_getElem _ _ (by simpa using h), List.getElem_replicate]
  · rw [List.getD_eq_default _ _ (by simpa using h)]

theorem countP_range_interval (a b n : Nat) :
    ((List.range n).countP fun i => decide (a ≤ i ∧ i < b)) = min b n - min a n := by
  induction n with
  | zero => simp
  | succ n ih =>
    rw [List.range_succ, List.countP_append, ih, List.countP_singleton]
    by_cases h : a ≤ n ∧ n < b
    · rw [decide_eq_true h]
      simp only [if_true]
      omega
    · rw [decide_eq_false h]
      simp only [Bool.false_eq_true, if_false]
      omega

theorem count_pyBitSliceSet_replicate (n : Nat) (a b : Int) (ha : 0 ≤ a) (hb : a ≤ b)
    (hble : b ≤ (n : Int)) :
    (pyBitSliceSet (List.replicate n false) a b).count true = b.toNat - a.toNat := by
  unfold pyBitSliceSet pyBound
  have ha2 : (if a < 0 then min (((List.replicate n false).length : Int) + a).toNat
        (List.replicate n false).length
      else min a.toNat (List.replicate n false).length) = a.toNat := by
    rw [if_neg (by omega)]
    simp only [List.length_replicate]
    omega
  have hb2 : (if b < 0 then min (((List.replicate n false).length : Int) + b).toNat
        (List.replicate n false).length
      else min b.toNat (List.replicate n false).length) = b.toNat := by
    rw [if_neg (by omega)]
    simp only [List.length_replicate]
    omega
  simp only [ha2, hb2]
  rw [Nat.max_eq_right (by omega)]
  rw [List.count_eq_countP, List.countP_map]
  have hf : ((fun x => x == true) ∘ fun i =>
      if a.toNat ≤ i ∧ i < b.toNat then true else (List.replicate n false).getD i false) =
      fun i => decide (a.toNat ≤ i ∧ i < b.toNat) := by
    funext i
    simp only [Function.comp_apply]
    by_cases h : a.toNat ≤ i ∧ i < b.toNat
    · rw [if_pos h, decide_eq_true h]
      rfl
    · rw [if_neg h, getD_replicate_false, decide_eq_false h]
      rfl
  rw [hf]
  simp only [List.length_replicate]
  rw [countP_range_interval]
  omega

/-- C3 (amended): for every sector count, start position inside the data region
(track in `[4, 80)` or `[128, 208)`, sector in `[1, spt]`) and every map that
fits in 1560 bits, `contig_sector_map` returns a 1560-bit map whose set bits
are exactly the `sectors` consecutive bits beginning at zero-based index
`(start_track - 4 - (0 if start_track < 80 else 48)) * spt + (start_sector - 1)`,
the offset being computed relative to the constant 4 (the default
directory-track count), not the configured one. -/
theorem contig_sector_map_spec (sectors t s spt : Nat)
    (ht : (4 ≤ t ∧ t < 80) ∨ (128 ≤ t ∧ t < 208))
    (hs1 : 1 ≤ s) (hs2 : s ≤ spt)
    (hfit : (t - 4 - (if t < 80 then 0 else 48)) * spt + (s - 1) + sectors ≤ 1560) :
    (contig_sector_map sectors (t : Int) (s : Int) spt).length = 1560 ∧
    ∀ i, i < 1560 →
      ((contig_sector_map sectors (t : Int) (s : Int) spt).getD i false = true ↔
        (t - 4 - (if t < 80 then 0 else 48)) * spt + (s - 1) ≤ i ∧
        i < (t - 4 - (if t < 80 then 0 else 48)) * spt + (s - 1) + sectors) := by
  have hoff : ((t : Int) - 4 - (if (t : Int) < 80 then 0 else 128 - 80)) * spt +
      ((s : Int) - 1) =
      (((t - 4 - (if t < 80 then 0 else 48)) * spt + (s - 1) : Nat) : Int) := by
    rcases ht with ⟨h4, h80⟩ | ⟨h128, h208⟩
    · rw [if_pos (by exact_mod_cast h80), if_pos h80]
      push_cast [Nat.sub_sub, Nat.cast_sub (show 4 ≤ t by omega),
        Nat.cast_sub (show 1 ≤ s by omega)]
      ring
    · rw [if_neg (by omega), if_neg (by omega)]
      push_cast [Nat.sub_sub, Nat.cast_sub (show 52 ≤ t by omega),
        Nat.cast_sub (show 1 ≤ s by omega)]
      ring
  set idx := (t - 4 - (if t < 80 then 0 else 48)) * spt + (s - 1) with hidx
  unfold contig_sector_map
  rw [hoff]
  constructor
  · rw [pyBitSliceSet_length, List.length_replicate]
  · intro i hi
    rw [pyBitSliceSet_getD (List.replicate 1560 false) idx ((idx : Int) + sectors)
      (by omega) (by omega) (by simp only [List.length_replicate]; omega) i
      (by simp only [List.length_replicate]; exact hi)]
    rw [getD_replicate_false]
    constructor
    · intro hset
      by_contra hcon
      rw [if_neg (by omega)] at hset
      exact Bool.false_ne_true hset
    · intro hin
      rw [if_pos (by omega)]

/-- Witness for C3 (amended): two sectors starting at track 129, sector 2 with
spt 10 set exactly bits 771 and 772. -/
theorem contig_sector_map_spec_witness :
    (contig_sector_map 2 129 2 10).length = 1560 ∧
    (contig_sector_map 2 129 2 10).getD 771 false = true ∧
    (contig_sector_map 2 129 2 10).getD 772 false = true ∧
    (contig_sector_map 2 129 2 10).getD 770 false = false ∧
    (contig_sector_map 2 129 2 10).getD 773 false = false := by
  have h := contig_sector_map_spec 2 129 2 10 (by omega) (by omega) (by omega) (by norm_num)
  have h771 := (h.2 771 (by omega)).2 (by norm_num)
  have h772 := (h.2 772 (by omega)).2 (by norm_num)
  have h770 := (h.2 770 (by omega))
  have h773 := (h.2 773 (by omega))
  refine ⟨h.1, h771, h772, ?_, ?_⟩
  · rcases hb : (contig_sector_map 2 129 2 10).getD 770 false with _ | _
    · rfl
    · have := h770.1 hb
      norm_num at this
  · rcases hb : (contig_sector_map 2 129 2 10).getD 773 false with _ | _
    · rfl
    · have := h773.1 hb
      norm_num at this

/-! ## Disk.py -/

/-- The three `DiskType` dialects. -/
inductive DiskType where
  | SAMDOS
  | MASTERDOS
  | BDOS
deriving DecidableEq

/-- A `Disk` object (the `compressed` transport flag plays no part in the
codec and is omitted). -/
structure Disk where
  type : DiskType := .SAMDOS
  dir_tracks : Nat := 4
  label : Option (List Nat) := none
  serial : Option Nat := none
  files : List File := []
deriving DecidableEq

/-- The contiguous-allocation branch of the `Disk.read_data` loop, with the
`except` handler modelled by returning the accumulated bytes on any failure.
Note the accumulation happens before the `next_sector` call, as in the source. -/
def read_data_contig : Image → Int → Int → Nat → List Nat → List Nat
  | _, _, _, 0, acc => acc
  | img, track, sector, n + 1, acc =>
    match img.read_sector track sector with
    | .error _ => acc
    | .ok chunk =>
      match next_sector track sector img.spt with
      | .error _ => acc ++ chunk
      | .ok (t2, s2) => read_data_contig img t2 s2 n (acc ++ chunk)

/-- The linked-chain branch of the `Disk.read_data` loop; `chunk[:-2]` is
accumulated before the pointer unpack `track, sector = chunk[-2:]`, which in
Python raises (and is caught) when fewer than two bytes were read. -/
def read_data_chain : Image → Int → Int → Nat → List Nat → List Nat
  | _, _, _, 0, acc => acc
  | img, track, sector, n + 1, acc =>
    match img.read_sector track sector with
    | .error _ => acc
    | .ok chunk =>
      let acc2 := acc ++ chunk.take (chunk.length - 2)
      if 2 ≤ chunk.length then
        read_data_chain img (chunk.getD (chunk.length - 2) 0)
          (chunk.getD (chunk.length - 1) 0) n acc2
      else acc2

/-- `Disk.read_data`: the whole loop runs inside `try/except Exception: pass`,
so any failure yields the bytes accumulated so far. -/
def read_data (image : Image) (type sectors : Nat) (track sector : Int) : List Nat :=
  if is_contig_data_type type then read_data_contig image track sector sectors []
  else read_data_chain image track sector sectors []

/-- The propagating variant of the contiguous read loop: what `read_data`
would do without its `except` handler (the accumulated bytes are lost on a
failure). -/
def read_data_strict_contig : Image → Int → Int → Nat → List Nat →
    Except Err (List Nat)
  | _, _, _, 0, acc => .ok acc
  | img, track, sector, n + 1, acc =>
    match img.read_sector track sector with
    | .error e => .error e
    | .ok chunk =>
      match next_sector track sector img.spt with
      | .error e => .error e
      | .ok pos => read_data_strict_contig img pos.1 pos.2 n (acc ++ chunk)

/-- The propagating variant of the chained read loop. -/
def read_data_strict_chain : Image → Int → Int → Nat → List Nat →
    Except Err (List Nat)
  | _, _, _, 0, acc => .ok acc
  | img, track, sector, n + 1, acc =>
    match img.read_sector track sector with
    | .error e => .error e
    | .ok chunk =>
      if 2 ≤ chunk.length then
        read_data_strict_chain img (chunk.getD (chunk.length - 2) 0)
          (chunk.getD (chunk.length - 1) 0) n (acc ++ chunk.take (chunk.length - 2))
      else .error .valueError

/-- The propagating variant of `Disk.read_data`. -/
def read_data_strict (image : Image) (type sectors : Nat) (track sector : Int) :
    Except Err (List Nat) :=
  if is_contig_data_type type then read_data_strict_contig image track sector sectors []
  else read_data_strict_chain image track sector sectors []

/-- The per-iteration sector payload of the `Disk.write_data` loop: the `i`-th
chunk of `data`, extended for chained types with the terminator `00 00` on the
final chunk or with the next track/sector pair otherwise
(`bytes((next_track, next_sector))` rejects values outside `[0, 256)`). -/
def write_data_chunk (type : Nat) (data : List Nat) (i : Nat) (pos : Int × Int) :
    Except Err (List Nat) :=
  let chunk_size := data_bytes_per_sector type
  let chunk := pySlice data (i * chunk_size) (i * chunk_size + chunk_size)
  if chunk_size = 512 then .ok chunk
  else if i * chunk_size + chunk_size = data.length then .ok (chunk ++ [0, 0])
  else if pos.1 < 0 ∨ 256 ≤ pos.1 ∨ pos.2 < 0 ∨ 256 ≤ pos.2 then .error .valueError
  else .ok (chunk ++ [pos.1.toNat, pos.2.toNat])

/-- The `Disk.write_data` loop.  Python mutates the image in place, so the
buffer state at the moment an exception is raised is visible to the caller;
the model returns the image alongside the outcome.  The `ValueError` raised by
`next_sector` is converted to `RuntimeError` ("data area is out of space").
`i` is the current chunk index, the final argument the number of chunks
remaining. -/
def write_data_go (type : Nat) : Image → Int → Int → List Nat → Nat → Nat →
    Image × Except Err (Int × Int)
  | img, track, sector, _, _, 0 => (img, .ok (track, sector))
  | img, track, sector, data, i, n + 1 =>
    match next_sector track sector img.spt with
    | .error _ => (img, .error .runtimeError)
    | .ok pos =>
      match write_data_chunk type data i pos with
      | .error e => (img, .error e)
      | .ok payload =>
        match img.write_sector track sector payload with
        | .error e => (img, .error e)
        | .ok img2 => write_data_go type img2 pos.1 pos.2 data (i + 1) n

/-- `Disk.write_data`. -/
def write_data (image : Image) (type : Nat) (track sector : Int) (data : List Nat) :
    Image × Except Err (Int × Int) :=
  write_data_go type image track sector data 0 (data.length / data_bytes_per_sector type)

/-- `Disk.dir_position`. -/
def dir_position (index spt : Nat) : Nat × Nat × Nat :=
  (index / (spt * 2), 1 + (index % (spt * 2)) / 2, (index % 2) * 256)

/-- `Disk.read_dir` (the `index < 0` guard cannot fire for a `Nat` index). -/
def read_dir (image : Image) (index : Nat) : Except Err (List Nat) := do
  let pos := dir_position index image.spt
  let data ← image.read_sector (pos.1 : Int) (pos.2.1 : Int)
  pure (pySlice data pos.2.2 (pos.2.2 + 256))

/-- `Disk.write_dir` (the `index < 0` guard cannot fire for a `Nat` index). -/
def write_dir (image : Image) (index : Nat) (entry : List Nat) : Except Err Image :=
  if entry.length ≠ 256 then .error .valueError
  else do
    let pos := dir_position index image.spt
    let data ← image.read_sector (pos.1 : Int) (pos.2.1 : Int)
    image.write_sector (pos.1 : Int) (pos.2.1 : Int)
      (pySetSlice data pos.2.2 (pos.2.2 + 256) entry)

/-- Python truthiness of `label_raw` followed by the masked ASCII decode and
whitespace strip applied to the boot-sector label bytes. -/
def boot_label : Option (List Nat) → Option (List Nat)
  | none => none
  | some l =>
    if l.isEmpty then none
    else some (rstrip_ws (decode_ascii (l.map fun x => x &&& 0x7f)))

/-- The boot-sector dialect detection at the head of `Disk.from_image`,
factored over the first directory sector: yields the disk type, directory-track
count, label and serial number.  `BDOS` is the byte sequence `[66, 68, 79, 83]`
and `ord('*') = 42`. -/
def detect_boot (entry0 : List Nat) : DiskType × Nat × Option (List Nat) × Option Nat :=
  if pySlice entry0 232 236 = [66, 68, 79, 83] then
    (.BDOS, 4,
      boot_label (if pyGet entry0 210 ≠ 0 then
        some (pySlice entry0 210 220 ++ pySlice entry0 250 256) else none),
      none)
  else if pyGet entry0 210 ≠ 0 ∧ pyGet entry0 210 ≠ 0xff then
    (.MASTERDOS, max 4 (min (4 + pyGet entry0 255) 39),
      boot_label (if pyGet entry0 210 ≠ 42 then some (pySlice entry0 210 220) else none),
      some (le_word (pySlice entry0 252 254)))
  else (.SAMDOS, 4, none, none)

/-- The directory scan loop of `Disk.from_image`: `index` counts up while the
fuel argument counts the remaining `dir_tracks * spt * 2` iterations; an entry
with a zero type and an empty name ends the scan. -/
def from_image_go (image : Image) : Nat → Nat → Except Err (List File)
  | _, 0 => .ok []
  | index, fuel + 1 => do
    let entry ← read_dir image index
    let file := from_dir entry
    if file.type ≠ 0 then
      let fileData := read_data image file.type file.sectors (file.start_track : Int)
        (file.start_sector : Int)
      let rest ← from_image_go image (index + 1) fuel
      pure ({ file with data := fileData } :: rest)
    else if file.name = [] then .ok []
    else from_image_go image (index + 1) fuel

/-- `Disk.from_image`. -/
def from_image (image : Image) : Except Err Disk := do
  let entry0 ← image.read_sector 0 1
  let det := detect_boot entry0
  let files ← from_image_go image 0 (det.2.1 * image.spt * 2)
  pure { type := det.1, dir_tracks := det.2.1, label := det.2.2.1,
         serial := det.2.2.2, files := files }

/-- The file-writing loop of `Disk.to_image`. -/
def to_image_go (dir_tracks : Nat) (timefmt : TimeFormat) :
    Image → Int → Int → Nat → List File → Except Err Image
  | img, _, _, _, [] => .ok img
  | img, track, sector, index, file :: rest =>
    if dir_tracks * img.spt * 2 ≤ index then .error .runtimeError
    else do
      let entry ← to_dir file track sector img.spt timefmt
      let res := write_data img file.type track sector file.data
      match res.2 with
      | .error e => .error e
      | .ok pos => do
        let img2 ← write_dir res.1 index entry
        to_image_go dir_tracks timefmt img2 pos.1 pos.2 (index + 1) rest

/-- `Disk.to_image` (the `spt <= 0` guard for a `Nat` argument). -/
def to_image (disk : Disk) (spt : Nat) : Except Err Image :=
  if spt = 0 then .error .valueError
  else
    to_image_go disk.dir_tracks
      (if disk.type = DiskType.MASTERDOS then TimeFormat.MASTERDOS else TimeFormat.BDOS)
      (MGTImage spt) (disk.dir_tracks : Int) 1 0 disk.files

/-- Bitwise OR of two bitarrays; Python `bitarray.__or__` raises on a length
mismatch. -/
def bitarray_or (a b : List Bool) : Except Err (List Bool) :=
  if a.length ≠ b.length then .error .valueError
  else .ok (List.zipWith (fun x y => x || y) a b)

/-- `Disk.bam` (`functools.reduce` with no initial value raises `TypeError`
on an empty sequence). -/
def bam (disk : Disk) : Except Err (List Bool) :=
  match disk.files with
  | [] => .error .typeError
  | f :: rest => rest.foldlM (fun acc g => bitarray_or acc g.sector_map) f.sector_map

/-! ## Arithmetic and buffer helpers -/

theorem ByteBuf.writeBytes_size (b : ByteBuf) (o : Nat) (r : List Nat)
    (h : o + r.length ≤ b.size) : (b.writeBytes o r).size = b.size := by
  simp only [ByteBuf.writeBytes]
  omega

theorem ByteBuf.writeBytes_mem (b : ByteBuf) (o : Nat) (r : List Nat) (i : Nat)
    (ho : o ≤ b.size) :
    (b.writeBytes o r).mem i =
      if o ≤ i ∧ i < o + r.length then r.getD (i - o) 0 else b.mem i := by
  simp only [ByteBuf.writeBytes, Nat.min_eq_left ho]

theorem ByteBuf.writeBytes_mem_lo (b : ByteBuf) (o : Nat) (r : List Nat) (i : Nat)
    (ho : o ≤ b.size) (hi : i < o ∨ o + r.length ≤ i) :
    (b.writeBytes o r).mem i = b.mem i := by
  rw [ByteBuf.writeBytes_mem b o r i ho, if_neg (by omega)]

theorem ByteBuf.writeBytes_mem_hit (b : ByteBuf) (o : Nat) (r : List Nat) (j : Nat)
    (ho : o ≤ b.size) (hj : j < r.length) :
    (b.writeBytes o r).mem (o + j) = r.getD j 0 := by
  rw [ByteBuf.writeBytes_mem b o r _ ho, if_pos (by omega)]
  congr 1
  omega

theorem ByteBuf.readBytes_length (b : ByteBuf) (o n : Nat) (h : o + n ≤ b.size) :
    (b.readBytes o n).length = n := by
  simp only [ByteBuf.readBytes, List.length_map, List.length_range]
  omega

theorem ByteBuf.readBytes_writeBytes_self (b : ByteBuf) (o : Nat) (r : List Nat)
    (h : o + r.length ≤ b.size) :
    (b.writeBytes o r).readBytes o r.length = r := by
  have hsz : (b.writeBytes o r).size = b.size := ByteBuf.writeBytes_size b o r h
  apply List.ext_getElem
  · rw [ByteBuf.readBytes_length _ _ _ (by omega)]
  · intro i h1 h2
    have hi : i < r.length := by
      have := ByteBuf.readBytes_length (b.writeBytes o r) o r.length (by omega)
      omega
    simp only [ByteBuf.readBytes, List.getElem_map, List.getElem_range]
    rw [ByteBuf.writeBytes_mem_hit b o r i (by omega) hi]
    exact List.getD_eq_getElem r 0 hi

theorem ByteBuf.readBytes_writeBytes_frame (b : ByteBuf) (o : Nat) (r : List Nat)
    (p n : Nat) (hw : o + r.length ≤ b.size)
    (hd : p + n ≤ o ∨ o + r.length ≤ p) :
    (b.writeBytes o r).readBytes p n = b.readBytes p n := by
  have hsz : (b.writeBytes o r).size = b.size := ByteBuf.writeBytes_size b o r hw
  simp only [ByteBuf.readBytes, hsz]
  apply List.map_congr_left
  intro i hi
  rw [List.mem_range] at hi
  exact ByteBuf.writeBytes_mem_lo b o r (p + i) (by omega) (by omega)

/-! ## Helper lemmas about `sector_offset` and `write_sector` -/

theorem sector_offset_mgt_eq (img : Image) (track sector : Int)
    (hk : img.kind = .mgt) (h0 : 0 ≤ track) (h80 : track.toNat &&& 0x7f < 80)
    (hs1 : 1 ≤ sector) (hs2 : sector ≤ (img.spt : Int)) :
    img.sector_offset track sector =
      .ok (((track.toNat &&& 0x7f) * img.spt * 2 + (track.toNat >>> 7) * img.spt +
            (sector.toNat - 1)) * 512) := by
  unfold Image.sector_offset
  rw [if_neg (by push_neg; exact ⟨h0, by omega, by omega, by omega⟩), hk]

theorem sector_offset_sad_eq (img : Image) (track sector : Int)
    (hk : img.kind = .sad) (h0 : 0 ≤ track) (h80 : track.toNat &&& 0x7f < 80)
    (hs1 : 1 ≤ sector) (hs2 : sector ≤ (img.spt : Int)) :
    img.sector_offset track sector =
      .ok (22 + (((track.toNat >>> 7) * 80 + (track.toNat &&& 0x7f)) * img.spt +
           (sector.toNat - 1)) * 512) := by
  unfold Image.sector_offset
  rw [if_neg (by push_neg; exact ⟨h0, by omega, by omega, by omega⟩), hk]

theorem sector_toNat_bounds (sector : Int) (spt : Nat)
    (hs1 : 1 ≤ sector) (hs2 : sector ≤ (spt : Int)) :
    1 ≤ sector.toNat ∧ sector.toNat ≤ spt := by
  omega

theorem mgt_index_bound (t s spt : Nat)
    (h256 : t < 256) (h80 : t &&& 0x7f < 80) (hs1 : 1 ≤ s) (hs2 : s ≤ spt) :
    (t &&& 0x7f) * spt * 2 + (t >>> 7) * spt + (s - 1) + 1 ≤ 160 * spt := by
  rw [and127_eq_mod] at h80 ⊢
  rw [shiftRight7_eq_div]
  have h1 : t % 128 ≤ 79 := by omega
  have h2 : t / 128 ≤ 1 := by omega
  have e1 : t % 128 * spt * 2 ≤ 79 * spt * 2 :=
    Nat.mul_le_mul_right 2 (Nat.mul_le_mul_right spt h1)
  have e2 : t / 128 * spt ≤ 1 * spt := Nat.mul_le_mul_right spt h2
  omega

theorem sad_index_bound (t s spt : Nat)
    (h256 : t < 256) (h80 : t &&& 0x7f < 80) (hs1 : 1 ≤ s) (hs2 : s ≤ spt) :
    ((t >>> 7) * 80 + (t &&& 0x7f)) * spt + (s - 1) + 1 ≤ 160 * spt := by
  rw [and127_eq_mod] at h80 ⊢
  rw [shiftRight7_eq_div]
  have h1 : t / 128 * 80 + t % 128 ≤ 159 := by
    have h2 : t / 128 ≤ 1 := by omega
    omega
  have e1 : (t / 128 * 80 + t % 128) * spt ≤ 159 * spt := Nat.mul_le_mul_right spt h1
  omega

/-! ## Position arithmetic for the data-area chain -/

/-- The track/sector pair of linear data position `p`: side 0 (tracks `0..79`)
first, then side 1 (tracks `128..207`, i.e. `track = p / spt + 48`), with
1-based sectors.  `posOf spt (160 * spt)` is the one-past-the-end position
`(208, 1)`, which fails the validity check. -/
def posOf (spt p : Nat) : Int × Int :=
  (if p < 80 * spt then ((p / spt : Nat) : Int) else ((p / spt + 48 : Nat) : Int),
   ((p % spt + 1 : Nat) : Int))

/-- The sector-offset index (`offset / 512`) of data position `p` on a raw MGT
container (cylinder-interleaved: both sides of a cylinder are adjacent). -/
def mgtIdx (spt p : Nat) : Nat :=
  if p < 80 * spt then 2 * spt * (p / spt) + p % spt
  else 2 * spt * (p / spt - 80) + spt + p % spt

theorem posOf_div_lt (spt p m : Nat) (h0 : 0 < spt) (hp : p < m * spt) : p / spt < m := by
  rw [Nat.div_lt_iff_lt_mul h0]
  omega

theorem div_mod_of_eq (spt q r p : Nat) (h0 : 0 < spt) (hr : r < spt)
    (hp : p = spt * q + r) : p / spt = q ∧ p % spt = r := by
  subst hp
  constructor
  · rw [Nat.mul_add_div h0, Nat.div_eq_of_lt hr]
    omega
  · rw [Nat.mul_add_mod, Nat.mod_eq_of_lt hr]

theorem side_lt_iff (spt q r m : Nat) (h0 : 0 < spt) (hr : r < spt) :
    spt * q + r < m * spt ↔ q < m := by
  constructor
  · intro h
    by_contra hc
    push_neg at hc
    have h2 : spt * m ≤ spt * q := Nat.mul_le_mul_left spt hc
    have h3 : spt * m = m * spt := Nat.mul_comm spt m
    omega
  · intro h
    have h2 : q + 1 ≤ m := h
    have h3 : spt * (q + 1) ≤ spt * m := Nat.mul_le_mul_left spt h2
    have h4 : spt * m = m * spt := Nat.mul_comm spt m
    have h5 : spt * (q + 1) = spt * q + spt := by ring
    omega

theorem posOf_dm (spt p : Nat) (h0 : 0 < spt) :
    ∃ q r, p = spt * q + r ∧ r < spt ∧ p / spt = q ∧ p % spt = r :=
  ⟨p / spt, p % spt, (Nat.div_add_mod p spt).symm, Nat.mod_lt p h0, rfl, rfl⟩

theorem posOf_eq_side0 (spt p : Nat) (h : p < 80 * spt) :
    posOf spt p = (((p / spt : Nat) : Int), ((p % spt + 1 : Nat) : Int)) := by
  unfold posOf
  rw [if_pos h]

theorem posOf_eq_side1 (spt p : Nat) (h : ¬ p < 80 * spt) :
    posOf spt p = (((p / spt + 48 : Nat) : Int), ((p % spt + 1 : Nat) : Int)) := by
  unfold posOf
  rw [if_neg h]

theorem posOf_check_false (spt p : Nat) (h0 : 0 < spt) (hp : p < 160 * spt) :
    ¬((posOf spt p).1 < 0 ∨ 80 ≤ (posOf spt p).1.toNat &&& 0x7f ∨
      (posOf spt p).2 < 1 ∨ (spt : Int) < (posOf spt p).2) := by
  obtain ⟨q, r, hqr, hrlt, hdq, hdr⟩ := posOf_dm spt p h0
  have hq160 : q < 160 := by
    rw [← (side_lt_iff spt q r 160 h0 hrlt), ← hqr]
    exact hp
  by_cases hside : p < 80 * spt
  · have hq80 : q < 80 := by
      rw [← (side_lt_iff spt q r 80 h0 hrlt), ← hqr]
      exact hside
    rw [posOf_eq_side0 spt p hside, hdq, hdr]
    dsimp only
    have ht : (((q : Nat)) : Int).toNat = q := by omega
    rw [ht, and127_eq_mod]
    push_neg
    exact ⟨by omega, by omega, by omega, by omega⟩
  · have hq80 : 80 ≤ q := by
      by_contra hc
      push_neg at hc
      refine hside ?_
      rw [hqr]
      exact (side_lt_iff spt q r 80 h0 hrlt).2 hc
    rw [posOf_eq_side1 spt p hside, hdq, hdr]
    dsimp only
    have ht : (((q + 48 : Nat)) : Int).toNat = q + 48 := by omega
    rw [ht, and127_eq_mod]
    push_neg
    exact ⟨by omega, by omega, by omega, by omega⟩

theorem posOf_track_facts (spt p : Nat) (h0 : 0 < spt) (hp : p ≤ 160 * spt) :
    0 ≤ (posOf spt p).1 ∧ (posOf spt p).1 < 256 ∧
    1 ≤ (posOf spt p).2 ∧ (posOf spt p).2 ≤ (spt : Int) := by
  obtain ⟨q, r, hqr, hrlt, hdq, hdr⟩ := posOf_dm spt p h0
  have hq160 : q ≤ 160 := by
    by_contra hc
    push_neg at hc
    have h2 : spt * 161 ≤ spt * q := Nat.mul_le_mul_left spt hc
    have h3 : spt * 161 = 161 * spt := Nat.mul_comm _ _
    omega
  by_cases hside : p < 80 * spt
  · rw [posOf_eq_side0 spt p hside, hdq, hdr]
    dsimp only
    exact ⟨by omega, by omega, by omega, by omega⟩
  · rw [posOf_eq_side1 spt p hside, hdq, hdr]
    dsimp only
    exact ⟨by omega, by omega, by omega, by omega⟩

theorem posOf_end_check (spt : Nat) (h0 : 0 < spt) :
    next_sector (posOf spt (160 * spt)).1 (posOf spt (160 * spt)).2 spt =
      .error .valueError := by
  have hdiv : 160 * spt / spt = 160 := by
    rw [Nat.mul_comm, Nat.mul_div_cancel_left _ h0]
  rw [posOf_eq_side1 spt (160 * spt) (by omega)]
  unfold next_sector
  dsimp only
  rw [hdiv]
  rw [if_pos ?hc]
  case hc =>
    right
    left
    have ht : (((160 + 48 : Nat) : Int)).toNat = 208 := by omega
    rw [ht, and127_eq_mod]

theorem posOf_next (spt p : Nat) (h0 : 0 < spt) (hp : p < 160 * spt) :
    next_sector (posOf spt p).1 (posOf spt p).2 spt = .ok (posOf spt (p + 1)) := by
  obtain ⟨q, r, hqr, hrlt, hdq, hdr⟩ := posOf_dm spt p h0
  have hq160 : q < 160 := by
    rw [← (side_lt_iff spt q r 160 h0 hrlt), ← hqr]
    exact hp
  have hside0 : p < 80 * spt ↔ q < 80 := by
    rw [hqr]
    exact side_lt_iff spt q r 80 h0 hrlt
  unfold next_sector
  rw [if_neg (posOf_check_false spt p h0 hp)]
  by_cases hlast : r + 1 < spt
  · -- not the last sector of the track: same track, next sector
    obtain ⟨hdiv1, hmod1⟩ := div_mod_of_eq spt q (r + 1) (p + 1) h0 (by omega)
      (by rw [hqr]; ring)
    have hside1 : p + 1 < 80 * spt ↔ q < 80 := by
      rw [show p + 1 = spt * q + (r + 1) by rw [hqr]; ring]
      exact side_lt_iff spt q (r + 1) 80 h0 (by omega)
    by_cases hside : q < 80
    · rw [posOf_eq_side0 spt p (hside0.2 hside),
        posOf_eq_side0 spt (p + 1) (hside1.2 hside), hdq, hdr, hdiv1, hmod1]
      dsimp only
      rw [if_neg (by omega)]
      norm_num
    · rw [posOf_eq_side1 spt p (by rw [hside0]; exact hside),
        posOf_eq_side1 spt (p + 1) (by rw [hside1]; exact hside), hdq, hdr, hdiv1, hmod1]
      dsimp only
      rw [if_neg (by omega)]
      norm_num
  · -- last sector of the track: advance the track
    have hlaste : r + 1 = spt := by omega
    obtain ⟨hdiv1, hmod1⟩ := div_mod_of_eq spt (q + 1) 0 (p + 1) h0 h0
      (by rw [hqr]; ring_nf; omega)
    have hside1 : p + 1 < 80 * spt ↔ q + 1 < 80 := by
      rw [show p + 1 = spt * (q + 1) + 0 by rw [hqr]; ring_nf; omega]
      exact side_lt_iff spt (q + 1) 0 80 h0 h0
    by_cases hside : q < 80
    · rw [posOf_eq_side0 spt p (hside0.2 hside), hdq, hdr]
      dsimp only
      by_cases h79 : q = 79
      · rw [posOf_eq_side1 spt (p + 1) (by rw [hside1]; omega), hdiv1, hmod1]
        rw [if_pos (by omega), if_pos (by rw [h79]; norm_num)]
        rw [h79]
        norm_num
      · rw [posOf_eq_side0 spt (p + 1) (by rw [hside1]; omega), hdiv1, hmod1]
        rw [if_pos (by omega), if_neg (by omega)]
        norm_num
    · rw [posOf_eq_side1 spt p (by rw [hside0]; exact hside), hdq, hdr]
      dsimp only
      rw [posOf_eq_side1 spt (p + 1) (by rw [hside1]; omega), hdiv1, hmod1]
      rw [if_pos (by omega), if_neg (by omega)]
      norm_num
      push_cast
      ring

theorem mgtIdx_eq_side0 (spt p : Nat) (h : p < 80 * spt) :
    mgtIdx spt p = 2 * spt * (p / spt) + p % spt := by
  unfold mgtIdx
  rw [if_pos h]

theorem mgtIdx_eq_side1 (spt p : Nat) (h : ¬ p < 80 * spt) :
    mgtIdx spt p = 2 * spt * (p / spt - 80) + spt + p % spt := by
  unfold mgtIdx
  rw [if_neg h]

theorem mgtIdx_lt (spt p : Nat) (h0 : 0 < spt) (hp : p < 160 * spt) :
    mgtIdx spt p < 160 * spt := by
  obtain ⟨q, r, hqr, hrlt, hdq, hdr⟩ := posOf_dm spt p h0
  have hq160 : q < 160 := by
    rw [← (side_lt_iff spt q r 160 h0 hrlt), ← hqr]
    exact hp
  by_cases hside : p < 80 * spt
  · have hq80 : q < 80 := by
      rw [← (side_lt_iff spt q r 80 h0 hrlt), ← hqr]
      exact hside
    rw [mgtIdx_eq_side0 spt p hside, hdq, hdr]
    have h1 : 2 * spt * q ≤ 2 * spt * 79 := Nat.mul_le_mul_left _ (by omega)
    have h2 : 2 * spt * 79 = 158 * spt := by ring
    omega
  · have hq80 : 80 ≤ q := by
      by_contra hc
      push_neg at hc
      refine hside ?_
      rw [hqr]
      exact (side_lt_iff spt q r 80 h0 hrlt).2 hc
    rw [mgtIdx_eq_side1 spt p hside, hdq, hdr]
    have h1 : 2 * spt * (q - 80) ≤ 2 * spt * 79 := Nat.mul_le_mul_left _ (by omega)
    have h2 : 2 * spt * 79 = 158 * spt := by ring
    omega

theorem mgtIdx_inj (spt p p2 : Nat) (h0 : 0 < spt) (hp : p < 160 * spt)
    (hp2 : p2 < 160 * spt) (h : mgtIdx spt p = mgtIdx spt p2) : p = p2 := by
  obtain ⟨q, r, hqr, hrlt, hdq, hdr⟩ := posOf_dm spt p h0
  obtain ⟨q2, r2, hqr2, hrlt2, hdq2, hdr2⟩ := posOf_dm spt p2 h0
  have h2spt : 0 < 2 * spt := by omega
  by_cases hs1 : p < 80 * spt
  all_goals by_cases hs2 : p2 < 80 * spt
  · rw [mgtIdx_eq_side0 spt p hs1, mgtIdx_eq_side0 spt p2 hs2, hdq, hdr, hdq2, hdr2] at h
    obtain ⟨e1, e2⟩ := div_mod_of_eq (2 * spt) q r (2 * spt * q + r) h2spt (by omega) rfl
    obtain ⟨e3, e4⟩ := div_mod_of_eq (2 * spt) q2 r2 (2 * spt * q2 + r2) h2spt (by omega) rfl
    rw [h] at e1 e2
    rw [hqr, hqr2, e1.symm.trans e3, e2.symm.trans e4]
  · rw [mgtIdx_eq_side0 spt p hs1, mgtIdx_eq_side1 spt p2 hs2, hdq, hdr, hdq2, hdr2] at h
    obtain ⟨e1, e2⟩ := div_mod_of_eq (2 * spt) q r (2 * spt * q + r) h2spt (by omega) rfl
    obtain ⟨e3, e4⟩ := div_mod_of_eq (2 * spt) (q2 - 80) (spt + r2)
      (2 * spt * (q2 - 80) + spt + r2) h2spt (by omega) (by ring)
    rw [h] at e2
    rw [e4] at e2
    omega
  · rw [mgtIdx_eq_side1 spt p hs1, mgtIdx_eq_side0 spt p2 hs2, hdq, hdr, hdq2, hdr2] at h
    obtain ⟨e1, e2⟩ := div_mod_of_eq (2 * spt) (q - 80) (spt + r)
      (2 * spt * (q - 80) + spt + r) h2spt (by omega) (by ring)
    obtain ⟨e3, e4⟩ := div_mod_of_eq (2 * spt) q2 r2 (2 * spt * q2 + r2) h2spt (by omega) rfl
    rw [h] at e2
    rw [e4] at e2
    omega
  · rw [mgtIdx_eq_side1 spt p hs1, mgtIdx_eq_side1 spt p2 hs2, hdq, hdr, hdq2, hdr2] at h
    have hq80 : 80 ≤ q := by
      by_contra hc
      push_neg at hc
      refine hs1 ?_
      rw [hqr]
      exact (side_lt_iff spt q r 80 h0 hrlt).2 hc
    have hq280 : 80 ≤ q2 := by
      by_contra hc
      push_neg at hc
      refine hs2 ?_
      rw [hqr2]
      exact (side_lt_iff spt q2 r2 80 h0 hrlt2).2 hc
    obtain ⟨e1, e2⟩ := div_mod_of_eq (2 * spt) (q - 80) (spt + r)
      (2 * spt * (q - 80) + spt + r) h2spt (by omega) (by ring)
    obtain ⟨e3, e4⟩ := div_mod_of_eq (2 * spt) (q2 - 80) (spt + r2)
      (2 * spt * (q2 - 80) + spt + r2) h2spt (by omega) (by ring)
    rw [h] at e1 e2
    rw [e4] at e2
    rw [e3] at e1
    have hqq : q = q2 := by omega
    subst hqq
    rw [hqr, hqr2]
    omega

theorem sector_offset_posOf (img : Image) (spt p : Nat) (hk : img.kind = .mgt)
    (hspt : img.spt = spt) (h0 : 0 < spt) (hp : p < 160 * spt) :
    img.sector_offset (posOf spt p).1 (posOf spt p).2 = .ok (512 * mgtIdx spt p) := by
  have hchk := posOf_check_false spt p h0 hp
  push_neg at hchk
  obtain ⟨hc1, hc2, hc3, hc4⟩ := hchk
  rw [sector_offset_mgt_eq img _ _ hk hc1 hc2 hc3 (by rw [hspt]; exact hc4)]
  congr 1
  obtain ⟨q, r, hqr, hrlt, hdq, hdr⟩ := posOf_dm spt p h0
  have hq160 : q < 160 := by
    rw [← (side_lt_iff spt q r 160 h0 hrlt), ← hqr]
    exact hp
  by_cases hside : p < 80 * spt
  · have hq80 : q < 80 := by
      rw [← (side_lt_iff spt q r 80 h0 hrlt), ← hqr]
      exact hside
    rw [posOf_eq_side0 spt p hside, mgtIdx_eq_side0 spt p hside, hdq, hdr]
    dsimp only
    have ht : (((q : Nat)) : Int).toNat = q := by omega
    have hs : (((r + 1 : Nat)) : Int).toNat = r + 1 := by omega
    rw [ht, hs, and127_eq_mod, shiftRight7_eq_div, hspt]
    have h1 : q % 128 = q := Nat.mod_eq_of_lt (by omega)
    have h2 : q / 128 = 0 := Nat.div_eq_of_lt (by omega)
    have h3 : r + 1 - 1 = r := by omega
    rw [h1, h2, h3]
    ring
  · have hq80 : 80 ≤ q := by
      by_contra hc
      push_neg at hc
      refine hside ?_
      rw [hqr]
      exact (side_lt_iff spt q r 80 h0 hrlt).2 hc
    rw [posOf_eq_side1 spt p hside, mgtIdx_eq_side1 spt p hside, hdq, hdr]
    dsimp only
    have ht : (((q + 48 : Nat)) : Int).toNat = q + 48 := by omega
    have hs : (((r + 1 : Nat)) : Int).toNat = r + 1 := by omega
    rw [ht, hs, and127_eq_mod, shiftRight7_eq_div, hspt]
    have h1 : (q + 48) % 128 = q - 80 := by omega
    have h2 : (q + 48) / 128 = 1 := by omega
    have h3 : r + 1 - 1 = r := by omega
    rw [h1, h2, h3]
    ring

theorem write_sector_posOf (img : Image) (spt p : Nat) (data : List Nat)
    (hk : img.kind = .mgt) (hspt : img.spt = spt) (h0 : 0 < spt) (hp : p < 160 * spt)
    (hlen : data.length = 512) :
    img.write_sector (posOf spt p).1 (posOf spt p).2 data =
      .ok { img with buf := img.buf.writeBytes (512 * mgtIdx spt p) data } := by
  unfold Image.write_sector
  rw [if_neg (by omega), sector_offset_posOf img spt p hk hspt h0 hp]
  rfl

/-! ## Further buffer and geometry lemmas for the round trip -/

theorem ByteBuf.readBytes_getD (b : ByteBuf) (o n i : Nat) (hi : i < n)
    (hb : o + n ≤ b.size) : (b.readBytes o n).getD i 0 = b.mem (o + i) := by
  unfold ByteBuf.readBytes
  rw [List.getD_eq_getElem _ _ (by simp only [List.length_map, List.length_range]; omega)]
  rw [List.getElem_map, List.getElem_range]

theorem ByteBuf.readBytes_congr (b1 b2 : ByteBuf) (o n : Nat)
    (hsize : b1.size = b2.size) (h : ∀ i, i < n → b1.mem (o + i) = b2.mem (o + i)) :
    b1.readBytes o n = b2.readBytes o n := by
  unfold ByteBuf.readBytes
  rw [hsize]
  apply List.map_congr_left
  intro i hi
  rw [List.mem_range] at hi
  exact h i (by omega)

theorem posOf_start (spt dt : Nat) (h0 : 0 < spt) (hdt : dt < 80) :
    (posOf spt (dt * spt)).1 = ((dt : Nat) : Int) ∧
    (posOf spt (dt * spt)).2 = (1 : Int) := by
  obtain ⟨hdiv, hmod⟩ := div_mod_of_eq spt dt 0 (dt * spt) h0 h0 (by ring)
  have hside : dt * spt < 80 * spt := by
    have h2 : dt + 1 ≤ 80 := hdt
    have h3 : (dt + 1) * spt ≤ 80 * spt := Nat.mul_le_mul_right spt h2
    have h4 : (dt + 1) * spt = dt * spt + spt := by ring
    omega
  rw [posOf_eq_side0 spt (dt * spt) hside, hdiv, hmod]
  exact ⟨rfl, rfl⟩

theorem sector_offset_zero_one (img : Image) (hk : img.kind = .mgt)
    (h0 : 0 < img.spt) : img.sector_offset 0 1 = .ok 0 := by
  rw [sector_offset_mgt_eq img 0 1 hk (by omega) (by decide) (by omega) (by omega)]
  norm_num

/-- The sector-offset index of the directory sector holding zero-based entry
`m` (two 256-byte entries per sector, on side 0). -/
def dirIdx (spt m : Nat) : Nat :=
  2 * spt * (m / (spt * 2)) + (m % (spt * 2)) / 2

/-- The byte offset of directory slot `m` inside the image buffer. -/
def slotBase (spt m : Nat) : Nat := 512 * dirIdx spt m + m % 2 * 256

theorem dir_geom (spt m : Nat) (h0 : 0 < spt) :
    (m % (spt * 2)) / 2 < spt ∧ dirIdx spt m = 2 * spt * (m / (spt * 2)) + (m % (spt * 2)) / 2 := by
  have h1 : m % (spt * 2) < spt * 2 := Nat.mod_lt m (by omega)
  constructor
  · omega
  · rfl

theorem dirIdx_lt (spt m : Nat) (h0 : 0 < spt) (hm : m / (spt * 2) < 80) :
    dirIdx spt m < 160 * spt := by
  obtain ⟨h1, _⟩ := dir_geom spt m h0
  unfold dirIdx
  have h2 : 2 * spt * (m / (spt * 2)) ≤ 2 * spt * 79 := Nat.mul_le_mul_left _ (by omega)
  have h3 : 2 * spt * 79 = 158 * spt := by ring
  omega

theorem sector_offset_dir (img : Image) (spt m : Nat) (hk : img.kind = .mgt)
    (hspt : img.spt = spt) (h0 : 0 < spt) (hm : m / (spt * 2) < 80) :
    img.sector_offset ((m / (spt * 2) : Nat) : Int) ((1 + (m % (spt * 2)) / 2 : Nat) : Int) =
      .ok (512 * dirIdx spt m) := by
  obtain ⟨h1, _⟩ := dir_geom spt m h0
  have ht : ((((m / (spt * 2) : Nat)) : Int)).toNat = m / (spt * 2) := rfl
  have hs : ((((1 + (m % (spt * 2)) / 2 : Nat)) : Int)).toNat = 1 + (m % (spt * 2)) / 2 := rfl
  have h80 : ((((m / (spt * 2) : Nat)) : Int)).toNat &&& 0x7f < 80 := by
    rw [ht, and127_eq_mod]
    omega
  have hs1 : (1 : Int) ≤ (((1 + (m % (spt * 2)) / 2 : Nat)) : Int) := by
    exact_mod_cast Nat.le_add_right 1 _
  have hs2 : ((((1 + (m % (spt * 2)) / 2 : Nat)) : Int)) ≤ (img.spt : Int) := by
    rw [hspt]
    exact_mod_cast by omega
  rw [sector_offset_mgt_eq img _ _ hk (Int.natCast_nonneg _) h80 hs1 hs2]
  congr 1
  rw [ht, hs, and127_eq_mod, shiftRight7_eq_div, hspt]
  have h2 : m / (spt * 2) % 128 = m / (spt * 2) := Nat.mod_eq_of_lt (by omega)
  have h3 : m / (spt * 2) / 128 = 0 := Nat.div_eq_of_lt (by omega)
  rw [h2, h3]
  unfold dirIdx
  have h4 : 1 + m % (spt * 2) / 2 - 1 = m % (spt * 2) / 2 := by omega
  rw [h4]
  ring

theorem dirIdx_eq_iff (spt m m2 : Nat) (h0 : 0 < spt) :
    dirIdx spt m = dirIdx spt m2 ↔ m / 2 = m2 / 2 := by
  obtain ⟨h1, _⟩ := dir_geom spt m h0
  obtain ⟨h2, _⟩ := dir_geom spt m2 h0
  have h2spt : 0 < 2 * spt := by omega
  have key : ∀ a : Nat, a / 2 = spt * (a / (spt * 2)) + (a % (spt * 2)) / 2 := by
    intro a
    obtain ⟨q, r, hqr, hr, hdq, hdr⟩ :
        ∃ q r, a = spt * 2 * q + r ∧ r < spt * 2 ∧ a / (spt * 2) = q ∧ a % (spt * 2) = r :=
      ⟨a / (spt * 2), a % (spt * 2), (Nat.div_add_mod a (spt * 2)).symm,
        Nat.mod_lt a (by omega), rfl, rfl⟩
    have h6 : 2 * (spt * q + r / 2) = spt * 2 * q + 2 * (r / 2) := by ring
    have h5 : a = 2 * (spt * q + r / 2) + r % 2 := by omega
    obtain ⟨hdq2, _⟩ := div_mod_of_eq 2 (spt * q + r / 2) (r % 2) a (by omega) (by omega) h5
    rw [hdq, hdr, hdq2]
  constructor
  · intro h
    unfold dirIdx at h
    obtain ⟨e1, e2⟩ := div_mod_of_eq (2 * spt) (m / (spt * 2)) ((m % (spt * 2)) / 2)
      (2 * spt * (m / (spt * 2)) + (m % (spt * 2)) / 2) h2spt (by omega) rfl
    obtain ⟨e3, e4⟩ := div_mod_of_eq (2 * spt) (m2 / (spt * 2)) ((m2 % (spt * 2)) / 2)
      (2 * spt * (m2 / (spt * 2)) + (m2 % (spt * 2)) / 2) h2spt (by omega) rfl
    rw [h] at e1 e2
    rw [key m, key m2, e1.symm.trans e3, e2.symm.trans e4]
  · intro h
    unfold dirIdx
    have hm := key m
    have hm2 := key m2
    rw [h] at hm
    have h5 : spt * (m / (spt * 2)) + m % (spt * 2) / 2 =
        spt * (m2 / (spt * 2)) + m2 % (spt * 2) / 2 := by omega
    obtain ⟨e1, e2⟩ := div_mod_of_eq spt (m / (spt * 2)) ((m % (spt * 2)) / 2)
      (spt * (m / (spt * 2)) + (m % (spt * 2)) / 2) h0 (by omega) rfl
    obtain ⟨e3, e4⟩ := div_mod_of_eq spt (m2 / (spt * 2)) ((m2 % (spt * 2)) / 2)
      (spt * (m2 / (spt * 2)) + (m2 % (spt * 2)) / 2) h0 (by omega) rfl
    rw [h5] at e1 e2
    rw [e1.symm.trans e3, e2.symm.trans e4]

theorem slot_disjoint (spt m m2 : Nat) (h0 : 0 < spt) (hne : m ≠ m2) (b : Nat)
    (hb : slotBase spt m ≤ b ∧ b < slotBase spt m + 256) :
    ¬(slotBase spt m2 ≤ b ∧ b < slotBase spt m2 + 256) := by
  intro hb2
  unfold slotBase at hb hb2
  by_cases hs : dirIdx spt m = dirIdx spt m2
  · have h2 := (dirIdx_eq_iff spt m m2 h0).1 hs
    have h3 : m % 2 ≠ m2 % 2 := by omega
    omega
  · have h4 : m % 2 ≤ 1 := by omega
    have h5 : m2 % 2 ≤ 1 := by omega
    omega

theorem dirIdx_ne_mgtIdx (spt m p dt : Nat) (h0 : 0 < spt) (hdt : dt ≤ 39)
    (hm : m < dt * spt * 2) (hp : dt * spt ≤ p) (hp2 : p < 160 * spt) :
    dirIdx spt m ≠ mgtIdx spt p := by
  obtain ⟨hrd, _⟩ := dir_geom spt m h0
  have hqd : m / (spt * 2) < dt := by
    rw [Nat.div_lt_iff_lt_mul (by omega)]
    have h2 : dt * (spt * 2) = dt * spt * 2 := by ring
    omega
  obtain ⟨q, r, hqr, hrlt, hdq, hdr⟩ := posOf_dm spt p h0
  have h2spt : 0 < 2 * spt := by omega
  have hqge : dt ≤ q := by
    by_contra hc
    push_neg at hc
    have h2 : spt * (q + 1) ≤ spt * dt := Nat.mul_le_mul_left spt (by omega)
    have h3 : spt * (q + 1) = spt * q + spt := by ring
    have h4 : spt * dt = dt * spt := Nat.mul_comm _ _
    omega
  intro h
  unfold dirIdx at h
  by_cases hside : p < 80 * spt
  · rw [mgtIdx_eq_side0 spt p hside, hdq, hdr] at h
    obtain ⟨e1, e2⟩ := div_mod_of_eq (2 * spt) (m / (spt * 2)) ((m % (spt * 2)) / 2)
      (2 * spt * (m / (spt * 2)) + (m % (spt * 2)) / 2) h2spt (by omega) rfl
    obtain ⟨e3, e4⟩ := div_mod_of_eq (2 * spt) q r (2 * spt * q + r) h2spt (by omega) rfl
    rw [h] at e1
    have h5 : m / (spt * 2) = q := e1.symm.trans e3
    omega
  · rw [mgtIdx_eq_side1 spt p hside, hdq, hdr] at h
    obtain ⟨e1, e2⟩ := div_mod_of_eq (2 * spt) (m / (spt * 2)) ((m % (spt * 2)) / 2)
      (2 * spt * (m / (spt * 2)) + (m % (spt * 2)) / 2) h2spt (by omega) rfl
    obtain ⟨e3, e4⟩ := div_mod_of_eq (2 * spt) (q - 80) (spt + r)
      (2 * spt * (q - 80) + spt + r) h2spt (by omega) (by ring)
    rw [h] at e2
    have h5 : (m % (spt * 2)) / 2 = spt + r := e2.symm.trans e4
    omega

theorem dir_bound_512 (spt m : Nat) (h0 : 0 < spt) (hm : m / (spt * 2) < 80)
    (sz : Nat) (hsz : sz = 80 * 2 * spt * 512) : 512 * dirIdx spt m + 512 ≤ sz := by
  have hidx := dirIdx_lt spt m h0 hm
  have h2 : 512 * (dirIdx spt m + 1) ≤ 512 * (160 * spt) :=
    Nat.mul_le_mul_left 512 (by omega)
  have h3 : 512 * (160 * spt) = 80 * 2 * spt * 512 := by ring
  omega

theorem read_sector_dir (img : Image) (spt m : Nat) (hk : img.kind = .mgt)
    (hspt : img.spt = spt) (h0 : 0 < spt) (hm : m / (spt * 2) < 80) :
    img.read_sector ((m / (spt * 2) : Nat) : Int) ((1 + (m % (spt * 2)) / 2 : Nat) : Int) =
      .ok (img.buf.readBytes (512 * dirIdx spt m) 512) := by
  unfold Image.read_sector
  rw [sector_offset_dir img spt m hk hspt h0 hm]
  rfl

theorem read_dir_eval (img : Image) (spt m : Nat)
    (hk : img.kind = .mgt) (hspt : img.spt = spt)
    (hsize : img.buf.size = 80 * 2 * spt * 512) (h0 : 0 < spt)
    (hm : m / (spt * 2) < 80) :
    read_dir img m = .ok ((List.range 256).map fun j => img.buf.mem (slotBase spt m + j)) := by
  subst hspt
  have hb512 : 512 * dirIdx img.spt m + 512 ≤ img.buf.size :=
    dir_bound_512 img.spt m h0 hm _ hsize
  have hseclen : (img.buf.readBytes (512 * dirIdx img.spt m) 512).length = 512 :=
    ByteBuf.readBytes_length _ _ _ (by omega)
  have hoff : m % 2 * 256 + 256 ≤ 512 := by omega
  unfold read_dir
  simp only [dir_position]
  rw [read_sector_dir img img.spt m hk rfl h0 hm]
  show Except.ok (pySlice (img.buf.readBytes (512 * dirIdx img.spt m) 512)
    (m % 2 * 256) (m % 2 * 256 + 256)) = _
  congr 1
  rw [pySlice_eq_map _ _ _ (by omega)]
  have h256 : m % 2 * 256 + 256 - m % 2 * 256 = 256 := by omega
  rw [h256]
  apply List.map_congr_left
  intro i hi
  rw [List.mem_range] at hi
  unfold pyGet
  rw [ByteBuf.readBytes_getD img.buf (512 * dirIdx img.spt m) 512 (m % 2 * 256 + i)
    (by omega) (by omega)]
  congr 1
  unfold slotBase
  omega

theorem slot_entry_eq (mem : Nat → Nat) (base : Nat) (e : List Nat) (hlen : e.length = 256)
    (h : ∀ j, j < 256 → mem (base + j) = pyGet e j) :
    ((List.range 256).map fun j => mem (base + j)) = e := by
  apply List.ext_getElem
  · simp [hlen]
  · intro i h1 h2
    simp only [List.getElem_map, List.getElem_range]
    have hi : i < 256 := by simpa using h1
    rw [h i hi, pyGet_eq_getElem e i (by omega)]

theorem write_dir_spec (img : Image) (spt m : Nat) (e : List Nat)
    (hk : img.kind = .mgt) (hspt : img.spt = spt)
    (hsize : img.buf.size = 80 * 2 * spt * 512) (h0 : 0 < spt)
    (hm : m / (spt * 2) < 80) (hlen : e.length = 256) :
    ∃ img2, write_dir img m e = .ok img2 ∧ img2.kind = img.kind ∧ img2.spt = img.spt ∧
      img2.buf.size = img.buf.size ∧
      (∀ b, b < slotBase spt m ∨ slotBase spt m + 256 ≤ b →
        img2.buf.mem b = img.buf.mem b) ∧
      (∀ j, j < 256 → img2.buf.mem (slotBase spt m + j) = pyGet e j) := by
  subst hspt
  have hb512 : 512 * dirIdx img.spt m + 512 ≤ img.buf.size :=
    dir_bound_512 img.spt m h0 hm _ hsize
  have hseclen : (img.buf.readBytes (512 * dirIdx img.spt m) 512).length = 512 :=
    ByteBuf.readBytes_length _ _ _ (by omega)
  have hoff : m % 2 * 256 + 256 ≤ 512 := by omega
  have hdata2 : (pySetSlice (img.buf.readBytes (512 * dirIdx img.spt m) 512)
      (m % 2 * 256) (m % 2 * 256 + 256) e).length = 512 := by
    rw [pySetSlice_length _ _ _ _ (by omega) (by omega) (by omega)]
    exact hseclen
  refine ⟨{ img with buf := img.buf.writeBytes (512 * dirIdx img.spt m) (pySetSlice (img.buf.readBytes (512 * dirIdx img.spt m) 512) (m % 2 * 256) (m % 2 * 256 + 256) e) }, ?_, rfl, rfl, ?_, ?_, ?_⟩
  · unfold write_dir
    rw [if_neg (by omega)]
    simp only [dir_position]
    rw [read_sector_dir img img.spt m hk rfl h0 hm]
    show img.write_sector ((m / (img.spt * 2) : Nat) : Int)
      ((1 + (m % (img.spt * 2)) / 2 : Nat) : Int)
      (pySetSlice (img.buf.readBytes (512 * dirIdx img.spt m) 512)
        (m % 2 * 256) (m % 2 * 256 + 256) e) = _
    unfold Image.write_sector
    rw [if_neg (by omega), sector_offset_dir img img.spt m hk rfl h0 hm]
    rfl
  · exact ByteBuf.writeBytes_size _ _ _ (by omega)
  · intro b hb
    unfold slotBase at hb
    by_cases hin : 512 * dirIdx img.spt m ≤ b ∧ b < 512 * dirIdx img.spt m + 512
    · rw [ByteBuf.writeBytes_mem _ _ _ _ (by omega), if_pos (by omega)]
      have hfr : pyGet (pySetSlice (img.buf.readBytes (512 * dirIdx img.spt m) 512)
          (m % 2 * 256) (m % 2 * 256 + 256) e) (b - 512 * dirIdx img.spt m) =
          pyGet (img.buf.readBytes (512 * dirIdx img.spt m) 512) (b - 512 * dirIdx img.spt m) := by
        rw [pyGet_pySetSlice _ _ _ _ _ (by omega) (by omega) (by omega), if_neg (by omega)]
      show pyGet _ (b - 512 * dirIdx img.spt m) = _
      rw [hfr]
      unfold pyGet
      rw [ByteBuf.readBytes_getD img.buf (512 * dirIdx img.spt m) 512 (b - 512 * dirIdx img.spt m)
        (by omega) (by omega)]
      congr 1
      omega
    · exact ByteBuf.writeBytes_mem_lo _ _ _ _ (by omega) (by omega)
  · intro j hj
    unfold slotBase
    have hb : 512 * dirIdx img.spt m + (m % 2 * 256 + j) =
        512 * dirIdx img.spt m + m % 2 * 256 + j := by
      omega
    rw [← hb, ByteBuf.writeBytes_mem_hit _ _ _ _ (by omega) (by omega)]
    show pyGet _ (m % 2 * 256 + j) = _
    rw [pyGet_pySetSlice _ _ _ _ _ (by omega) (by omega) (by omega), if_pos (by omega)]
    congr 1
    omega

/-! ## Byte-level characterization of to_dir -/

theorem encode_ascii_length (cs : List Nat) : (encode_ascii cs).length = cs.length := by
  unfold encode_ascii
  rw [List.length_map]

theorem padName_length (name : List Nat) (h : name.length ≤ 10) :
    (padName name).length = 10 := by
  unfold padName
  rw [List.length_append, List.length_replicate]
  omega

theorem bytesFromBitsAux_length : ∀ (n : Nat) (bits : List Bool),
    (bytesFromBitsAux n bits).length = n := by
  intro n
  induction n with
  | zero => intro bits; rfl
  | succ n ih =>
    intro bits
    unfold bytesFromBitsAux
    rw [List.length_cons, ih]

theorem bytesFromBits_length (bits : List Bool) :
    (bytesFromBits bits).length = bits.length / 8 := by
  unfold bytesFromBits
  exact bytesFromBitsAux_length _ _

theorem contig_sector_map_length (k : Nat) (st ss : Int) (spt : Nat) :
    (contig_sector_map k st ss spt).length = 1560 := by
  unfold contig_sector_map
  rw [pyBitSliceSet_length, List.length_replicate]

theorem word_to_le_length (v : Option Nat) : (word_to_le v).length = 2 := rfl

theorem addr_to_triple_length (a : Option Nat) : (addr_to_triple a).length = 3 := by
  cases a <;> rfl

theorem len_to_triple_length (l : Option Nat) : (len_to_triple l).length = 3 := by
  cases l <;> rfl

theorem exec_to_triple_length (e : Option Nat) : (exec_to_triple e).length = 3 := by
  cases e <;> rfl

theorem line_to_triple_ok (l : Option Nat) (tr : List Nat)
    (h : line_to_triple l = .ok tr) : tr.length = 3 := by
  cases l with
  | none =>
    simp only [line_to_triple] at h
    cases h
    rfl
  | some v =>
    simp only [line_to_triple] at h
    split at h
    · exact Except.noConfusion h
    · cases h
      rfl

theorem pack_time_length (t : Option DateTime) (f : TimeFormat) :
    (pack_time t f).length = 5 := by
  cases t with
  | none => rfl
  | some t => cases f <;> rfl

/-- Stage `d1` of `to_dir`: the type/flags byte store. -/
def dirE1 (file : File) : List Nat :=
  pySet file.entry 0 (file.type ||| (if file.hidden then 0x80 else 0) |||
    (if file.protected_ then 0x40 else 0))

/-- Stages `d2`–`d3` of `to_dir`: the name and sector-count stores. -/
def dirE3 (file : File) : List Nat :=
  pySetSlice (pySetSlice (dirE1 file) 1 11 (encode_ascii (padName file.name))) 11 13
    [((file.data.length / data_bytes_per_sector file.type) >>> 8) &&& 0xff,
     file.data.length / data_bytes_per_sector file.type &&& 0xff]

/-- Stages `d4`–`d5` of `to_dir`: the start-position stores. -/
def dirE5 (file : File) (start_track start_sector : Int) : List Nat :=
  pySet (pySet (dirE3 file) 13 start_track.toNat) 14 start_sector.toNat

/-- Stage `d6` of `to_dir`: the sector-map store. -/
def to_dir_d6 (file : File) (start_track start_sector : Int) (spt : Nat) : List Nat :=
  pySetSlice (dirE5 file start_track start_sector) 15 210
    (bytesFromBits (contig_sector_map (file.data.length / data_bytes_per_sector file.type)
      start_track start_sector spt))

/-- The type-specific stores and the SAM timestamp store of `to_dir`, applied
to the stage-`d6` entry. -/
def to_dir_tail (file : File) (timefmt : TimeFormat) (d6 : List Nat) :
    Except Err (List Nat) :=
  let d7res : Except Err (List Nat) :=
    if file.type = 1 then
      .ok (pySetSlice d6 218 220
        (if file.execute = none then [0xff, 0xff] else word_to_le file.execute))
    else if file.type = 4 then
      .ok (pySetSlice (pySetSlice (pySetSlice d6 212 214 (word_to_le file.length))
             214 216 (word_to_le file.start)) 218 220 (word_to_le file.execute))
    else if file.type = 10 then
      .ok (pySetSlice (pySet d6 210 (match file.length with | none => 0 | some l => l >>> 16))
             212 214 (word_to_le file.length))
    else if file.type = 16 then
      (line_to_triple file.execute).map fun tr => pySetSlice d6 242 245 tr
    else if file.type = 19 then
      .ok (pySetSlice (pySetSlice (pySetSlice d6 236 239 (addr_to_triple file.start))
             239 242 (len_to_triple file.length)) 242 245 (exec_to_triple file.execute))
    else .ok d6
  d7res.map fun d7 =>
    if is_sam_file_type file.type then pySetSlice d7 245 250 (pack_time file.time timefmt)
    else d7

set_option maxHeartbeats 2000000 in
theorem to_dir_eq (file : File) (st ss : Int) (spt : Nat) (tf : TimeFormat)
    (hty : ¬file.type = 0)
    (hrange : ¬(st < 0 ∨ 256 ≤ st ∨ ss < 0 ∨ 256 ≤ ss)) :
    to_dir file st ss spt tf = to_dir_tail file tf (to_dir_d6 file st ss spt) := by
  unfold to_dir to_dir_tail to_dir_d6 dirE5 dirE3 dirE1
  rw [if_neg hty, if_neg hrange]

theorem dirE1_length (file : File) (hentry : file.entry.length = 256) :
    (dirE1 file).length = 256 := by
  unfold dirE1
  rw [pySet_length, hentry]

theorem dirE3_length (file : File) (hentry : file.entry.length = 256)
    (hname : file.name.length ≤ 10) : (dirE3 file).length = 256 := by
  have h1 := dirE1_length file hentry
  have h2 : (pySetSlice (dirE1 file) 1 11 (encode_ascii (padName file.name))).length = 256 := by
    rw [pySetSlice_length _ _ _ _ (by omega) (by omega)
      (by rw [encode_ascii_length, padName_length _ hname])]
    exact h1
  unfold dirE3
  rw [pySetSlice_length _ _ _ _ (by omega) (by omega) (by rfl)]
  exact h2

theorem dirE5_length (file : File) (st ss : Int) (hentry : file.entry.length = 256)
    (hname : file.name.length ≤ 10) : (dirE5 file st ss).length = 256 := by
  unfold dirE5
  rw [pySet_length, pySet_length]
  exact dirE3_length file hentry hname

theorem to_dir_d6_length (file : File) (st ss : Int) (spt : Nat)
    (hentry : file.entry.length = 256) (hname : file.name.length ≤ 10) :
    (to_dir_d6 file st ss spt).length = 256 := by
  have h5 := dirE5_length file st ss hentry hname
  unfold to_dir_d6
  rw [pySetSlice_length _ _ _ _ (by omega) (by omega)
    (by rw [bytesFromBits_length, contig_sector_map_length])]
  exact h5

theorem to_dir_d6_spec (file : File) (st ss : Int) (spt : Nat)
    (hentry : file.entry.length = 256) (hname : file.name.length ≤ 10) :
    pyGet (to_dir_d6 file st ss spt) 0 =
      (file.type ||| (if file.hidden then 0x80 else 0) |||
        (if file.protected_ then 0x40 else 0)) ∧
    pyGet (to_dir_d6 file st ss spt) 13 = st.toNat ∧
    pyGet (to_dir_d6 file st ss spt) 14 = ss.toNat ∧
    pySlice (to_dir_d6 file st ss spt) 15 210 =
      bytesFromBits (contig_sector_map (file.data.length / data_bytes_per_sector file.type)
        st ss spt) := by
  have h1 := dirE1_length file hentry
  have h2 : (pySetSlice (dirE1 file) 1 11 (encode_ascii (padName file.name))).length = 256 := by
    rw [pySetSlice_length _ _ _ _ (by omega) (by omega)
      (by rw [encode_ascii_length, padName_length _ hname])]
    exact h1
  have h3 := dirE3_length file hentry hname
  have h5 := dirE5_length file st ss hentry hname
  have h6 := to_dir_d6_length file st ss spt hentry hname
  have hbits : (bytesFromBits (contig_sector_map
      (file.data.length / data_bytes_per_sector file.type) st ss spt)).length = 195 := by
    rw [bytesFromBits_length, contig_sector_map_length]
  have hlow : ∀ i, i < 15 → pyGet (to_dir_d6 file st ss spt) i = pyGet (dirE5 file st ss) i := by
    intro i hi
    unfold to_dir_d6
    rw [pyGet_pySetSlice _ _ _ _ _ (by omega) (by omega) (by rw [hbits]), if_neg (by omega)]
  refine ⟨?_, ?_, ?_, ?_⟩
  · rw [hlow 0 (by omega)]
    unfold dirE5
    rw [pyGet_pySet, if_neg (by omega), pyGet_pySet, if_neg (by omega)]
    unfold dirE3
    rw [pyGet_pySetSlice _ _ _ _ _ (by omega) (by omega) (by rfl), if_neg (by omega),
      pyGet_pySetSlice _ _ _ _ _ (by omega) (by omega)
        (by rw [encode_ascii_length, padName_length _ hname]), if_neg (by omega)]
    unfold dirE1
    rw [pyGet_pySet, if_pos (by omega)]
  · rw [hlow 13 (by omega)]
    unfold dirE5
    rw [pyGet_pySet, if_neg (by omega), pyGet_pySet,
      if_pos (by constructor; rfl; rw [h3]; omega)]
  · rw [hlow 14 (by omega)]
    unfold dirE5
    rw [pyGet_pySet, if_pos (by constructor; rfl; rw [pySet_length, h3]; omega)]
  · rw [pySlice_eq_map _ _ _ (by omega)]
    apply List.ext_getElem
    · rw [List.length_map, List.length_range, hbits]
    · intro i hh1 hh2
      have hi : i < 195 := by
        rw [List.length_map, List.length_range] at hh1
        omega
      simp only [List.getElem_map, List.getElem_range]
      unfold to_dir_d6
      rw [pyGet_pySetSlice _ _ _ _ _ (by omega) (by omega) (by rw [hbits]),
        if_pos (by omega)]
      unfold pyGet
      rw [List.getD_eq_getElem _ _ (by rw [hbits]; omega)]
      congr 1
      omega

theorem store_hi_preserves (l r : List Nat) (a b : Nat) (h210 : 210 ≤ a) (hab : a ≤ b)
    (hb : b ≤ l.length) (hr : r.length = b - a) :
    (pySetSlice l a b r).length = l.length ∧
    (∀ i, i < 210 → pyGet (pySetSlice l a b r) i = pyGet l i) := by
  refine ⟨pySetSlice_length l a b r hab hb hr, fun i hi => ?_⟩
  rw [pyGet_pySetSlice l a b r i hab hb hr, if_neg (by omega)]

theorem set_hi_preserves (l : List Nat) (i0 v : Nat) (h210 : 210 ≤ i0) :
    (pySet l i0 v).length = l.length ∧
    (∀ i, i < 210 → pyGet (pySet l i0 v) i = pyGet l i) := by
  refine ⟨pySet_length l i0 v, fun i hi => ?_⟩
  rw [pyGet_pySet, if_neg (by omega)]

theorem to_dir_tail_spec (file : File) (tf : TimeFormat) (d6 e : List Nat)
    (hd6 : d6.length = 256) (hok : to_dir_tail file tf d6 = .ok e) :
    e.length = 256 ∧ ∀ i, i < 210 → pyGet e i = pyGet d6 i := by
  unfold to_dir_tail at hok
  have hfin : ∀ d7 : List Nat, d7.length = 256 →
      (∀ i, i < 210 → pyGet d7 i = pyGet d6 i) →
      (if is_sam_file_type file.type then
        pySetSlice d7 245 250 (pack_time file.time tf) else d7) = e →
      e.length = 256 ∧ ∀ i, i < 210 → pyGet e i = pyGet d6 i := by
    intro d7 hlen hpre he
    by_cases hsam : is_sam_file_type file.type
    · rw [if_pos hsam] at he
      obtain ⟨ha, hb⟩ := store_hi_preserves d7 (pack_time file.time tf) 245 250
        (by omega) (by omega) (by omega) (by rw [pack_time_length])
      subst he
      exact ⟨by rw [ha, hlen], fun i hi => by rw [hb i hi, hpre i hi]⟩
    · rw [if_neg hsam] at he
      subst he
      exact ⟨hlen, hpre⟩
  by_cases ht1 : file.type = 1
  · rw [if_pos ht1] at hok
    simp only [Except.map] at hok
    obtain ⟨sa, sb⟩ := store_hi_preserves d6
      (if file.execute = none then [0xff, 0xff] else word_to_le file.execute) 218 220
      (by omega) (by omega) (by omega) (by split <;> rfl)
    exact hfin _ (by rw [sa, hd6]) sb (Except.ok.inj hok)
  rw [if_neg ht1] at hok
  by_cases ht4 : file.type = 4
  · rw [if_pos ht4] at hok
    simp only [Except.map] at hok
    obtain ⟨s1a, s1b⟩ := store_hi_preserves d6 (word_to_le file.length) 212 214
      (by omega) (by omega) (by omega) (by rw [word_to_le_length])
    rw [hd6] at s1a
    obtain ⟨s2a, s2b⟩ := store_hi_preserves
      (pySetSlice d6 212 214 (word_to_le file.length)) (word_to_le file.start) 214 216
      (by omega) (by omega) (by omega) (by rw [word_to_le_length])
    rw [s1a] at s2a
    obtain ⟨s3a, s3b⟩ := store_hi_preserves
      (pySetSlice (pySetSlice d6 212 214 (word_to_le file.length)) 214 216
        (word_to_le file.start)) (word_to_le file.execute) 218 220
      (by omega) (by omega) (by omega) (by rw [word_to_le_length])
    rw [s2a] at s3a
    refine hfin _ s3a ?_ (Except.ok.inj hok)
    intro i hi
    rw [s3b i hi, s2b i hi, s1b i hi]
  rw [if_neg ht4] at hok
  by_cases ht10 : file.type = 10
  · rw [if_pos ht10] at hok
    simp only [Except.map] at hok
    obtain ⟨p1a, p1b⟩ := set_hi_preserves d6 210
      (match file.length with | none => 0 | some l => l >>> 16) (by omega)
    rw [hd6] at p1a
    obtain ⟨p2a, p2b⟩ := store_hi_preserves
      (pySet d6 210 (match file.length with | none => 0 | some l => l >>> 16))
      (word_to_le file.length) 212 214 (by omega) (by omega) (by omega)
      (by rw [word_to_le_length])
    rw [p1a] at p2a
    refine hfin _ p2a ?_ (Except.ok.inj hok)
    intro i hi
    rw [p2b i hi, p1b i hi]
  rw [if_neg ht10] at hok
  by_cases ht16 : file.type = 16
  · rw [if_pos ht16] at hok
    cases htr : line_to_triple file.execute with
    | error err =>
      rw [htr] at hok
      simp only [Except.map] at hok
      exact Except.noConfusion hok
    | ok tr =>
      rw [htr] at hok
      simp only [Except.map] at hok
      have htrlen := line_to_triple_ok file.execute tr htr
      obtain ⟨sa, sb⟩ := store_hi_preserves d6 tr 242 245
        (by omega) (by omega) (by omega) (by omega)
      exact hfin _ (by rw [sa, hd6]) sb (Except.ok.inj hok)
  rw [if_neg ht16] at hok
  by_cases ht19 : file.type = 19
  · rw [if_pos ht19] at hok
    simp only [Except.map] at hok
    obtain ⟨s1a, s1b⟩ := store_hi_preserves d6 (addr_to_triple file.start) 236 239
      (by omega) (by omega) (by omega) (by rw [addr_to_triple_length])
    rw [hd6] at s1a
    obtain ⟨s2a, s2b⟩ := store_hi_preserves
      (pySetSlice d6 236 239 (addr_to_triple file.start)) (len_to_triple file.length)
      239 242 (by omega) (by omega) (by omega) (by rw [len_to_triple_length])
    rw [s1a] at s2a
    obtain ⟨s3a, s3b⟩ := store_hi_preserves
      (pySetSlice (pySetSlice d6 236 239 (addr_to_triple file.start)) 239 242
        (len_to_triple file.length)) (exec_to_triple file.execute) 242 245
      (by omega) (by omega) (by omega) (by rw [exec_to_triple_length])
    rw [s2a] at s3a
    refine hfin _ s3a ?_ (Except.ok.inj hok)
    intro i hi
    rw [s3b i hi, s2b i hi, s1b i hi]
  rw [if_neg ht19] at hok
  simp only [Except.map] at hok
  exact hfin d6 hd6 (fun i hi => rfl) (Except.ok.inj hok)

/-! ## Little-endian bit/byte round trip -/

theorem byteOfBits_cons (b : Bool) (rest : List Bool) :
    byteOfBits (b :: rest) = (if b then 1 else 0) + 2 * byteOfBits rest := rfl

theorem byteOfBits_lt (bits : List Bool) : byteOfBits bits < 2 ^ bits.length := by
  induction bits with
  | nil => decide
  | cons b rest ih =>
    rw [byteOfBits_cons, List.length_cons, pow_succ]
    split <;> omega

theorem byteOfBits_eq_bit (b : Bool) (rest : List Bool) :
    byteOfBits (b :: rest) = Nat.bit b (byteOfBits rest) := by
  rw [byteOfBits_cons]
  cases b <;> simp [Nat.bit] <;> omega

theorem testBit_byteOfBits : ∀ (bits : List Bool) (j : Nat), j < bits.length →
    (byteOfBits bits).testBit j = bits.getD j false := by
  intro bits
  induction bits with
  | nil =>
    intro j hj
    simp at hj
  | cons b rest ih =>
    intro j hj
    cases j with
    | zero =>
      rw [byteOfBits_eq_bit, Nat.testBit_bit_zero]
      rfl
    | succ j =>
      rw [byteOfBits_eq_bit, Nat.testBit_bit_succ]
      rw [List.length_cons] at hj
      rw [ih j (by omega)]
      rfl

theorem bits_roundtrip_aux : ∀ (n : Nat) (bits : List Bool), bits.length = 8 * n →
    bitsFromBytes (bytesFromBitsAux n bits) = bits := by
  intro n
  induction n with
  | zero =>
    intro bits hlen
    have hnil : bits = [] := List.eq_nil_of_length_eq_zero (by omega)
    subst hnil
    rfl
  | succ n ih =>
    intro bits hlen
    unfold bytesFromBitsAux bitsFromBytes
    rw [List.map_cons, List.flatten_cons]
    have h1 : ((List.range 8).map fun j => (byteOfBits (bits.take 8)).testBit j) =
        bits.take 8 := by
      apply List.ext_getElem
      · rw [List.length_map, List.length_range, List.length_take]
        omega
      · intro i hh1 hh2
        have hi : i < 8 := by
          rw [List.length_map, List.length_range] at hh1
          exact hh1
        simp only [List.getElem_map, List.getElem_range]
        rw [testBit_byteOfBits _ _ (by rw [List.length_take]; omega),
          List.getD_eq_getElem _ _ hh2]
    have h2 := ih (bits.drop 8) (by rw [List.length_drop]; omega)
    unfold bitsFromBytes at h2
    rw [h1, h2]
    exact List.take_append_drop 8 bits

theorem bits_roundtrip (bits : List Bool) (h : 8 ∣ bits.length) :
    bitsFromBytes (bytesFromBits bits) = bits := by
  obtain ⟨n, hn⟩ := h
  unfold bytesFromBits
  rw [hn]
  have h8 : 8 * n / 8 = n := by omega
  rw [h8]
  exact bits_roundtrip_aux n bits hn

/-! ## Recovering the type bits from the flags byte -/

theorem flags_and_31 (ty h p : Nat) (hty : ty < 32)
    (hh : h = 0 ∨ h = 128) (hp : p = 0 ∨ p = 64) :
    (ty ||| h ||| p) &&& 31 = ty := by
  apply Nat.eq_of_testBit_eq
  intro i
  rw [Nat.testBit_and, Nat.testBit_or, Nat.testBit_or]
  by_cases hi : i < 5
  · have h31 : (31 : Nat).testBit i = true := by interval_cases i <;> decide
    have hhb : h.testBit i = false := by
      rcases hh with rfl | rfl <;> interval_cases i <;> decide
    have hpb : p.testBit i = false := by
      rcases hp with rfl | rfl <;> interval_cases i <;> decide
    rw [h31, hhb, hpb]
    simp
  · have h2i : (32 : Nat) ≤ 2 ^ i := by
      calc (32 : Nat) = 2 ^ 5 := by norm_num
      _ ≤ 2 ^ i := Nat.pow_le_pow_right (by norm_num) (by omega)
    have h31 : (31 : Nat).testBit i = false := Nat.testBit_lt_two_pow (by omega)
    have htyb : ty.testBit i = false := Nat.testBit_lt_two_pow (by omega)
    rw [h31, htyb]
    simp

/-! ## Further projection lemmas for from_dir -/

theorem from_dir_type (e : List Nat) : (from_dir e).type = pyGet e 0 &&& 0x1f := by
  unfold from_dir
  simp only [apply_ite File.type, ite_self]

theorem from_dir_name (e : List Nat) :
    (from_dir e).name = rstrip_space_nul ((decode_ascii (pySlice e 1 11)).take 10) := by
  unfold from_dir
  simp only [apply_ite File.name, ite_self]

theorem from_dir_start_track (e : List Nat) : (from_dir e).start_track = pyGet e 13 := by
  unfold from_dir
  simp only [apply_ite File.start_track, ite_self]

theorem from_dir_start_sector (e : List Nat) : (from_dir e).start_sector = pyGet e 14 := by
  unfold from_dir
  simp only [apply_ite File.start_sector, ite_self]

theorem from_dir_data (e : List Nat) : (from_dir e).data = [] := by
  unfold from_dir
  simp only [apply_ite File.data, ite_self]

/-! ## The contiguous sector map at a chain position -/

theorem contig_sector_map_posOf (spt p k : Nat) (h0 : 0 < spt) (hp4 : 4 * spt ≤ p) :
    contig_sector_map k (posOf spt p).1 (posOf spt p).2 spt =
      pyBitSliceSet (List.replicate 1560 false) ((p - 4 * spt : Nat) : Int)
        (((p - 4 * spt : Nat) : Int) + (k : Int)) := by
  obtain ⟨q, r, hqr, hrlt, hdq, hdr⟩ := posOf_dm spt p h0
  have hq4 : 4 ≤ q := by
    by_contra hc
    push_neg at hc
    have h2 : spt * (q + 1) ≤ spt * 4 := Nat.mul_le_mul_left spt (by omega)
    have h3 : spt * (q + 1) = spt * q + spt := by ring
    omega
  have hpc : (p : Int) = (spt : Int) * q + r := by exact_mod_cast hqr
  have hcast : ((p - 4 * spt : Nat) : Int) = (p : Int) - 4 * spt := by
    rw [Nat.cast_sub hp4]
    push_cast
    ring
  by_cases hside : p < 80 * spt
  · have hq80 : q < 80 := by
      rw [← (side_lt_iff spt q r 80 h0 hrlt), ← hqr]
      exact hside
    rw [posOf_eq_side0 spt p hside, hdq, hdr]
    unfold contig_sector_map
    dsimp only
    rw [if_pos (by exact_mod_cast hq80)]
    have hoff : ((q : Int) - 4 - 0) * (spt : Int) + (((r + 1 : Nat) : Int) - 1) =
        ((p - 4 * spt : Nat) : Int) := by
      rw [hcast, hpc]
      push_cast
      ring
    rw [hoff]
  · have hq80 : 80 ≤ q := by
      by_contra hc
      push_neg at hc
      exact hside (by
        rw [hqr]
        exact (side_lt_iff spt q r 80 h0 hrlt).2 hc)
    rw [posOf_eq_side1 spt p hside, hdq, hdr]
    unfold contig_sector_map
    dsimp only
    rw [if_neg (by
      push_neg
      exact_mod_cast (by omega : (80 : Nat) ≤ q + 48))]
    have hoff : (((q + 48 : Nat) : Int) - 4 - (128 - 80)) * (spt : Int) +
        (((r + 1 : Nat) : Int) - 1) = ((p - 4 * spt : Nat) : Int) := by
      rw [hcast, hpc]
      push_cast
      ring
    rw [hoff]

theorem decoded_sectors_eq (spt p k : Nat) (e : List Nat) (h0 : 0 < spt)
    (hspt10 : spt ≤ 10) (hp4 : 4 * spt ≤ p)
    (hpk : p + k ≤ 160 * spt)
    (hslice : pySlice e 15 210 = bytesFromBits (contig_sector_map k
      (posOf spt p).1 (posOf spt p).2 spt)) :
    (from_dir e).sectors = k := by
  rw [from_dir_sectors, hslice, contig_sector_map_posOf spt p k h0 hp4]
  rw [bits_roundtrip _ (by rw [pyBitSliceSet_length, List.length_replicate]; decide)]
  rw [count_pyBitSliceSet_replicate 1560 _ _ (by omega) (by omega) (by
    have h2 : p - 4 * spt + k ≤ 1560 := by omega
    have h3 : (((p - 4 * spt : Nat) : Int) + (k : Int)) = ((p - 4 * spt + k : Nat) : Int) := by
      push_cast
      ring
    rw [h3]
    exact_mod_cast h2)]
  omega

theorem read_sector_posOf (img : Image) (spt p : Nat) (hk : img.kind = .mgt)
    (hspt : img.spt = spt) (h0 : 0 < spt) (hp : p < 160 * spt) :
    img.read_sector (posOf spt p).1 (posOf spt p).2 =
      .ok (img.buf.readBytes (512 * mgtIdx spt p) 512) := by
  unfold Image.read_sector
  rw [sector_offset_posOf img spt p hk hspt h0 hp]
  rfl

theorem data_bytes_pos (type : Nat) : 0 < data_bytes_per_sector type := by
  unfold data_bytes_per_sector
  split <;> omega

theorem data_bytes_cases (type : Nat) :
    data_bytes_per_sector type = 512 ∨ data_bytes_per_sector type = 510 := by
  unfold data_bytes_per_sector
  split
  · exact Or.inl rfl
  · exact Or.inr rfl

theorem write_data_chunk_ok (type : Nat) (data : List Nat) (i : Nat) (pos : Int × Int)
    (h1 : 0 ≤ pos.1) (h2 : pos.1 < 256) (h3 : 0 ≤ pos.2) (h4 : pos.2 < 256)
    (hle : (i + 1) * data_bytes_per_sector type ≤ data.length) :
    ∃ payload, write_data_chunk type data i pos = .ok payload ∧
      payload.length = 512 := by
  have hcs := data_bytes_cases type
  have hchunk : (pySlice data (i * data_bytes_per_sector type)
      (i * data_bytes_per_sector type + data_bytes_per_sector type)).length =
      data_bytes_per_sector type := by
    rw [pySlice_length data _ _ (by nlinarith [data_bytes_pos type]) (by omega)]
    omega
  unfold write_data_chunk
  rcases hcs with hcs | hcs
  · rw [if_pos hcs]
    exact ⟨_, rfl, by rw [hchunk, hcs]⟩
  · rw [if_neg (by omega)]
    by_cases hfin : i * data_bytes_per_sector type + data_bytes_per_sector type =
        data.length
    · rw [if_pos hfin]
      refine ⟨_, rfl, ?_⟩
      rw [List.length_append, hchunk, hcs]
      rfl
    · rw [if_neg hfin, if_neg (by push_neg; exact ⟨h1, by omega, h3, by omega⟩)]
      refine ⟨_, rfl, ?_⟩
      rw [List.length_append, hchunk, hcs]
      rfl

/-- The payload that the write loop stores for chunk `i` of `data` when the
chunk occupies chain position `p` (the pointer bytes name position `p + 1`). -/
def payloadAtI (spt type : Nat) (data : List Nat) (i p : Nat) : List Nat :=
  if data_bytes_per_sector type = 512 then
    pySlice data (i * data_bytes_per_sector type)
      (i * data_bytes_per_sector type + data_bytes_per_sector type)
  else if i * data_bytes_per_sector type + data_bytes_per_sector type = data.length then
    pySlice data (i * data_bytes_per_sector type)
      (i * data_bytes_per_sector type + data_bytes_per_sector type) ++ [0, 0]
  else
    pySlice data (i * data_bytes_per_sector type)
      (i * data_bytes_per_sector type + data_bytes_per_sector type) ++
      [(posOf spt (p + 1)).1.toNat, (posOf spt (p + 1)).2.toNat]

theorem write_data_chunk_eval (spt type : Nat) (data : List Nat) (i p : Nat)
    (h0 : 0 < spt) (hp : p + 1 ≤ 160 * spt) (h255 : spt ≤ 255)
    (hle : (i + 1) * data_bytes_per_sector type ≤ data.length) :
    write_data_chunk type data i (posOf spt (p + 1)) =
      .ok (payloadAtI spt type data i p) ∧
    (payloadAtI spt type data i p).length = 512 := by
  obtain ⟨hf1, hf2, hf3, hf4⟩ := posOf_track_facts spt (p + 1) h0 hp
  have hcs := data_bytes_cases type
  have hchunk : (pySlice data (i * data_bytes_per_sector type)
      (i * data_bytes_per_sector type + data_bytes_per_sector type)).length =
      data_bytes_per_sector type := by
    rw [pySlice_length data _ _ (by nlinarith [data_bytes_pos type]) (by omega)]
    omega
  unfold write_data_chunk payloadAtI
  rcases hcs with hcs | hcs
  · rw [if_pos hcs, if_pos hcs]
    exact ⟨rfl, by rw [hchunk, hcs]⟩
  · have hne : ¬data_bytes_per_sector type = 512 := by omega
    rw [if_neg hne, if_neg hne]
    by_cases hfin : i * data_bytes_per_sector type + data_bytes_per_sector type =
        data.length
    · rw [if_pos hfin, if_pos hfin]
      refine ⟨rfl, ?_⟩
      rw [List.length_append, hchunk, hcs]
      rfl
    · rw [if_neg hfin, if_neg hfin,
        if_neg (by push_neg; exact ⟨hf1, by omega, by omega, by omega⟩)]
      refine ⟨rfl, ?_⟩
      rw [List.length_append, hchunk, hcs]
      rfl

theorem write_data_go_ok (type spt : Nat) (data : List Nat)
    (h0 : 0 < spt) (h255 : spt ≤ 255) :
    ∀ n img p i, img.kind = .mgt → img.spt = spt →
      img.buf.size = 80 * 2 * spt * 512 →
      i + n ≤ data.length / data_bytes_per_sector type →
      p + n ≤ 160 * spt →
      ∃ imgOut,
        write_data_go type img (posOf spt p).1 (posOf spt p).2 data i n =
          (imgOut, .ok (posOf spt (p + n))) ∧
        imgOut.kind = .mgt ∧ imgOut.spt = spt ∧ imgOut.buf.size = img.buf.size ∧
        (∀ b, (∀ j, j < n → b < 512 * mgtIdx spt (p + j) ∨
            512 * mgtIdx spt (p + j) + 512 ≤ b) →
          imgOut.buf.mem b = img.buf.mem b) ∧
        (∀ j, j < n →
          imgOut.buf.readBytes (512 * mgtIdx spt (p + j)) 512 =
            payloadAtI spt type data (i + j) (p + j)) := by
  intro n
  induction n with
  | zero =>
    intro img p i hk hspt hsize hi hp
    exact ⟨img, rfl, hk, hspt, rfl, fun b _ => rfl, fun j hj => absurd hj (by omega)⟩
  | succ n ih =>
    intro img p i hk hspt hsize hi hp
    have hplt : p < 160 * spt := by omega
    have hcs : 0 < data_bytes_per_sector type := data_bytes_pos type
    have hle : (i + 1) * data_bytes_per_sector type ≤ data.length := by
      have h2 : i + 1 ≤ data.length / data_bytes_per_sector type := by omega
      have h3 := (Nat.le_div_iff_mul_le hcs).1 h2
      omega
    obtain ⟨hpay, hpaylen⟩ := write_data_chunk_eval spt type data i p h0 (by omega) h255 hle
    have hmgt : mgtIdx spt p < 160 * spt := mgtIdx_lt spt p h0 hplt
    have hwb : 512 * mgtIdx spt p + 512 ≤ img.buf.size := by
      have h2 : 512 * (mgtIdx spt p + 1) ≤ 512 * (160 * spt) :=
        Nat.mul_le_mul_left 512 (by omega)
      have h3 : 512 * (160 * spt) = 80 * 2 * spt * 512 := by ring
      omega
    obtain ⟨imgOut, hrun, hok, hos, hsz, hframe, hread⟩ :=
      ih { img with buf := img.buf.writeBytes (512 * mgtIdx spt p) (payloadAtI spt type data i p) } (p + 1) (i + 1) hk hspt
        (by
          show (img.buf.writeBytes (512 * mgtIdx spt p) (payloadAtI spt type data i p)).size =
            80 * 2 * spt * 512
          rw [ByteBuf.writeBytes_size _ _ _ (by omega)]
          exact hsize)
        (by omega) (by omega)
    have hwsize : (img.buf.writeBytes (512 * mgtIdx spt p)
        (payloadAtI spt type data i p)).size = img.buf.size :=
      ByteBuf.writeBytes_size _ _ _ (by omega)
    refine ⟨imgOut, ?_, hok, hos, by rw [hsz, hwsize], ?_, ?_⟩
    · unfold write_data_go
      rw [hspt, posOf_next spt p h0 hplt]
      dsimp only
      rw [hpay]
      dsimp only
      rw [write_sector_posOf img spt p (payloadAtI spt type data i p) hk hspt h0 hplt hpaylen]
      dsimp only
      rw [hrun]
      have harith : p + 1 + n = p + (n + 1) := by omega
      rw [harith]
    · intro b hb
      rw [hframe b (by
        intro j hj
        have h2 := hb (j + 1) (by omega)
        have h3 : p + 1 + j = p + (j + 1) := by omega
        rw [h3]
        exact h2)]
      show (img.buf.writeBytes (512 * mgtIdx spt p) (payloadAtI spt type data i p)).mem b =
        img.buf.mem b
      apply ByteBuf.writeBytes_mem_lo _ _ _ _ (by omega)
      rw [hpaylen]
      have h2 := hb 0 (by omega)
      rw [Nat.add_zero] at h2
      exact h2
    · intro j hj
      rcases Nat.eq_zero_or_pos j with hj0 | hjpos
      · subst hj0
        rw [Nat.add_zero, Nat.add_zero]
        have hdisj : ∀ i2, i2 < n → 512 * mgtIdx spt (p + 1 + i2) ≥
            512 * mgtIdx spt p + 512 ∨ 512 * mgtIdx spt (p + 1 + i2) + 512 ≤
            512 * mgtIdx spt p := by
          intro i2 hi2
          have hne : mgtIdx spt (p + 1 + i2) ≠ mgtIdx spt p := by
            intro he
            have := mgtIdx_inj spt (p + 1 + i2) p h0 (by omega) hplt he
            omega
          have hlt1 := mgtIdx_lt spt (p + 1 + i2) h0 (by omega)
          rcases Nat.lt_or_ge (mgtIdx spt (p + 1 + i2)) (mgtIdx spt p) with hl | hl
          · right
            have h2 : mgtIdx spt (p + 1 + i2) + 1 ≤ mgtIdx spt p := by omega
            have h3 : 512 * (mgtIdx spt (p + 1 + i2) + 1) ≤ 512 * mgtIdx spt p :=
              Nat.mul_le_mul_left 512 h2
            omega
          · left
            have h2 : mgtIdx spt p + 1 ≤ mgtIdx spt (p + 1 + i2) := by omega
            have h3 : 512 * (mgtIdx spt p + 1) ≤ 512 * mgtIdx spt (p + 1 + i2) :=
              Nat.mul_le_mul_left 512 h2
            omega
        have hpre : imgOut.buf.readBytes (512 * mgtIdx spt p) 512 =
            (img.buf.writeBytes (512 * mgtIdx spt p)
              (payloadAtI spt type data i p)).readBytes (512 * mgtIdx spt p) 512 := by
          apply ByteBuf.readBytes_congr _ _ _ _ hsz
          intro i2 hi2
          apply hframe
          intro j2 hj2
          have h2 := hdisj j2 hj2
          omega
        rw [hpre]
        have h5 := ByteBuf.readBytes_writeBytes_self img.buf (512 * mgtIdx spt p)
          (payloadAtI spt type data i p) (by omega)
        rw [hpaylen] at h5
        exact h5
      · obtain ⟨j2, rfl⟩ : ∃ j2, j = j2 + 1 := ⟨j - 1, by omega⟩
        have h2 := hread j2 (by omega)
        have h3 : p + 1 + j2 = p + (j2 + 1) := by omega
        have h4 : i + 1 + j2 = i + (j2 + 1) := by omega
        rw [h3, h4] at h2
        exact h2

theorem write_data_go_out_of_space (type spt : Nat) (data : List Nat)
    (h0 : 0 < spt) (h255 : spt ≤ 255) :
    ∀ n img p i, img.kind = .mgt → img.spt = spt → p ≤ 160 * spt →
      160 * spt - p < n → i + n ≤ data.length / data_bytes_per_sector type →
      (write_data_go type img (posOf spt p).1 (posOf spt p).2 data i n).2 =
        .error .runtimeError ∧
      (p = 160 * spt →
        write_data_go type img (posOf spt p).1 (posOf spt p).2 data i n =
          (img, .error .runtimeError)) := by
  intro n
  induction n with
  | zero =>
    intro img p i hk hspt hp hn hin
    exact absurd hn (by omega)
  | succ n ih =>
    intro img p i hk hspt hp hn hin
    by_cases hend : p = 160 * spt
    · subst hend
      unfold write_data_go
      rw [hspt, posOf_end_check spt h0]
      exact ⟨rfl, fun _ => rfl⟩
    · have hplt : p < 160 * spt := by omega
      have hcs : 0 < data_bytes_per_sector type := data_bytes_pos type
      have hle : (i + 1) * data_bytes_per_sector type ≤ data.length := by
        have h2 : i + 1 ≤ data.length / data_bytes_per_sector type := by omega
        have h3 := (Nat.le_div_iff_mul_le hcs).1 h2
        omega
      have hbounds := posOf_track_facts spt (p + 1) h0 (by omega)
      obtain ⟨payload, hpay, hpaylen⟩ := write_data_chunk_ok type data i
        (posOf spt (p + 1)) hbounds.1 hbounds.2.1 (by
          have := hbounds.2.2.1
          omega)
        (by
          have h5 := hbounds.2.2.2
          have h6 : ((spt : Nat) : Int) < 256 := by omega
          omega) hle
      refine ⟨?_, fun he => absurd he hend⟩
      unfold write_data_go
      rw [hspt, posOf_next spt p h0 hplt]
      dsimp only
      rw [hpay]
      dsimp only
      rw [write_sector_posOf img spt p payload hk hspt h0 hplt hpaylen]
      dsimp only
      exact (ih { img with buf := img.buf.writeBytes (512 * mgtIdx spt p) payload }
        (p + 1) (i + 1) hk hspt (by omega) (by omega) (by omega)).1

/-! ## Reading back a written chain -/

theorem slice_append_drop (data : List Nat) (a cs : Nat) (h : a + cs ≤ data.length) :
    pySlice data a (a + cs) ++ data.drop (a + cs) = data.drop a := by
  have hslice : pySlice data a (a + cs) = (data.drop a).take cs := by
    unfold pySlice
    congr 1
    omega
  have hdd : data.drop (a + cs) = (data.drop a).drop cs := by
    simp [List.drop_drop, Nat.add_comm]
  rw [hslice, hdd]
  exact List.take_append_drop cs (data.drop a)

theorem read_data_contig_payloads (img : Image) (spt ty p k : Nat) (data : List Nat)
    (hk : img.kind = .mgt) (hspt : img.spt = spt)
    (h0 : 0 < spt) (hpk : p + k ≤ 160 * spt)
    (hcontig : data_bytes_per_sector ty = 512)
    (hlen : data.length = k * 512)
    (hsec : ∀ j, j < k → img.buf.readBytes (512 * mgtIdx spt (p + j)) 512 =
      payloadAtI spt ty data j (p + j)) :
    ∀ m j acc, j + m = k →
      read_data_contig img (posOf spt (p + j)).1 (posOf spt (p + j)).2 m acc =
        acc ++ data.drop (j * 512) := by
  intro m
  induction m with
  | zero =>
    intro j acc hj
    have hd : data.drop (j * 512) = [] := List.drop_eq_nil_of_le (by omega)
    rw [hd, List.append_nil]
    rfl
  | succ m ih =>
    intro j acc hj
    have hplt : p + j < 160 * spt := by omega
    have hrs := read_sector_posOf img spt (p + j) hk hspt h0 hplt
    have hnx : next_sector (posOf spt (p + j)).1 (posOf spt (p + j)).2 img.spt =
        .ok (posOf spt (p + j + 1)) := by
      rw [hspt]
      exact posOf_next spt (p + j) h0 hplt
    have hpay : payloadAtI spt ty data j (p + j) =
        pySlice data (j * 512) (j * 512 + 512) := by
      unfold payloadAtI
      rw [hcontig, if_pos rfl]
    unfold read_data_contig
    rw [hrs, hnx]
    show read_data_contig img (posOf spt (p + j + 1)).1 (posOf spt (p + j + 1)).2 m
      (acc ++ img.buf.readBytes (512 * mgtIdx spt (p + j)) 512) =
      acc ++ data.drop (j * 512)
    rw [hsec j (by omega), hpay]
    have harith : p + j + 1 = p + (j + 1) := by omega
    rw [harith, ih (j + 1) (acc ++ pySlice data (j * 512) (j * 512 + 512)) (by omega)]
    rw [List.append_assoc]
    congr 1
    have h2 : (j + 1) * 512 = j * 512 + 512 := by ring
    rw [h2]
    exact slice_append_drop data (j * 512) 512 (by omega)

theorem read_data_chain_payloads (img : Image) (spt ty p k : Nat) (data : List Nat)
    (hk : img.kind = .mgt) (hspt : img.spt = spt)
    (h0 : 0 < spt) (hpk : p + k ≤ 160 * spt)
    (hchain : data_bytes_per_sector ty = 510)
    (hlen : data.length = k * 510)
    (hsec : ∀ j, j < k → img.buf.readBytes (512 * mgtIdx spt (p + j)) 512 =
      payloadAtI spt ty data j (p + j)) :
    ∀ m j acc, j + m = k →
      read_data_chain img (posOf spt (p + j)).1 (posOf spt (p + j)).2 m acc =
        acc ++ data.drop (j * 510) := by
  intro m
  induction m with
  | zero =>
    intro j acc hj
    have hd : data.drop (j * 510) = [] := List.drop_eq_nil_of_le (by omega)
    rw [hd, List.append_nil]
    rfl
  | succ m ih =>
    intro j acc hj
    have hplt : p + j < 160 * spt := by omega
    have hrs := read_sector_posOf img spt (p + j) hk hspt h0 hplt
    have hchunklen : (pySlice data (j * 510) (j * 510 + 510)).length = 510 := by
      rw [pySlice_length data _ _ (by omega) (by omega)]
      omega
    unfold read_data_chain
    rw [hrs]
    dsimp only
    rw [hsec j (by omega)]
    by_cases hlast : j + 1 = k
    · have hm0 : m = 0 := by omega
      subst hm0
      have htail : payloadAtI spt ty data j (p + j) =
          pySlice data (j * 510) (j * 510 + 510) ++ [0, 0] := by
        unfold payloadAtI
        rw [hchain, if_neg (by omega), if_pos (by omega)]
      rw [htail]
      have hPlen : (pySlice data (j * 510) (j * 510 + 510) ++ [0, 0]).length = 512 := by
        rw [List.length_append, hchunklen]
        rfl
      rw [hPlen, if_pos (by omega)]
      have h510 : (512 : Nat) - 2 = 510 := rfl
      rw [h510]
      have htake : (pySlice data (j * 510) (j * 510 + 510) ++ [0, 0]).take 510 =
          pySlice data (j * 510) (j * 510 + 510) := by
        have htake0 := List.take_left (pySlice data (j * 510) (j * 510 + 510)) [0, 0]
        rw [hchunklen] at htake0
        exact htake0
      rw [htake]
      show acc ++ pySlice data (j * 510) (j * 510 + 510) = acc ++ data.drop (j * 510)
      congr 1
      have hdata : pySlice data (j * 510) (j * 510 + 510) = data.drop (j * 510) := by
        unfold pySlice
        have h2 : j * 510 + 510 - j * 510 = 510 := by omega
        rw [h2]
        apply List.take_of_length_le
        rw [List.length_drop]
        omega
      exact hdata
    · have hble : j * 510 + 510 < data.length := by omega
      have hptr : payloadAtI spt ty data j (p + j) =
          pySlice data (j * 510) (j * 510 + 510) ++
          [(posOf spt (p + j + 1)).1.toNat, (posOf spt (p + j + 1)).2.toNat] := by
        unfold payloadAtI
        rw [hchain, if_neg (by omega), if_neg (by omega)]
      rw [hptr]
      have hPlen : (pySlice data (j * 510) (j * 510 + 510) ++
          [(posOf spt (p + j + 1)).1.toNat, (posOf spt (p + j + 1)).2.toNat]).length = 512 := by
        rw [List.length_append, hchunklen]
        rfl
      rw [hPlen, if_pos (by omega)]
      have h510 : (512 : Nat) - 2 = 510 := rfl
      have h511 : (512 : Nat) - 1 = 511 := rfl
      rw [h510, h511]
      have htake : (pySlice data (j * 510) (j * 510 + 510) ++
          [(posOf spt (p + j + 1)).1.toNat, (posOf spt (p + j + 1)).2.toNat]).take 510 =
          pySlice data (j * 510) (j * 510 + 510) := by
        have htake0 := List.take_left (pySlice data (j * 510) (j * 510 + 510))
          [(posOf spt (p + j + 1)).1.toNat, (posOf spt (p + j + 1)).2.toNat]
        rw [hchunklen] at htake0
        exact htake0
      have hg510 : (pySlice data (j * 510) (j * 510 + 510) ++
          [(posOf spt (p + j + 1)).1.toNat, (posOf spt (p + j + 1)).2.toNat]).getD 510 0 =
          (posOf spt (p + j + 1)).1.toNat := by
        rw [getD_append_ge _ _ 510 (by omega), hchunklen]
        rfl
      have hg511 : (pySlice data (j * 510) (j * 510 + 510) ++
          [(posOf spt (p + j + 1)).1.toNat, (posOf spt (p + j + 1)).2.toNat]).getD 511 0 =
          (posOf spt (p + j + 1)).2.toNat := by
        rw [getD_append_ge _ _ 511 (by omega), hchunklen]
        rfl
      rw [htake, hg510, hg511]
      obtain ⟨hf1, hf2, hf3, hf4⟩ := posOf_track_facts spt (p + j + 1) h0 (by omega)
      have hc1 : (((posOf spt (p + j + 1)).1.toNat : Nat) : Int) =
          (posOf spt (p + j + 1)).1 := Int.toNat_of_nonneg hf1
      have hc2 : (((posOf spt (p + j + 1)).2.toNat : Nat) : Int) =
          (posOf spt (p + j + 1)).2 := Int.toNat_of_nonneg (by omega)
      rw [hc1, hc2]
      have harith : p + j + 1 = p + (j + 1) := by omega
      rw [harith, ih (j + 1) (acc ++ pySlice data (j * 510) (j * 510 + 510)) (by omega)]
      rw [List.append_assoc]
      congr 1
      have h2 : (j + 1) * 510 = j * 510 + 510 := by ring
      rw [h2]
      exact slice_append_drop data (j * 510) 510 (by omega)

theorem read_data_payloads (img : Image) (spt ty p k : Nat) (data : List Nat)
    (hk : img.kind = .mgt) (hspt : img.spt = spt)
    (h0 : 0 < spt) (hpk : p + k ≤ 160 * spt)
    (hdvd : data_bytes_per_sector ty ∣ data.length)
    (hkval : k = data.length / data_bytes_per_sector ty)
    (hsec : ∀ j, j < k → img.buf.readBytes (512 * mgtIdx spt (p + j)) 512 =
      payloadAtI spt ty data j (p + j)) :
    read_data img ty k (posOf spt p).1 (posOf spt p).2 = data := by
  unfold read_data
  by_cases hct : is_contig_data_type ty
  · rw [if_pos hct]
    have hcontig : data_bytes_per_sector ty = 512 := by
      unfold data_bytes_per_sector
      rw [if_pos hct]
    have hlen : data.length = k * 512 := by
      obtain ⟨c, hc⟩ := hdvd
      rw [hcontig] at hc
      rw [hkval, hcontig, hc, Nat.mul_div_cancel_left c (by omega)]
      ring
    have h2 := read_data_contig_payloads img spt ty p k data hk hspt h0 hpk
      hcontig hlen hsec k 0 [] (by omega)
    rw [Nat.add_zero] at h2
    simpa using h2
  · rw [if_neg hct]
    have hchain : data_bytes_per_sector ty = 510 := by
      unfold data_bytes_per_sector
      rw [if_neg hct]
    have hlen : data.length = k * 510 := by
      obtain ⟨c, hc⟩ := hdvd
      rw [hchain] at hc
      rw [hkval, hchain, hc, Nat.mul_div_cancel_left c (by omega)]
      ring
    have h2 := read_data_chain_payloads img spt ty p k data hk hspt h0 hpk
      hchain hlen hsec k 0 [] (by omega)
    rw [Nat.add_zero] at h2
    simpa using h2

/-! ## Chunk bookkeeping for a file list -/

/-- Number of sectors a file occupies when written. -/
def chunksOf (f : File) : Nat := f.data.length / data_bytes_per_sector f.type

/-- Total sector count of a file list. -/
def totalChunks : List File → Nat
  | [] => 0
  | f :: rest => chunksOf f + totalChunks rest

/-- Total sector count of the first `l` files. -/
def totalBefore : List File → Nat → Nat
  | _, 0 => 0
  | [], _ + 1 => 0
  | f :: rest, l + 1 => chunksOf f + totalBefore rest l

theorem getD_replicate_zero (n i : Nat) :
    (List.replicate n (0 : Nat)).getD i 0 = 0 := by
  rcases Nat.lt_or_ge i n with h | h
  · rw [List.getD_eq_getElem _ _ (by simpa using h), List.getElem_replicate]
  · rw [List.getD_eq_default _ _ (by simpa using h)]

/-! ## Step equations for the directory scan loop -/

theorem except_bind_ok {α β : Type} (a : α) (f : α → Except Err β) :
    (do
      let x ← Except.ok a
      f x) = f a := rfl

theorem from_image_go_break (img : Image) (index fuel : Nat) (entry : List Nat)
    (hread : read_dir img index = .ok entry) (hty : (from_dir entry).type = 0)
    (hname : (from_dir entry).name = []) :
    from_image_go img index (fuel + 1) = .ok [] := by
  unfold from_image_go
  rw [hread, except_bind_ok]
  rw [if_neg (by simp [hty]), if_pos hname]

theorem from_image_go_cons (img : Image) (index fuel : Nat) (entry : List Nat)
    (hread : read_dir img index = .ok entry) (hty : (from_dir entry).type ≠ 0) :
    from_image_go img index (fuel + 1) =
      (do
        let rest ← from_image_go img (index + 1) fuel
        pure (({ from_dir entry with
                  data := read_data img (from_dir entry).type (from_dir entry).sectors
                    ((from_dir entry).start_track : Int)
                    ((from_dir entry).start_sector : Int) } : File) :: rest)) := by
  conv_lhs => unfold from_image_go
  rw [hread, except_bind_ok]
  rw [if_pos hty]

/-! ## The directory scan over an image produced by the writer -/

theorem index_geom (spt dt index : Nat) (h0 : 0 < spt) (hdt39 : dt ≤ 39)
    (hidx : index < dt * spt * 2) : index / (spt * 2) < 80 := by
  have h3 : dt * spt ≤ 39 * spt := Nat.mul_le_mul_right spt hdt39
  rw [Nat.div_lt_iff_lt_mul (by omega)]
  omega

theorem from_image_go_spec (img : Image) (spt dt : Nat) (tf : TimeFormat)
    (hk : img.kind = .mgt) (hspt : img.spt = spt)
    (hsize : img.buf.size = 80 * 2 * spt * 512)
    (h0 : 0 < spt) (hspt10 : spt ≤ 10) (hdt4 : 4 ≤ dt) (hdt39 : dt ≤ 39) :
    ∀ (files : List File) (index p fuel : Nat),
      index + files.length ≤ dt * spt * 2 →
      fuel = dt * spt * 2 - index →
      dt * spt ≤ p → p + totalChunks files ≤ 160 * spt →
      (∀ f ∈ files, f.type ≠ 0 ∧ f.type < 32 ∧ f.entry.length = 256 ∧
        f.name.length ≤ 10 ∧ data_bytes_per_sector f.type ∣ f.data.length) →
      (∀ l, (hl : l < files.length) → ∃ e,
        to_dir (files.get ⟨l, hl⟩) (posOf spt (p + totalBefore files l)).1
          (posOf spt (p + totalBefore files l)).2 spt tf = .ok e ∧
        ∀ j, j < 256 → img.buf.mem (slotBase spt (index + l) + j) = pyGet e j) →
      (∀ l, (hl : l < files.length) → ∀ j, j < chunksOf (files.get ⟨l, hl⟩) →
        img.buf.readBytes (512 * mgtIdx spt (p + totalBefore files l + j)) 512 =
          payloadAtI spt (files.get ⟨l, hl⟩).type (files.get ⟨l, hl⟩).data j
            (p + totalBefore files l + j)) →
      (index + files.length = dt * spt * 2 ∨
        ∀ j, j < 256 → img.buf.mem (slotBase spt (index + files.length) + j) = 0) →
      ∃ files2, from_image_go img index fuel = .ok files2 ∧
        files2.map (fun f => f.data) = files.map (fun f => f.data) := by
  intro files
  induction files with
  | nil =>
    intro index p fuel hidx hfuel hpge hcap hwf hslots hdata hterm
    rcases hterm with hterm | hterm
    · have hf0 : fuel = 0 := by
        simp only [List.length_nil, Nat.add_zero] at hterm
        omega
      subst hf0
      exact ⟨[], rfl, rfl⟩
    · cases fuel with
      | zero => exact ⟨[], rfl, rfl⟩
      | succ f2 =>
        have hidxlt : index < dt * spt * 2 := by omega
        have hgeo := index_geom spt dt index h0 hdt39 hidxlt
        simp only [List.length_nil, Nat.add_zero] at hterm
        have hread : read_dir img index = .ok (List.replicate 256 0) := by
          rw [read_dir_eval img spt index hk hspt hsize h0 hgeo]
          congr 1
          apply slot_entry_eq img.buf.mem (slotBase spt index) (List.replicate 256 0)
            (by rw [List.length_replicate])
          intro j hj
          rw [hterm j hj]
          unfold pyGet
          rw [getD_replicate_zero]
        have htype : (from_dir (List.replicate 256 0)).type = 0 := by
          rw [from_dir_type]
          decide
        have hname : (from_dir (List.replicate 256 0)).name = [] := by
          rw [from_dir_name]
          decide
        exact ⟨[], from_image_go_break img index f2 _ hread htype hname, rfl⟩
  | cons f rest ih =>
    intro index p fuel hidx hfuel hpge hcap hwf hslots hdata hterm
    have hlen_cons : (f :: rest).length = rest.length + 1 := rfl
    have hidxlt : index < dt * spt * 2 := by omega
    obtain ⟨f2, rfl⟩ : ∃ f2, fuel = f2 + 1 := ⟨fuel - 1, by omega⟩
    have hgeo := index_geom spt dt index h0 hdt39 hidxlt
    obtain ⟨hfty, hfty32, hfentry, hfname, hfdvd⟩ := hwf f (List.mem_cons_self f rest)
    have hcapf : p + chunksOf f ≤ 160 * spt := by
      have h2 : totalChunks (f :: rest) = chunksOf f + totalChunks rest := rfl
      omega
    have hple : p ≤ 160 * spt := by omega
    have hp4 : 4 * spt ≤ p := by
      have h2 : 4 * spt ≤ dt * spt := Nat.mul_le_mul_right spt hdt4
      omega
    obtain ⟨hf1, hf2, hf3, hf4⟩ := posOf_track_facts spt p h0 hple
    -- the slot-0 entry
    obtain ⟨e, hto, hmem⟩ := hslots 0 (by simp)
    have htb : p + totalBefore (f :: rest) 0 = p := rfl
    rw [htb] at hto
    have hto2 : to_dir f (posOf spt p).1 (posOf spt p).2 spt tf = Except.ok e := hto
    clear hto
    rename' hto2 => hto
    have hrange : ¬((posOf spt p).1 < 0 ∨ 256 ≤ (posOf spt p).1 ∨
        (posOf spt p).2 < 0 ∨ 256 ≤ (posOf spt p).2) := by
      push_neg
      have hspt256 : ((spt : Nat) : Int) < 256 := by exact_mod_cast (by omega : spt < 256)
      exact ⟨hf1, hf2, by omega, by omega⟩
    rw [to_dir_eq f _ _ spt tf hfty hrange] at hto
    have hd6len := to_dir_d6_length f (posOf spt p).1 (posOf spt p).2 spt hfentry hfname
    obtain ⟨helen, hepre⟩ := to_dir_tail_spec f tf _ e hd6len hto
    obtain ⟨hd60, hd613, hd614, hd6slice⟩ :=
      to_dir_d6_spec f (posOf spt p).1 (posOf spt p).2 spt hfentry hfname
    -- read_dir returns e
    have hread : read_dir img index = .ok e := by
      rw [read_dir_eval img spt index hk hspt hsize h0 hgeo]
      congr 1
      exact slot_entry_eq img.buf.mem _ e helen hmem
    -- decoded fields
    have hfd_type : (from_dir e).type = f.type := by
      rw [from_dir_type, hepre 0 (by omega), hd60]
      exact flags_and_31 f.type _ _ hfty32
        (by cases f.hidden <;> simp) (by cases f.protected_ <;> simp)
    have hfd_st : (from_dir e).start_track = (posOf spt p).1.toNat := by
      rw [from_dir_start_track, hepre 13 (by omega), hd613]
    have hfd_ss : (from_dir e).start_sector = (posOf spt p).2.toNat := by
      rw [from_dir_start_sector, hepre 14 (by omega), hd614]
    have hslice : pySlice e 15 210 = bytesFromBits (contig_sector_map
        (chunksOf f) (posOf spt p).1 (posOf spt p).2 spt) := by
      have h2 : pySlice e 15 210 = pySlice (to_dir_d6 f (posOf spt p).1 (posOf spt p).2 spt)
          15 210 :=
        pySlice_congr _ _ 15 210 (by omega) (by omega) (fun i h1 h2 => hepre i (by omega))
      rw [h2, hd6slice]
      rfl
    have hfd_sectors : (from_dir e).sectors = chunksOf f :=
      decoded_sectors_eq spt p (chunksOf f) e h0 hspt10 hp4 hcapf hslice
    -- data read-back
    have hsec0 : ∀ j, j < chunksOf f →
        img.buf.readBytes (512 * mgtIdx spt (p + j)) 512 =
          payloadAtI spt f.type f.data j (p + j) := by
      intro j hj
      have h2 := hdata 0 (by simp) j (by simpa using hj)
      rw [htb] at h2
      simpa using h2
    have hreaddata : read_data img f.type (chunksOf f) (posOf spt p).1 (posOf spt p).2 =
        f.data :=
      read_data_payloads img spt f.type p (chunksOf f) f.data hk hspt h0 hcapf
        hfdvd rfl hsec0
    -- recursive call
    obtain ⟨files2, hrun2, hmap2⟩ := ih (index + 1) (p + chunksOf f) f2
      (by omega) (by omega) (by omega)
      (by
        have h2 : totalChunks (f :: rest) = chunksOf f + totalChunks rest := rfl
        omega)
      (fun g hg => hwf g (List.mem_cons_of_mem f hg))
      (by
        intro l hl
        obtain ⟨e2, hto2, hmem2⟩ := hslots (l + 1) (by simpa using Nat.succ_lt_succ hl)
        refine ⟨e2, ?_, ?_⟩
        · have h2 : p + totalBefore (f :: rest) (l + 1) =
              p + chunksOf f + totalBefore rest l := by
            show p + (chunksOf f + totalBefore rest l) = _
            omega
          rw [h2] at hto2
          exact hto2
        · intro j hj
          have h3 : index + (l + 1) = index + 1 + l := by omega
          rw [h3] at hmem2
          exact hmem2 j hj)
      (by
        intro l hl j hj
        have h2 := hdata (l + 1) (by simpa using Nat.succ_lt_succ hl) j
          (by simpa using hj)
        have h3 : p + totalBefore (f :: rest) (l + 1) + j =
            p + chunksOf f + totalBefore rest l + j := by
          show p + (chunksOf f + totalBefore rest l) + j = _
          omega
        rw [h3] at h2
        exact h2)
      (by
        rcases hterm with hterm | hterm
        · left
          omega
        · right
          intro j hj
          have h2 : index + 1 + rest.length = index + (f :: rest).length := by
            rw [hlen_cons]
            omega
          rw [h2]
          exact hterm j hj)
    refine ⟨({ from_dir e with
        data := read_data img (from_dir e).type (from_dir e).sectors
          ((from_dir e).start_track : Int) ((from_dir e).start_sector : Int) } : File)
        :: files2, ?_, ?_⟩
    · rw [from_image_go_cons img index f2 e hread (by rw [hfd_type]; exact hfty), hrun2]
      rfl
    · simp only [List.map_cons]
      rw [hmap2]
      congr 1
      show read_data img (from_dir e).type (from_dir e).sectors
        ((from_dir e).start_track : Int) ((from_dir e).start_sector : Int) = f.data
      rw [hfd_type, hfd_sectors, hfd_st, hfd_ss,
        Int.toNat_of_nonneg hf1, Int.toNat_of_nonneg (by omega)]
      exact hreaddata

/-! ## Disjointness of written regions -/

theorem sector_range_disjoint (a b x : Nat) (hne : a ≠ b)
    (hx : 512 * a ≤ x ∧ x < 512 * a + 512) :
    ¬(512 * b ≤ x ∧ x < 512 * b + 512) := by
  intro hx2
  rcases Nat.lt_or_ge a b with h | h
  · have h2 : 512 * (a + 1) ≤ 512 * b := Nat.mul_le_mul_left 512 (by omega)
    omega
  · have hba : b < a := by omega
    have h2 : 512 * (b + 1) ≤ 512 * a := Nat.mul_le_mul_left 512 (by omega)
    omega

theorem slot_in_sector (spt m b : Nat)
    (hb : slotBase spt m ≤ b ∧ b < slotBase spt m + 256) :
    512 * dirIdx spt m ≤ b ∧ b < 512 * dirIdx spt m + 512 := by
  unfold slotBase at hb
  omega

theorem slot_data_disjoint (spt dt m p2 b : Nat) (h0 : 0 < spt) (hdt39 : dt ≤ 39)
    (hm : m < dt * spt * 2) (hp2 : dt * spt ≤ p2) (hp2b : p2 < 160 * spt)
    (hb : slotBase spt m ≤ b ∧ b < slotBase spt m + 256) :
    ¬(512 * mgtIdx spt p2 ≤ b ∧ b < 512 * mgtIdx spt p2 + 512) :=
  sector_range_disjoint (dirIdx spt m) (mgtIdx spt p2) b
    (dirIdx_ne_mgtIdx spt m p2 dt h0 hdt39 hm hp2 hp2b) (slot_in_sector spt m b hb)

theorem data_slot_disjoint (spt dt m p2 b : Nat) (h0 : 0 < spt) (hdt39 : dt ≤ 39)
    (hm : m < dt * spt * 2) (hp2 : dt * spt ≤ p2) (hp2b : p2 < 160 * spt)
    (hb : 512 * mgtIdx spt p2 ≤ b ∧ b < 512 * mgtIdx spt p2 + 512) :
    ¬(slotBase spt m ≤ b ∧ b < slotBase spt m + 256) := by
  intro hb2
  exact slot_data_disjoint spt dt m p2 b h0 hdt39 hm hp2 hp2b hb2 hb

theorem data_data_disjoint (spt p1 p2 b : Nat) (h0 : 0 < spt) (hp1 : p1 < 160 * spt)
    (hp2 : p2 < 160 * spt) (hne : p1 ≠ p2)
    (hb : 512 * mgtIdx spt p1 ≤ b ∧ b < 512 * mgtIdx spt p1 + 512) :
    ¬(512 * mgtIdx spt p2 ≤ b ∧ b < 512 * mgtIdx spt p2 + 512) :=
  sector_range_disjoint _ _ b (fun he => hne (mgtIdx_inj spt p1 p2 h0 hp1 hp2 he)) hb

theorem mgt_bound_512 (spt p : Nat) (h0 : 0 < spt) (hp : p < 160 * spt)
    (sz : Nat) (hsz : sz = 80 * 2 * spt * 512) : 512 * mgtIdx spt p + 512 ≤ sz := by
  have hidx := mgtIdx_lt spt p h0 hp
  have h2 : 512 * (mgtIdx spt p + 1) ≤ 512 * (160 * spt) :=
    Nat.mul_le_mul_left 512 (by omega)
  have h3 : 512 * (160 * spt) = 80 * 2 * spt * 512 := by ring
  omega

theorem slot_bound (spt m : Nat) (h0 : 0 < spt) (hm : m / (spt * 2) < 80)
    (sz : Nat) (hsz : sz = 80 * 2 * spt * 512) : slotBase spt m + 256 ≤ sz := by
  have h2 := dir_bound_512 spt m h0 hm sz hsz
  unfold slotBase
  omega

/-! ## The writer loop: full characterization of a successful run -/

theorem to_image_go_ok (spt dt : Nat) (tf : TimeFormat)
    (h0 : 0 < spt) (hspt10 : spt ≤ 10) (hdt4 : 4 ≤ dt) (hdt39 : dt ≤ 39) :
    ∀ (files : List File) (img : Image) (p index : Nat) (imgOut : Image),
      img.kind = .mgt → img.spt = spt → img.buf.size = 80 * 2 * spt * 512 →
      dt * spt ≤ p → p ≤ 160 * spt →
      (∀ f ∈ files, f.type ≠ 0 ∧ f.entry.length = 256 ∧ f.name.length ≤ 10) →
      to_image_go dt tf img (posOf spt p).1 (posOf spt p).2 index files = .ok imgOut →
      imgOut.kind = .mgt ∧ imgOut.spt = spt ∧ imgOut.buf.size = img.buf.size ∧
      p + totalChunks files ≤ 160 * spt ∧
      (∀ l, l < files.length → index + l < dt * spt * 2) ∧
      (∀ b, b < img.buf.size →
        (∀ l, l < files.length →
          ¬(slotBase spt (index + l) ≤ b ∧ b < slotBase spt (index + l) + 256)) →
        (∀ j, j < totalChunks files →
          ¬(512 * mgtIdx spt (p + j) ≤ b ∧ b < 512 * mgtIdx spt (p + j) + 512)) →
        imgOut.buf.mem b = img.buf.mem b) ∧
      (∀ l, (hl : l < files.length) → ∃ e,
        to_dir (files.get ⟨l, hl⟩) (posOf spt (p + totalBefore files l)).1
          (posOf spt (p + totalBefore files l)).2 spt tf = .ok e ∧
        ∀ j, j < 256 → imgOut.buf.mem (slotBase spt (index + l) + j) = pyGet e j) ∧
      (∀ l, (hl : l < files.length) → ∀ j, j < chunksOf (files.get ⟨l, hl⟩) →
        imgOut.buf.readBytes (512 * mgtIdx spt (p + totalBefore files l + j)) 512 =
          payloadAtI spt (files.get ⟨l, hl⟩).type (files.get ⟨l, hl⟩).data j
            (p + totalBefore files l + j)) := by
  have h255 : spt ≤ 255 := by omega
  intro files
  induction files with
  | nil =>
    intro img p index imgOut hk hspt hsize hpge hple hwf hrun
    have h2 : Except.ok img = Except.ok imgOut := hrun
    obtain rfl : img = imgOut := Except.ok.inj h2
    refine ⟨hk, hspt, rfl, by simpa [totalChunks] using hple, ?_, ?_, ?_, ?_⟩
    · intro l hl
      exact absurd hl (by simp)
    · intro b _ _ _
      rfl
    · intro l hl
      exact absurd hl (by simp)
    · intro l hl
      exact absurd hl (by simp)
  | cons f rest ih =>
    intro img p index imgOut hk hspt hsize hpge hple hwf hrun
    obtain ⟨hfty, hfentry, hfname⟩ := hwf f (List.mem_cons_self f rest)
    unfold to_image_go at hrun
    rw [hspt] at hrun
    by_cases hidx : dt * spt * 2 ≤ index
    · rw [if_pos hidx] at hrun
      exact Except.noConfusion hrun
    rw [if_neg hidx] at hrun
    have hidxlt : index < dt * spt * 2 := by omega
    have hgeo := index_geom spt dt index h0 hdt39 hidxlt
    rcases hto : to_dir f (posOf spt p).1 (posOf spt p).2 spt tf with err | e
    · rw [hto] at hrun
      exact Except.noConfusion hrun
    rw [hto, except_bind_ok] at hrun
    dsimp only at hrun
    have hchk : chunksOf f = f.data.length / data_bytes_per_sector f.type := rfl
    have hcapf : p + chunksOf f ≤ 160 * spt := by
      by_contra hcapc
      push_neg at hcapc
      have hoos := write_data_go_out_of_space f.type spt f.data h0 h255
        (f.data.length / data_bytes_per_sector f.type) img p 0 hk hspt hple
        (by omega) (by omega)
      have hwdo : (write_data img f.type (posOf spt p).1 (posOf spt p).2 f.data).2 =
          .error .runtimeError := by
        unfold write_data
        exact hoos.1
      rw [hwdo] at hrun
      exact Except.noConfusion hrun
    obtain ⟨imgW, hwrun, hwk, hws, hwsz, hwframe, hwread⟩ :=
      write_data_go_ok f.type spt f.data h0 h255 (chunksOf f) img p 0 hk hspt hsize
        (by omega) hcapf
    have hwd : write_data img f.type (posOf spt p).1 (posOf spt p).2 f.data =
        (imgW, .ok (posOf spt (p + chunksOf f))) := by
      unfold write_data
      exact hwrun
    rw [hwd] at hrun
    dsimp only at hrun
    obtain ⟨hf1, hf2, hf3, hf4⟩ := posOf_track_facts spt p h0 hple
    have hrange : ¬((posOf spt p).1 < 0 ∨ 256 ≤ (posOf spt p).1 ∨
        (posOf spt p).2 < 0 ∨ 256 ≤ (posOf spt p).2) := by
      push_neg
      have hspt256 : ((spt : Nat) : Int) < 256 := by exact_mod_cast (by omega : spt < 256)
      exact ⟨hf1, hf2, by omega, by omega⟩
    have hto2 := hto
    rw [to_dir_eq f _ _ spt tf hfty hrange] at hto2
    have hd6len := to_dir_d6_length f (posOf spt p).1 (posOf spt p).2 spt hfentry hfname
    obtain ⟨helen, _⟩ := to_dir_tail_spec f tf _ e hd6len hto2
    obtain ⟨img2, hwd2, hk2, hs2, hsz2, hfr2, hcont2⟩ := write_dir_spec imgW spt index e
      hwk hws (by rw [hwsz, hsize]) h0 hgeo helen
    rw [hwd2, except_bind_ok] at hrun
    obtain ⟨hok, hos, hszR, hcapR, hidxR, hframeR, hslotsR, hdataR⟩ :=
      ih img2 (p + chunksOf f) (index + 1) imgOut
        (by rw [hk2, hwk]) (by rw [hs2, hws]) (by rw [hsz2, hwsz, hsize])
        (by omega) hcapf (fun g hg => hwf g (List.mem_cons_of_mem f hg)) hrun
    have hszimg2 : img2.buf.size = img.buf.size := by rw [hsz2, hwsz]
    have htc : totalChunks (f :: rest) = chunksOf f + totalChunks rest := rfl
    refine ⟨hok, hos, by rw [hszR, hszimg2], by omega, ?_, ?_, ?_, ?_⟩
    · intro l hl
      cases l with
      | zero => omega
      | succ l2 =>
        have hl2 : l2 < rest.length := by simpa using hl
        have h2 := hidxR l2 hl2
        omega
    · intro b hb hslots2 hdata2
      have hb2 : b < img2.buf.size := by
        rw [hszimg2]
        exact hb
      have hstep1 : imgOut.buf.mem b = img2.buf.mem b := by
        apply hframeR b hb2
        · intro l hl
          have h2 := hslots2 (l + 1) (by simpa using Nat.succ_lt_succ hl)
          have h3 : index + (l + 1) = index + 1 + l := by omega
          rw [h3] at h2
          exact h2
        · intro j hj
          have h2 := hdata2 (chunksOf f + j) (by omega)
          have h3 : p + (chunksOf f + j) = p + chunksOf f + j := by omega
          rw [h3] at h2
          exact h2
      have hstep2 : img2.buf.mem b = imgW.buf.mem b := by
        apply hfr2 b
        have h2 := hslots2 0 (by simp)
        rw [Nat.add_zero] at h2
        omega
      have hstep3 : imgW.buf.mem b = img.buf.mem b := by
        apply hwframe b
        intro j hj
        have h2 := hdata2 j (by omega)
        omega
      rw [hstep1, hstep2, hstep3]
    · intro l hl
      cases l with
      | zero =>
        refine ⟨e, hto, ?_⟩
        intro j hj
        show imgOut.buf.mem (slotBase spt (index + 0) + j) = pyGet e j
        have hidx0 : index + 0 = index := rfl
        rw [hidx0]
        have hin : slotBase spt index ≤ slotBase spt index + j ∧
            slotBase spt index + j < slotBase spt index + 256 := ⟨by omega, by omega⟩
        have hstep1 : imgOut.buf.mem (slotBase spt index + j) =
            img2.buf.mem (slotBase spt index + j) := by
          apply hframeR _ (by
            have h2 := slot_bound spt index h0 hgeo img.buf.size hsize
            rw [hszimg2]
            omega)
          · intro l2 hl2
            exact slot_disjoint spt index (index + 1 + l2) h0 (by omega) _ hin
          · intro j2 hj2
            exact slot_data_disjoint spt dt index (p + chunksOf f + j2) _ h0 hdt39 hidxlt
              (by omega) (by omega) hin
        rw [hstep1, hcont2 j hj]
      | succ l2 =>
        have hl2 : l2 < rest.length := by simpa using hl
        obtain ⟨e2, hto3, hmem3⟩ := hslotsR l2 hl2
        refine ⟨e2, ?_, ?_⟩
        · have h3 : p + chunksOf f + totalBefore rest l2 =
              p + totalBefore (f :: rest) (l2 + 1) := by
            show _ = p + (chunksOf f + totalBefore rest l2)
            omega
          rw [h3] at hto3
          exact hto3
        · intro j hj
          have h3 : index + 1 + l2 = index + (l2 + 1) := by omega
          rw [h3] at hmem3
          exact hmem3 j hj
    · intro l hl j hj
      cases l with
      | zero =>
        show imgOut.buf.readBytes (512 * mgtIdx spt (p + j)) 512 =
          payloadAtI spt f.type f.data j (p + j)
        have hjk : j < chunksOf f := hj
        have hstep1 : imgOut.buf.readBytes (512 * mgtIdx spt (p + j)) 512 =
            img2.buf.readBytes (512 * mgtIdx spt (p + j)) 512 := by
          apply ByteBuf.readBytes_congr _ _ _ _ hszR
          intro i2 hi2
          apply hframeR _ (by
            have h2 := mgt_bound_512 spt (p + j) h0 (by omega) img.buf.size hsize
            rw [hszimg2]
            omega)
          · intro l2 hl2
            exact data_slot_disjoint spt dt (index + 1 + l2) (p + j) _ h0 hdt39
              (hidxR l2 hl2) (by omega) (by omega) ⟨by omega, by omega⟩
          · intro j2 hj2
            exact data_data_disjoint spt (p + j) (p + chunksOf f + j2) _ h0 (by omega)
              (by omega) (by omega) ⟨by omega, by omega⟩
        have hstep2 : img2.buf.readBytes (512 * mgtIdx spt (p + j)) 512 =
            imgW.buf.readBytes (512 * mgtIdx spt (p + j)) 512 := by
          apply ByteBuf.readBytes_congr _ _ _ _ hsz2
          intro i2 hi2
          apply hfr2
          have h2 := data_slot_disjoint spt dt index (p + j)
            (512 * mgtIdx spt (p + j) + i2) h0 hdt39 hidxlt (by omega) (by omega)
            ⟨by omega, by omega⟩
          omega
        have hstep3 := hwread j hjk
        rw [hstep1, hstep2, hstep3, Nat.zero_add]
      | succ l2 =>
        have hl2 : l2 < rest.length := by simpa using hl
        have hj2 : j < chunksOf (rest.get ⟨l2, hl2⟩) := hj
        have h2 := hdataR l2 hl2 j hj2
        have h3 : p + chunksOf f + totalBefore rest l2 + j =
            p + totalBefore (f :: rest) (l2 + 1) + j := by
          show _ = p + (chunksOf f + totalBefore rest l2) + j
          omega
        rw [h3] at h2
        exact h2

/-! ## Boot-sector detection facts -/

theorem detect_boot_congr (l1 l2 : List Nat) (h1 : 256 ≤ l1.length) (h2 : 256 ≤ l2.length)
    (h : ∀ i, i < 256 → pyGet l1 i = pyGet l2 i) :
    detect_boot l1 = detect_boot l2 := by
  have hs1 : pySlice l1 232 236 = pySlice l2 232 236 :=
    pySlice_congr l1 l2 232 236 (by omega) (by omega) (fun i ha hb => h i (by omega))
  have hs2 : pySlice l1 210 220 = pySlice l2 210 220 :=
    pySlice_congr l1 l2 210 220 (by omega) (by omega) (fun i ha hb => h i (by omega))
  have hs3 : pySlice l1 250 256 = pySlice l2 250 256 :=
    pySlice_congr l1 l2 250 256 (by omega) (by omega) (fun i ha hb => h i (by omega))
  have hs4 : pySlice l1 252 254 = pySlice l2 252 254 :=
    pySlice_congr l1 l2 252 254 (by omega) (by omega) (fun i ha hb => h i (by omega))
  have hg210 : pyGet l1 210 = pyGet l2 210 := h 210 (by omega)
  have hg255 : pyGet l1 255 = pyGet l2 255 := h 255 (by omega)
  unfold detect_boot
  rw [hs1, hs2, hs3, hs4, hg210, hg255]

theorem detect_boot_dir_range (e : List Nat) :
    4 ≤ (detect_boot e).2.1 ∧ (detect_boot e).2.1 ≤ 39 := by
  unfold detect_boot
  split
  · dsimp only
    exact ⟨by omega, by omega⟩
  split
  · dsimp only
    exact ⟨by omega, by omega⟩
  · dsimp only
    exact ⟨by omega, by omega⟩

/-! ## Claim C1 -/

set_option maxHeartbeats 1000000 in
/-- C1 (amended): the round trip preserves dialect type, directory-track
count, label, serial and every file payload for any disk with at least one
file, whose files are well-formed decoded files (nonzero 5-bit type, 256-byte
entry, name of at most 10 characters, payload a whole number of chunks), for
any sectors-per-track in `[1, 10]`, provided the first file's re-encoded
directory entry makes the boot-sector detection reproduce the disk's dialect,
directory-track count, label and serial, and the encoding succeeds. -/
theorem from_to_image_round_trip (d : Disk) (spt : Nat) (f0 : File) (rest : List File)
    (img : Image)
    (hfiles : d.files = f0 :: rest)
    (h0 : 0 < spt) (hspt10 : spt ≤ 10)
    (hwf : ∀ f ∈ d.files, f.type ≠ 0 ∧ f.type < 32 ∧ f.entry.length = 256 ∧
      f.name.length ≤ 10 ∧ data_bytes_per_sector f.type ∣ f.data.length)
    (hdet : (to_dir f0 ((d.dir_tracks : Nat) : Int) 1 spt
        (if d.type = DiskType.MASTERDOS then TimeFormat.MASTERDOS
         else TimeFormat.BDOS)).toOption.map detect_boot =
      some (d.type, d.dir_tracks, d.label, d.serial))
    (himg : to_image d spt = .ok img) :
    (from_image img).toOption.map
        (fun d2 => (d2.type, d2.dir_tracks, d2.label, d2.serial,
          d2.files.map fun f => f.data)) =
      some (d.type, d.dir_tracks, d.label, d.serial, d.files.map fun f => f.data) := by
  rcases hTD : to_dir f0 ((d.dir_tracks : Nat) : Int) 1 spt
      (if d.type = DiskType.MASTERDOS then TimeFormat.MASTERDOS else TimeFormat.BDOS)
    with err | e0x
  · rw [hTD] at hdet
    exact Option.noConfusion hdet
  rw [hTD] at hdet
  have hdetv : detect_boot e0x = (d.type, d.dir_tracks, d.label, d.serial) := by
    have h2 : some (detect_boot e0x) = some (d.type, d.dir_tracks, d.label, d.serial) := hdet
    exact Option.some.inj h2
  have hrange0 := detect_boot_dir_range e0x
  rw [hdetv] at hrange0
  obtain ⟨hdt4, hdt39⟩ : 4 ≤ d.dir_tracks ∧ d.dir_tracks ≤ 39 := hrange0
  unfold to_image at himg
  rw [if_neg (by omega)] at himg
  obtain ⟨hps1, hps2⟩ := posOf_start spt d.dir_tracks h0 (by omega)
  rw [← hps1, ← hps2, hfiles] at himg
  have hple0 : d.dir_tracks * spt ≤ 160 * spt := by
    have h2 : d.dir_tracks * spt ≤ 39 * spt := Nat.mul_le_mul_right spt hdt39
    omega
  obtain ⟨hok, hos, hsz, hcap, hidxB, hframe, hslots, hdata⟩ :=
    to_image_go_ok spt d.dir_tracks
      (if d.type = DiskType.MASTERDOS then TimeFormat.MASTERDOS else TimeFormat.BDOS)
      h0 hspt10 hdt4 hdt39 (f0 :: rest) (MGTImage spt) (d.dir_tracks * spt) 0 img
      rfl rfl rfl (Nat.le_refl _) hple0
      (by
        intro g hg
        have h2 := hwf g (by rw [hfiles]; exact hg)
        exact ⟨h2.1, h2.2.2.1, h2.2.2.2.1⟩)
      himg
  have hszimg : img.buf.size = 80 * 2 * spt * 512 := by
    rw [hsz]
    rfl
  obtain ⟨e0, hto0, hmem0⟩ := hslots 0 (by simp)
  have hto0' : to_dir f0 (posOf spt (d.dir_tracks * spt)).1
      (posOf spt (d.dir_tracks * spt)).2 spt
      (if d.type = DiskType.MASTERDOS then TimeFormat.MASTERDOS else TimeFormat.BDOS) =
      .ok e0 := hto0
  rw [hps1, hps2] at hto0'
  have he0x : e0x = e0 := Except.ok.inj (hTD.symm.trans hto0')
  have hdetv0 : detect_boot e0 = (d.type, d.dir_tracks, d.label, d.serial) := by
    rw [← he0x]
    exact hdetv
  have hf0wf := hwf f0 (by rw [hfiles]; exact List.mem_cons_self f0 rest)
  have hrangeE : ¬(((d.dir_tracks : Nat) : Int) < 0 ∨ 256 ≤ ((d.dir_tracks : Nat) : Int) ∨
      (1 : Int) < 0 ∨ 256 ≤ (1 : Int)) := by
    push_neg
    refine ⟨Int.natCast_nonneg _, ?_, by omega, by omega⟩
    exact_mod_cast (by omega : d.dir_tracks < 256)
  have hTD2 := hto0'
  rw [to_dir_eq f0 _ _ spt _ hf0wf.1 hrangeE] at hTD2
  obtain ⟨he0len, _⟩ := to_dir_tail_spec f0 _ _ e0
    (to_dir_d6_length f0 _ _ spt hf0wf.2.2.1 hf0wf.2.2.2.1) hTD2
  unfold from_image
  have hrs : img.read_sector 0 1 = .ok (img.buf.readBytes 0 512) := by
    unfold Image.read_sector
    rw [sector_offset_zero_one img hok (by rw [hos]; exact h0)]
    rfl
  rw [hrs, except_bind_ok]
  dsimp only
  have hsb0 : slotBase spt 0 = 0 := by
    unfold slotBase dirIdx
    simp
  have hfirst : detect_boot (img.buf.readBytes 0 512) = detect_boot e0 := by
    apply detect_boot_congr
    · rw [ByteBuf.readBytes_length _ _ _ (by rw [hszimg]; omega)]
      omega
    · omega
    · intro i hi
      unfold pyGet
      rw [ByteBuf.readBytes_getD img.buf 0 512 i (by omega) (by rw [hszimg]; omega)]
      have h2 := hmem0 i hi
      have h3 : (0 : Nat) + 0 = 0 := rfl
      rw [h3, hsb0] at h2
      exact h2
  rw [hfirst, hdetv0, hos]
  dsimp only
  have hlen_cons : (f0 :: rest).length = rest.length + 1 := rfl
  have hterm : 0 + (f0 :: rest).length = d.dir_tracks * spt * 2 ∨
      ∀ j, j < 256 → img.buf.mem (slotBase spt (0 + (f0 :: rest).length) + j) = 0 := by
    by_cases hfull : 0 + (f0 :: rest).length = d.dir_tracks * spt * 2
    · exact Or.inl hfull
    · right
      have h2 := hidxB rest.length (by simp)
      have hlenlt : 0 + (f0 :: rest).length < d.dir_tracks * spt * 2 := by omega
      have hgeoN : (0 + (f0 :: rest).length) / (spt * 2) < 80 :=
        index_geom spt d.dir_tracks _ h0 hdt39 hlenlt
      intro j hj
      have hb := slot_bound spt (0 + (f0 :: rest).length) h0 hgeoN
        (MGTImage spt).buf.size rfl
      have h4 := hframe (slotBase spt (0 + (f0 :: rest).length) + j)
        (by
          show slotBase spt (0 + (f0 :: rest).length) + j < (MGTImage spt).buf.size
          omega)
        (by
          intro l hl
          exact slot_disjoint spt (0 + (f0 :: rest).length) (0 + l) h0 (by omega) _
            ⟨by omega, by omega⟩)
        (by
          intro j2 hj2
          exact slot_data_disjoint spt d.dir_tracks (0 + (f0 :: rest).length)
            (d.dir_tracks * spt + j2) _ h0 hdt39 hlenlt (by omega) (by omega)
            ⟨by omega, by omega⟩)
      exact h4
  obtain ⟨files2, hloop, hmap⟩ := from_image_go_spec img spt d.dir_tracks
    (if d.type = DiskType.MASTERDOS then TimeFormat.MASTERDOS else TimeFormat.BDOS)
    hok hos hszimg h0 hspt10 hdt4 hdt39 (f0 :: rest) 0 (d.dir_tracks * spt)
    (d.dir_tracks * spt * 2)
    (by
      have h2 := hidxB rest.length (by simp)
      omega)
    (by omega) (Nat.le_refl _) hcap
    (by
      intro g hg
      exact hwf g (by rw [hfiles]; exact hg))
    hslots hdata hterm
  rw [hloop, except_bind_ok]
  show some (d.type, d.dir_tracks, d.label, d.serial, files2.map fun f => f.data) =
    some (d.type, d.dir_tracks, d.label, d.serial, d.files.map fun f => f.data)
  rw [hfiles, hmap]

/-- A raw MGT container whose boot sector marks a MASTERDOS disk (byte 210 is
65, i.e. 'A') but which contains no files: every directory entry has type 0
and an empty name. -/
def imgC1 : Image := ⟨.mgt, 10, ⟨819200, fun i => if i = 210 then 65 else 0⟩⟩

set_option maxRecDepth 400000 in
/-- C1 counterexample: decoding `imgC1` yields a MASTERDOS disk with a label
and serial and no files; re-encoding writes no directory entries (the boot
label bytes live in the directory area, not in any file), so decoding the
round-tripped image yields a SAMDOS disk: the dialect type, label and serial
are not preserved, refuting the claim as stated for decoded disks with no
files. -/
theorem from_to_image_counterexample :
    ((from_image imgC1).toOption.map fun d2 => (d2.type, d2.files.length)) =
      some (DiskType.MASTERDOS, 0) ∧
    ((from_image imgC1).toOption.bind fun d2 => (to_image d2 10).toOption.bind
        fun img2 => (from_image img2).toOption.map fun d3 => (d3.type, d3.label, d3.serial)) =
      some (DiskType.SAMDOS, none, none) := by
  constructor
  · rfl
  · rfl

/-- A well-formed one-file disk for the round-trip witness: a DATA-type file
(type 14) holding one full 510-byte chunk. -/
def fC1 : File := { type := 14, data := List.replicate 510 5, entry := List.replicate 256 0 }

/-- The witness disk: SAMDOS defaults with the single file `fC1`. -/
def dC1 : Disk := { files := [fC1] }

set_option maxRecDepth 400000 in
/-- Witness for the amended C1 theorem at the one-file disk `dC1` with one
sector per track: every hypothesis is discharged by computation. -/
theorem from_to_image_round_trip_witness :
    (from_image ((to_image dC1 1).toOption.get (by rfl))).toOption.map
        (fun d2 => (d2.type, d2.dir_tracks, d2.label, d2.serial,
          d2.files.map fun f => f.data)) =
      some (dC1.type, dC1.dir_tracks, dC1.label, dC1.serial,
        dC1.files.map fun f => f.data) :=
  from_to_image_round_trip dC1 1 fC1 [] ((to_image dC1 1).toOption.get (by rfl))
    rfl (by decide) (by decide)
    (by
      intro f hf
      rw [show dC1.files = [fC1] from rfl, List.mem_singleton] at hf
      subst hf
      exact ⟨by decide, by decide, by decide, by decide, by decide⟩)
    (by rfl)
    (by rfl)

/-! ## Claim C2 -/

/-- Modelled after the claim, stated over chain positions: `posOf spt p` ranges
over the valid data-area positions (`p < 160 * spt`) and the one-past-the-end
position `(208, 1)` (`p = 160 * spt`); `160 * spt - p` is the number of sectors
remaining before the physical track/sector ceiling. -/
theorem write_data_capacity_spec (img : Image) (type spt p : Nat) (data : List Nat)
    (hk : img.kind = .mgt) (hspt : img.spt = spt) (h0 : 0 < spt) (h255 : spt ≤ 255)
    (hp : p ≤ 160 * spt)
    (hn : 160 * spt - p < data.length / data_bytes_per_sector type) :
    (write_data img type (posOf spt p).1 (posOf spt p).2 data).2 =
      .error .runtimeError ∧
    (p = 160 * spt →
      write_data img type (posOf spt p).1 (posOf spt p).2 data =
        (img, .error .runtimeError)) := by
  unfold write_data
  exact write_data_go_out_of_space type spt data h0 h255
    (data.length / data_bytes_per_sector type) img p 0 hk hspt hp hn (by omega)

set_option maxRecDepth 400000 in
/-- C2 counterexample: writing a 1020-byte chained payload starting at the last
valid sector (track 207, sector 10, spt 10) raises the capacity error on the
second chunk, but only after the first chunk (with its dangling pointer bytes)
has been written at offset 818688: at the moment the error is raised the buffer
differs from its state before the call, refuting the claim as stated. -/
theorem write_data_partial_write_counterexample :
    (write_data (MGTImage 10) 10 207 10 (List.replicate 1020 7)).2 =
      .error .runtimeError ∧
    (write_data (MGTImage 10) 10 207 10 (List.replicate 1020 7)).1.buf.mem 818688 = 7 ∧
    (MGTImage 10).buf.mem 818688 = 0 := by
  refine ⟨rfl, rfl, rfl⟩

/-- Witness for C2 (amended): position 1599 = (track 207, sector 10) with spt 10
has one sector remaining, so a two-chunk write raises the capacity error; at
position 1600 = (208, 1) nothing remains and the image is returned unchanged. -/
theorem write_data_capacity_spec_witness :
    (write_data (MGTImage 10) 10 (posOf 10 1599).1 (posOf 10 1599).2
      (List.replicate 1020 7)).2 = .error .runtimeError ∧
    write_data (MGTImage 10) 10 (posOf 10 1600).1 (posOf 10 1600).2
      (List.replicate 510 7) = (MGTImage 10, .error .runtimeError) := by
  constructor
  · exact (write_data_capacity_spec (MGTImage 10) 10 10 1599 (List.replicate 1020 7)
      rfl rfl (by omega) (by omega) (by omega)
      (by simp only [List.length_replicate]; decide)).1
  · exact (write_data_capacity_spec (MGTImage 10) 10 10 1600 (List.replicate 510 7)
      rfl rfl (by omega) (by omega) (by omega)
      (by simp only [List.length_replicate]; decide)).2 rfl

/-! ## Claim C5 -/

theorem read_data_contig_of_strict_ok (img : Image) (n : Nat) :
    ∀ t s acc bs, read_data_strict_contig img t s n acc = .ok bs →
      read_data_contig img t s n acc = bs := by
  induction n with
  | zero =>
    intro t s acc bs h
    cases h
    rfl
  | succ n ih =>
    intro t s acc bs h
    unfold read_data_strict_contig at h
    unfold read_data_contig
    rcases hr : img.read_sector t s with e | chunk
    · rw [hr] at h
      exact Except.noConfusion h
    · rw [hr] at h
      rcases hn : next_sector t s img.spt with e | pos
      · rw [hn] at h
        exact Except.noConfusion h
      · rw [hn] at h
        exact ih pos.1 pos.2 (acc ++ chunk) bs h

theorem read_data_contig_of_strict_err (img : Image) (n : Nat) :
    ∀ t s acc e, read_data_strict_contig img t s n acc = .error e →
      ∀ m, n ≤ m → read_data_contig img t s m acc = read_data_contig img t s n acc := by
  induction n with
  | zero =>
    intro t s acc e h
    exact Except.noConfusion h
  | succ n ih =>
    intro t s acc e h m hm
    obtain ⟨m2, rfl⟩ : ∃ m2, m = m2 + 1 := ⟨m - 1, by omega⟩
    unfold read_data_strict_contig at h
    unfold read_data_contig
    rcases hr : img.read_sector t s with e2 | chunk
    · rfl
    · rw [hr] at h
      rcases hn : next_sector t s img.spt with e2 | pos
      · rfl
      · rw [hn] at h
        exact ih pos.1 pos.2 (acc ++ chunk) e h m2 (by omega)

theorem read_data_chain_of_strict_ok (img : Image) (n : Nat) :
    ∀ t s acc bs, read_data_strict_chain img t s n acc = .ok bs →
      read_data_chain img t s n acc = bs := by
  induction n with
  | zero =>
    intro t s acc bs h
    cases h
    rfl
  | succ n ih =>
    intro t s acc bs h
    unfold read_data_strict_chain at h
    unfold read_data_chain
    rcases hr : img.read_sector t s with e | chunk
    · rw [hr] at h
      exact Except.noConfusion h
    · rw [hr] at h
      dsimp only at h ⊢
      by_cases hlen : 2 ≤ chunk.length
      · rw [if_pos hlen] at h ⊢
        exact ih _ _ _ bs h
      · rw [if_neg hlen] at h
        exact Except.noConfusion h

theorem read_data_chain_of_strict_err (img : Image) (n : Nat) :
    ∀ t s acc e, read_data_strict_chain img t s n acc = .error e →
      ∀ m, n ≤ m → read_data_chain img t s m acc = read_data_chain img t s n acc := by
  induction n with
  | zero =>
    intro t s acc e h
    exact Except.noConfusion h
  | succ n ih =>
    intro t s acc e h m hm
    obtain ⟨m2, rfl⟩ : ∃ m2, m = m2 + 1 := ⟨m - 1, by omega⟩
    unfold read_data_strict_chain at h
    unfold read_data_chain
    rcases hr : img.read_sector t s with e2 | chunk
    · rfl
    · rw [hr] at h
      dsimp only at h ⊢
      by_cases hlen : 2 ≤ chunk.length
      · rw [if_pos hlen] at h
        rw [if_pos hlen, if_pos hlen]
        exact ih _ _ _ e h m2 (by omega)
      · rw [if_neg hlen, if_neg hlen]

/-- Claim-side description of the contiguous walk, following the claim's
words rather than the code: the payload bytes contributed by each sector that
is successfully read, in order, stopping at the first addressing failure
(a failed sector read ends the walk with no contribution; a sector whose
successor position is invalid still contributes its bytes, since the code
accumulates before advancing). -/
def chunks_read_contig (img : Image) : Int → Int → Nat → List (List Nat)
  | _, _, 0 => []
  | t, s, n + 1 =>
    match img.read_sector t s with
    | .error _ => []
    | .ok chunk =>
      match next_sector t s img.spt with
      | .error _ => [chunk]
      | .ok pos => chunk :: chunks_read_contig img pos.1 pos.2 n

/-- Claim-side description of the chained walk: each successfully read sector
contributes its bytes minus the two trailing pointer bytes; a chunk too short
to carry a chain pointer still contributes those bytes and ends the walk. -/
def chunks_read_chain (img : Image) : Int → Int → Nat → List (List Nat)
  | _, _, 0 => []
  | t, s, n + 1 =>
    match img.read_sector t s with
    | .error _ => []
    | .ok chunk =>
      if 2 ≤ chunk.length then
        chunk.take (chunk.length - 2) ::
          chunks_read_chain img (chunk.getD (chunk.length - 2) 0)
            (chunk.getD (chunk.length - 1) 0) n
      else [chunk.take (chunk.length - 2)]

/-- Claim-side description of `read_data`'s walk: the per-sector payload
blocks of the sectors successfully read before the first failure. -/
def chunks_read (image : Image) (type sectors : Nat) (track sector : Int) :
    List (List Nat) :=
  if is_contig_data_type type then chunks_read_contig image track sector sectors
  else chunks_read_chain image track sector sectors

theorem read_data_contig_chunks (img : Image) (n : Nat) :
    ∀ t s acc, read_data_contig img t s n acc =
      acc ++ (chunks_read_contig img t s n).flatten := by
  induction n with
  | zero =>
    intro t s acc
    show acc = acc ++ ([] : List (List Nat)).flatten
    simp
  | succ n ih =>
    intro t s acc
    unfold read_data_contig chunks_read_contig
    rcases hr : img.read_sector t s with e | chunk
    · simp
    · rcases hn : next_sector t s img.spt with e | pos
      · simp
      · show read_data_contig img pos.1 pos.2 n (acc ++ chunk) =
          acc ++ (chunk :: chunks_read_contig img pos.1 pos.2 n).flatten
        rw [ih pos.1 pos.2 (acc ++ chunk), List.flatten_cons, List.append_assoc]

theorem read_data_chain_chunks (img : Image) (n : Nat) :
    ∀ t s acc, read_data_chain img t s n acc =
      acc ++ (chunks_read_chain img t s n).flatten := by
  induction n with
  | zero =>
    intro t s acc
    show acc = acc ++ ([] : List (List Nat)).flatten
    simp
  | succ n ih =>
    intro t s acc
    unfold read_data_chain chunks_read_chain
    rcases hr : img.read_sector t s with e | chunk
    · simp
    · dsimp only
      by_cases hlen : 2 ≤ chunk.length
      · rw [if_pos hlen, if_pos hlen]
        rw [ih (chunk.getD (chunk.length - 2) 0) (chunk.getD (chunk.length - 1) 0)
          (acc ++ chunk.take (chunk.length - 2)), List.flatten_cons, List.append_assoc]
      · rw [if_neg hlen, if_neg hlen]
        simp

/-- C5: the payload reader never propagates an addressing failure.  In every
case — a complete walk or a walk cut short by a failure — `read_data` returns
exactly the concatenation of the payload blocks of the sectors successfully
read before the walk ends (`chunks_read`, the claim-side description of the
walk, possibly empty).  Moreover, when the propagating variant of the same
walk succeeds `read_data` returns exactly its bytes, and when it fails
part-way the truncated payload is already final: asking for any larger sector
count returns the same bytes. -/
theorem read_data_accumulation_spec (image : Image) (type sectors : Nat)
    (track sector : Int) :
    read_data image type sectors track sector =
      (chunks_read image type sectors track sector).flatten ∧
    (∀ bs, read_data_strict image type sectors track sector = .ok bs →
      read_data image type sectors track sector = bs) ∧
    (∀ e, read_data_strict image type sectors track sector = .error e →
      ∀ m, sectors ≤ m → read_data image type m track sector =
        read_data image type sectors track sector) := by
  refine ⟨?_, ?_, ?_⟩
  · unfold read_data chunks_read
    by_cases hc : is_contig_data_type type
    · rw [if_pos hc, if_pos hc]
      simpa using read_data_contig_chunks image sectors track sector []
    · rw [if_neg hc, if_neg hc]
      simpa using read_data_chain_chunks image sectors track sector []
  · intro bs h
    unfold read_data_strict at h
    unfold read_data
    by_cases hc : is_contig_data_type type
    · rw [if_pos hc] at h ⊢
      exact read_data_contig_of_strict_ok image sectors track sector [] bs h
    · rw [if_neg hc] at h ⊢
      exact read_data_chain_of_strict_ok image sectors track sector [] bs h
  · intro e h m hm
    unfold read_data_strict at h
    unfold read_data
    by_cases hc : is_contig_data_type type
    · rw [if_pos hc] at h
      rw [if_pos hc, if_pos hc]
      exact read_data_contig_of_strict_err image sectors track sector [] e h m hm
    · rw [if_neg hc] at h
      rw [if_neg hc, if_neg hc]
      exact read_data_chain_of_strict_err image sectors track sector [] e h m hm

set_option maxRecDepth 100000 in
/-- Witness for C5: on a fresh MGT image every sector is zero, so a chained
file's pointer bytes are `(0, 0)`, an invalid position; the walk fails at the
second sector.  `read_data` returns the flattened claim-side chunk trace,
which is the 510 payload bytes of the one successfully read sector, and the
result is the same no matter how many sectors are requested. -/
theorem read_data_accumulation_spec_witness :
    read_data (MGTImage 10) 10 2 4 1 = (chunks_read (MGTImage 10) 10 2 4 1).flatten ∧
    read_data (MGTImage 10) 10 5 4 1 = read_data (MGTImage 10) 10 2 4 1 ∧
    read_data (MGTImage 10) 10 2 4 1 = List.replicate 510 0 := by
  refine ⟨(read_data_accumulation_spec (MGTImage 10) 10 2 4 1).1, ?_, ?_⟩
  · exact (read_data_accumulation_spec (MGTImage 10) 10 2 4 1).2.2 .valueError (by rfl) 5
      (by omega)
  · decide

/-! ## Claim C7 -/

theorem bam_foldlM_ok (rest : List File) :
    ∀ acc : List Bool, acc.length = 1560 →
      (∀ g ∈ rest, g.sector_map.length = 1560) →
      rest.foldlM (fun acc g => bitarray_or acc g.sector_map) acc =
        .ok (rest.foldl (fun acc g =>
          List.zipWith (fun x y => x || y) acc g.sector_map) acc) := by
  induction rest with
  | nil =>
    intro acc hacc hrest
    rfl
  | cons g rest ih =>
    intro acc hacc hrest
    have hg : g.sector_map.length = 1560 := hrest g (by simp)
    rw [List.foldlM_cons, List.foldl_cons]
    have hor : bitarray_or acc g.sector_map =
        .ok (List.zipWith (fun x y => x || y) acc g.sector_map) := by
      unfold bitarray_or
      rw [if_neg (by omega)]
    rw [hor]
    have hlen2 : (List.zipWith (fun x y => x || y) acc g.sector_map).length = 1560 := by
      rw [List.length_zipWith]
      omega
    have := ih (List.zipWith (fun x y => x || y) acc g.sector_map) hlen2
      (fun g2 hg2 => hrest g2 (by simp [hg2]))
    simpa using this

/-- C7: for a disk with at least one file whose allocation bitmaps all have the
full 1560-bit length, the disk-wide combined bitmap equals the left-folded
bitwise OR of all the files' bitmaps in order; for a disk with an empty file
list the operation fails with a `TypeError` instead of returning an all-zero
identity bitmap. -/
theorem bam_spec (disk : Disk) :
    (disk.files = [] → bam disk = .error .typeError) ∧
    (disk.files ≠ [] → (∀ g ∈ disk.files, g.sector_map.length = 1560) →
      ∃ f rest, disk.files = f :: rest ∧
        bam disk = .ok (rest.foldl (fun acc g =>
          List.zipWith (fun x y => x || y) acc g.sector_map) f.sector_map)) := by
  constructor
  · intro h
    unfold bam
    rw [h]
  · intro hne hlen
    rcases hf : disk.files with _ | ⟨f, rest⟩
    · exact absurd hf hne
    · refine ⟨f, rest, rfl, ?_⟩
      unfold bam
      rw [hf]
      exact bam_foldlM_ok rest f.sector_map
        (by have := hlen f (by rw [hf]; simp); exact this)
        (fun g hg => hlen g (by rw [hf]; simp [hg]))

set_option maxRecDepth 1000000 in
/-- Witness for C7: a two-file disk whose maps cover sectors 0–1 and 1–2
combines to a map covering sectors 0–2; the empty disk fails. -/
theorem bam_spec_witness :
    bam { files := [{ sector_map := contig_sector_map 2 4 1 10 },
                    { sector_map := contig_sector_map 2 4 2 10 }] } =
      .ok (List.zipWith (fun x y => x || y) (contig_sector_map 2 4 1 10)
        (contig_sector_map 2 4 2 10)) ∧
    bam { files := [] } = .error .typeError := by
  constructor
  · have h := (bam_spec { files := [{ sector_map := contig_sector_map 2 4 1 10 },
      { sector_map := contig_sector_map 2 4 2 10 }] }).2 (by simp) (by decide)
    obtain ⟨f, rest, heq, hbam⟩ := h
    injection heq with h1 h2
    subst h1
    subst h2
    simpa using hbam
  · exact (bam_spec { files := [] }).1 rfl

/-! ## Theorems for claim C4 -/

/-- C4: for valid inputs (`track ≥ 0` with low 7 bits below 80, `sector` in
`[1, spt]`), `next_sector` returns `(track, sector+1)` when `sector < spt`,
`(128, 1)` when `sector = spt` and `track + 1 = 80`, and `(track+1, 1)`
otherwise (so in particular `next_sector 128 spt spt = (129, 1)`); for every
input with track negative, masked track `≥ 80`, or sector outside `[1, spt]`,
it raises `ValueError`. -/
theorem next_sector_spec (track sector : Int) (spt : Nat) :
    ((0 ≤ track ∧ track.toNat &&& 0x7f < 80 ∧ 1 ≤ sector ∧ sector ≤ (spt : Int)) →
      next_sector track sector spt =
        (if sector < (spt : Int) then .ok (track, sector + 1)
         else if track + 1 = 80 then .ok (128, 1)
         else .ok (track + 1, 1))) ∧
    ((track < 0 ∨ 80 ≤ track.toNat &&& 0x7f ∨ sector < 1 ∨ (spt : Int) < sector) →
      next_sector track sector spt = .error .valueError) := by
  constructor
  · rintro ⟨h0, h1, h2, h3⟩
    have hnot : ¬(track < 0 ∨ 80 ≤ track.toNat &&& 0x7f ∨ sector < 1 ∨ (spt : Int) < sector) := by
      push_neg
      exact ⟨by omega, by omega, by omega, by omega⟩
    unfold next_sector
    rw [if_neg hnot]
    by_cases hlt : sector < (spt : Int)
    · rw [if_pos hlt, if_neg (by omega)]
    · rw [if_neg hlt, if_pos (by omega)]
  · intro h
    unfold next_sector
    rw [if_pos h]

/-- Witness for C4: concrete instances, including the side-0-to-side-1 wrap
`next_sector 79 10 = (128, 1)` and the side-1 step `next_sector 128 10 = (129, 1)`. -/
theorem next_sector_spec_witness :
    next_sector 79 10 10 = .ok (128, 1) ∧
    next_sector 128 10 10 = .ok (129, 1) ∧
    next_sector 80 1 10 = .error .valueError ∧
    next_sector (-1) 1 10 = .error .valueError ∧
    next_sector 0 0 10 = .error .valueError ∧
    next_sector 0 11 10 = .error .valueError := by
  refine ⟨?_, ?_, ?_, ?_, ?_, ?_⟩
  · have h := (next_sector_spec 79 10 10).1 (by refine ⟨by decide, by decide, by decide, by decide⟩)
    simpa using h
  · have h := (next_sector_spec 128 10 10).1 (by refine ⟨by decide, by decide, by decide, by decide⟩)
    simpa using h
  · exact (next_sector_spec 80 1 10).2 (by right; left; decide)
  · exact (next_sector_spec (-1) 1 10).2 (by left; decide)
  · exact (next_sector_spec 0 0 10).2 (by right; right; left; decide)
  · exact (next_sector_spec 0 11 10).2 (by right; right; right; decide)

/-! ## Claim C9 -/

/-- C9 counterexample: the address `(track 20480, sector 1)` passes the validity
check (`20480 ≥ 0` and `20480 &&& 0x7f = 0 < 80`), yet on a properly sized raw
MGT container (spt 10, 819200 bytes) the produced offset is 819200, so the
addressed 512-byte sector does not lie within the buffer.  This refutes the
claim as stated: validity as checked does not bound `track >>> 7`. -/
theorem sector_offset_bound_counterexample :
    (MGTImage 10).sector_offset 20480 1 = .ok 819200 ∧
    (MGTImage 10).buf.size = 819200 ∧
    ¬(819200 + 512 ≤ (MGTImage 10).buf.size) := by
  refine ⟨rfl, rfl, by decide⟩

/-- C9 (amended): for every address whose track is in `[0, 256)` (7-bit track
number plus side bit) with masked track below 80 and sector in `[1, spt]`, the
raw-interleaved offset equals
`((track &&& 0x7f) * spt * 2 + (track >>> 7) * spt + (sector - 1)) * 512`, and on
raw-interleaved and side-major (SAD) containers of the proper size the produced
offset addresses a whole 512-byte sector inside the buffer. -/
theorem sector_offset_spec (img : Image) (track sector : Int)
    (h0 : 0 ≤ track) (h256 : track < 256) (h80 : track.toNat &&& 0x7f < 80)
    (hs1 : 1 ≤ sector) (hs2 : sector ≤ (img.spt : Int)) :
    (img.kind = .mgt →
      img.sector_offset track sector =
        .ok (((track.toNat &&& 0x7f) * img.spt * 2 + (track.toNat >>> 7) * img.spt +
              (sector.toNat - 1)) * 512) ∧
      (img.buf.size = 80 * 2 * img.spt * 512 →
        ((track.toNat &&& 0x7f) * img.spt * 2 + (track.toNat >>> 7) * img.spt +
         (sector.toNat - 1)) * 512 + 512 ≤ img.buf.size)) ∧
    (img.kind = .sad →
      img.sector_offset track sector =
        .ok (22 + (((track.toNat >>> 7) * 80 + (track.toNat &&& 0x7f)) * img.spt +
             (sector.toNat - 1)) * 512) ∧
      (img.buf.size = 22 + 80 * 2 * img.spt * 512 →
        22 + (((track.toNat >>> 7) * 80 + (track.toNat &&& 0x7f)) * img.spt +
          (sector.toNat - 1)) * 512 + 512 ≤ img.buf.size)) := by
  obtain ⟨hsn1, hsn2⟩ := sector_toNat_bounds sector img.spt hs1 hs2
  have ht256 : track.toNat < 256 := by omega
  constructor
  · intro hk
    refine ⟨sector_offset_mgt_eq img track sector hk h0 h80 hs1 hs2, ?_⟩
    intro hsz
    have hb := mgt_index_bound track.toNat sector.toNat img.spt ht256 h80 hsn1 hsn2
    have := Nat.mul_le_mul_right 512 hb
    rw [hsz]
    calc ((track.toNat &&& 0x7f) * img.spt * 2 + (track.toNat >>> 7) * img.spt +
            (sector.toNat - 1)) * 512 + 512
        = ((track.toNat &&& 0x7f) * img.spt * 2 + (track.toNat >>> 7) * img.spt +
            (sector.toNat - 1) + 1) * 512 := by ring
      _ ≤ 160 * img.spt * 512 := Nat.mul_le_mul_right 512 hb
      _ = 80 * 2 * img.spt * 512 := by ring
  · intro hk
    refine ⟨sector_offset_sad_eq img track sector hk h0 h80 hs1 hs2, ?_⟩
    intro hsz
    have hb := sad_index_bound track.toNat sector.toNat img.spt ht256 h80 hsn1 hsn2
    rw [hsz]
    have h2 : (((track.toNat >>> 7) * 80 + (track.toNat &&& 0x7f)) * img.spt +
        (sector.toNat - 1)) * 512 + 512 ≤ 80 * 2 * img.spt * 512 := by
      calc (((track.toNat >>> 7) * 80 + (track.toNat &&& 0x7f)) * img.spt +
              (sector.toNat - 1)) * 512 + 512
          = (((track.toNat >>> 7) * 80 + (track.toNat &&& 0x7f)) * img.spt +
              (sector.toNat - 1) + 1) * 512 := by ring
        _ ≤ 160 * img.spt * 512 := Nat.mul_le_mul_right 512 hb
        _ = 80 * 2 * img.spt * 512 := by ring
    omega

/-- Witness for C9 (amended): concrete instance at track 129, sector 2, spt 10
on properly sized MGT and SAD containers. -/
theorem sector_offset_spec_witness :
    (Image.mk .mgt 10 ⟨80 * 2 * 10 * 512, fun _ => 0⟩).sector_offset 129 2 = .ok 15872 ∧
    15872 + 512 ≤ 80 * 2 * 10 * 512 ∧
    (Image.mk .sad 10 ⟨22 + 80 * 2 * 10 * 512, fun _ => 0⟩).sector_offset 129 2 =
      .ok 415254 ∧
    415254 + 512 ≤ 22 + 80 * 2 * 10 * 512 := by
  have h1 := (sector_offset_spec (Image.mk .mgt 10 ⟨80 * 2 * 10 * 512, fun _ => 0⟩) 129 2
    (by decide) (by decide) (by decide) (by decide) (by decide)).1 rfl
  have h2 := (sector_offset_spec (Image.mk .sad 10 ⟨22 + 80 * 2 * 10 * 512, fun _ => 0⟩) 129 2
    (by decide) (by decide) (by decide) (by decide) (by decide)).2 rfl
  refine ⟨?_, by norm_num, ?_, by norm_num⟩
  · rw [h1.1]
    simp only [Except.ok.injEq]
    decide
  · rw [h2.1]
    simp only [Except.ok.injEq]
    decide

/-! ## Claim C10 -/

set_option maxRecDepth 40000 in
/-- C10 counterexample: a successful `write_sector` at the check-valid address
`(track 20480, sector 1)` on a properly sized raw MGT container appends past the
end of the buffer: the buffer grows from 819200 to 819712 bytes, so the claim
that the buffer length is always unchanged by a successful 512-byte write at a
check-valid address is false. -/
theorem write_sector_growth_counterexample :
    (((MGTImage 10).write_sector 20480 1 (List.replicate 512 7)).toOption.map
      fun img => img.buf.size) = some 819712 ∧
    (MGTImage 10).buf.size = 819200 := by
  constructor
  · rfl
  · rfl

/-- C10 (amended): for every successful 512-byte `write_sector` at an address
with track in `[0, 256)`, masked track below 80 and sector in `[1, spt]`, on a
properly sized raw (MGT) or side-major (SAD) container, exactly the 512 bytes at
the computed offset are replaced by the data; every other byte of the buffer and
the buffer's total length are unchanged. -/
theorem write_sector_frame_spec (img : Image) (track sector : Int) (data : List Nat)
    (o : Nat)
    (hk : img.kind = .mgt ∧ img.buf.size = 80 * 2 * img.spt * 512 ∨
          img.kind = .sad ∧ img.buf.size = 22 + 80 * 2 * img.spt * 512)
    (h0 : 0 ≤ track) (h256 : track < 256) (h80 : track.toNat &&& 0x7f < 80)
    (hs1 : 1 ≤ sector) (hs2 : sector ≤ (img.spt : Int))
    (hlen : data.length = 512)
    (ho : img.sector_offset track sector = .ok o) :
    ∃ img2, img.write_sector track sector data = .ok img2 ∧
      img2.kind = img.kind ∧ img2.spt = img.spt ∧
      img2.buf.size = img.buf.size ∧
      (∀ j, j < 512 → img2.buf.mem (o + j) = data.getD j 0) ∧
      (∀ i, i < o ∨ o + 512 ≤ i → img2.buf.mem i = img.buf.mem i) := by
  have hspec := sector_offset_spec img track sector h0 h256 h80 hs1 hs2
  have hbound : o + 512 ≤ img.buf.size := by
    rcases hk with ⟨hkm, hsz⟩ | ⟨hks, hsz⟩
    · have := hspec.1 hkm
      rw [this.1] at ho
      injection ho with ho
      subst ho
      exact this.2 hsz
    · have := hspec.2 hks
      rw [this.1] at ho
      injection ho with ho
      subst ho
      exact this.2 hsz
  refine ⟨{ img with buf := img.buf.writeBytes o data }, ?_, rfl, rfl, ?_, ?_, ?_⟩
  · unfold Image.write_sector
    rw [if_neg (by omega), ho]
    rfl
  · exact ByteBuf.writeBytes_size img.buf o data (by omega)
  · intro j hj
    exact ByteBuf.writeBytes_mem_hit img.buf o data j (by omega) (by omega)
  · intro i hi
    exact ByteBuf.writeBytes_mem_lo img.buf o data i (by omega) (by omega)

/-- Witness for C10 (amended): a concrete in-range write on a fresh MGT image. -/
theorem write_sector_frame_spec_witness :
    ∃ img2, (MGTImage 10).write_sector 4 1 (List.replicate 512 9) = .ok img2 ∧
      img2.kind = (MGTImage 10).kind ∧ img2.spt = (MGTImage 10).spt ∧
      img2.buf.size = (MGTImage 10).buf.size ∧
      (∀ j, j < 512 → img2.buf.mem (40960 + j) = (List.replicate 512 9).getD j 0) ∧
      (∀ i, i < 40960 ∨ 40960 + 512 ≤ i → img2.buf.mem i = (MGTImage 10).buf.mem i) := by
  exact write_sector_frame_spec (MGTImage 10) 4 1 (List.replicate 512 9) 40960
    (Or.inl ⟨rfl, rfl⟩) (by decide) (by decide) (by decide) (by decide) (by decide)
    (List.length_replicate 512 9) rfl

end MgtDiskLib
